import Mathlib

/-!
Verification of the Sudoku engine (packages/shared: puzzle-generator.ts,
dist/engine/puzzle-solver.js, dist/engine/difficulty-calibrator.js).

Modelling conventions:
* A grid is a list of rows of naturals (`0` = empty cell), mirroring the
  `number[][]` arrays of the source.  `getCell`/`setCell` mirror
  `grid[r][c]` reads and in-place writes (out-of-range writes are no-ops,
  as every write in the source is in bounds).
* `Math.random()` is modelled by an oracle `rng : Nat → Nat`: the k-th
  evaluation of `Math.floor(Math.random() * m)` is `rng k % m`, which
  ranges over exactly the values the source can produce.  The call
  counter `k` is threaded explicitly.
* `Date.now()` is likewise an oracle `clock : Nat → Nat` with a threaded
  call counter.
* Unbounded recursion is given explicit fuel; every use instantiates the
  fuel with a bound (number of cells + 1, or the source's own depth cap)
  that the recursion can never exhaust on the inputs in question.
* Scores and confidences (JS floating-point numbers) are modelled as
  rationals; `Math.log` is an uninterpreted oracle parameter.
-/

/-- A Sudoku grid: rows of cells, `0` meaning empty. -/
abbrev Grid := List (List Nat)

/-- `Math.floor(Math.sqrt n)`: the largest `i ≤ n` with `i * i ≤ n`,
as an executable fold (equal to `Nat.sqrt`, see `isqrt_eq`). -/
def isqrt (n : Nat) : Nat :=
  ((Finset.range (n + 1)).filter (fun i => i * i ≤ n)).sup id

theorem isqrt_eq (n : Nat) : isqrt n = Nat.sqrt n := by
  apply le_antisymm
  · apply Finset.sup_le
    intro i hi
    rw [Finset.mem_filter] at hi
    exact Nat.le_sqrt.mpr hi.2
  · apply Finset.le_sup (f := id)
    rw [Finset.mem_filter, Finset.mem_range]
    exact ⟨Nat.lt_succ_of_le (Nat.sqrt_le_self n), Nat.sqrt_le n⟩

/-- Read `grid[r][c]`; out-of-range reads return 0 (never exercised by
the source algorithms on well-formed grids). -/
def getCell (g : Grid) (r c : Nat) : Nat := (g.getD r []).getD c 0

/-- Write `grid[r][c] = v`; a no-op out of range (the source only writes
in bounds). -/
def setCell (g : Grid) (r c v : Nat) : Grid := g.set r ((g.getD r []).set c v)

/-- The grid is an `n × n` matrix. -/
def WFGrid (g : Grid) (n : Nat) : Prop :=
  g.length = n ∧ ∀ row ∈ g, row.length = n

/-- No empty cell among the first `n × n` cells. -/
def CompleteGrid (g : Grid) (n : Nat) : Prop :=
  ∀ r, r < n → ∀ c, c < n → getCell g r c ≠ 0

/-- All cell values are at most `n` (cells hold `0..n`). -/
def InRange (g : Grid) (n : Nat) : Prop :=
  ∀ r, r < n → ∀ c, c < n → getCell g r c ≤ n

/-- Legality under the row, column and box constraints for box side `b`:
no nonzero value is repeated in a row, a column, or a `b × b` box. -/
def Consistent (g : Grid) (n b : Nat) : Prop :=
  (∀ r, r < n → ∀ c₁, c₁ < n → ∀ c₂, c₂ < n → c₁ ≠ c₂ →
    getCell g r c₁ ≠ 0 → getCell g r c₁ ≠ getCell g r c₂) ∧
  (∀ c, c < n → ∀ r₁, r₁ < n → ∀ r₂, r₂ < n → r₁ ≠ r₂ →
    getCell g r₁ c ≠ 0 → getCell g r₁ c ≠ getCell g r₂ c) ∧
  (∀ r₁, r₁ < n → ∀ c₁, c₁ < n → ∀ r₂, r₂ < n → ∀ c₂, c₂ < n →
    r₁ / b = r₂ / b → c₁ / b = c₂ / b → (r₁, c₁) ≠ (r₂, c₂) →
    getCell g r₁ c₁ ≠ 0 → getCell g r₁ c₁ ≠ getCell g r₂ c₂)

/-- Complete and legal: the invariant the spec demands of a returned
solution grid. -/
def LegalSolution (g : Grid) (n : Nat) : Prop :=
  WFGrid g n ∧ CompleteGrid g n ∧ InRange g n ∧ Consistent g n (isqrt n)

/-- Grid `h` agrees with `g` on every nonzero cell of `g`. -/
def ExtendsGrid (g h : Grid) (n : Nat) : Prop :=
  ∀ r, r < n → ∀ c, c < n → getCell g r c ≠ 0 → getCell h r c = getCell g r c

/-- Grid `g` is obtained from `sol` by blanking some cells. -/
def MaskOf (g sol : Grid) (n : Nat) : Prop :=
  ∀ r, r < n → ∀ c, c < n → getCell g r c = 0 ∨ getCell g r c = getCell sol r c

/-- The list is a permutation of `0..n-1` (as produced by the band-wise
permutation generator). -/
def IsPermList (p : List Nat) (n : Nat) : Prop :=
  p.Perm (List.range n)

/-- Number of empty cells among the `n × n` cells. -/
def countZeros (g : Grid) (n : Nat) : Nat :=
  ((Finset.range n ×ˢ Finset.range n).filter (fun q => getCell g q.1 q.2 = 0)).card

-- Decidability of the grid predicates (used to check concrete instances) ------

instance (g : Grid) (n : Nat) : Decidable (WFGrid g n) :=
  decidable_of_iff (g.length = n ∧ ∀ row ∈ g, row.length = n) Iff.rfl

instance (g : Grid) (n : Nat) : Decidable (CompleteGrid g n) :=
  decidable_of_iff (∀ r, r < n → ∀ c, c < n → getCell g r c ≠ 0) Iff.rfl

instance (g : Grid) (n : Nat) : Decidable (InRange g n) :=
  decidable_of_iff (∀ r, r < n → ∀ c, c < n → getCell g r c ≤ n) Iff.rfl

set_option synthInstance.maxSize 2048 in
set_option synthInstance.maxHeartbeats 1000000 in
instance (g : Grid) (n b : Nat) : Decidable (Consistent g n b) :=
  decidable_of_iff
    ((∀ r, r < n → ∀ c₁, c₁ < n → ∀ c₂, c₂ < n → c₁ ≠ c₂ →
        getCell g r c₁ ≠ 0 → getCell g r c₁ ≠ getCell g r c₂) ∧
      (∀ c, c < n → ∀ r₁, r₁ < n → ∀ r₂, r₂ < n → r₁ ≠ r₂ →
        getCell g r₁ c ≠ 0 → getCell g r₁ c ≠ getCell g r₂ c) ∧
      (∀ r₁, r₁ < n → ∀ c₁, c₁ < n → ∀ r₂, r₂ < n → ∀ c₂, c₂ < n →
        r₁ / b = r₂ / b → c₁ / b = c₂ / b → (r₁, c₁) ≠ (r₂, c₂) →
        getCell g r₁ c₁ ≠ 0 → getCell g r₁ c₁ ≠ getCell g r₂ c₂))
    Iff.rfl

instance (g h : Grid) (n : Nat) : Decidable (ExtendsGrid g h n) :=
  decidable_of_iff
    (∀ r, r < n → ∀ c, c < n → getCell g r c ≠ 0 →
      getCell h r c = getCell g r c) Iff.rfl

instance (g sol : Grid) (n : Nat) : Decidable (MaskOf g sol n) :=
  decidable_of_iff
    (∀ r, r < n → ∀ c, c < n →
      getCell g r c = 0 ∨ getCell g r c = getCell sol r c) Iff.rfl

instance (p : List Nat) (n : Nat) : Decidable (IsPermList p n) :=
  decidable_of_iff (p.Perm (List.range n)) Iff.rfl

-- Basic cell-access lemmas ---------------------------------------------------

theorem listGetD_set_eq {l : List α} {i : Nat} (v d : α) (h : i < l.length) :
    (l.set i v).getD i d = v := by
  rw [List.getD_eq_getElem?_getD, List.getElem?_set_eq_of_lt _ h]
  rfl

theorem listGetD_set_ne {l : List α} {i j : Nat} (v d : α) (h : i ≠ j) :
    (l.set i v).getD j d = l.getD j d := by
  rw [List.getD_eq_getElem?_getD, List.getElem?_set_ne h,
    ← List.getD_eq_getElem?_getD]

theorem listGetD_set_irrel {l : List α} {i : Nat} (v : α) (h : l.length ≤ i) :
    l.set i v = l := List.set_eq_of_length_le h

theorem getCell_setCell_eq {g : Grid} {r c : Nat} (v : Nat)
    (hr : r < g.length) (hc : c < (g.getD r []).length) :
    getCell (setCell g r c v) r c = v := by
  unfold getCell setCell
  rw [listGetD_set_eq _ _ hr, listGetD_set_eq _ _ hc]

theorem getCell_setCell_ne {g : Grid} (r c : Nat) {r' c' : Nat} (v : Nat)
    (h : r ≠ r' ∨ c ≠ c') :
    getCell (setCell g r c v) r' c' = getCell g r' c' := by
  unfold getCell setCell
  rcases h with h | h
  · rw [listGetD_set_ne _ _ h]
  · rcases eq_or_ne r r' with rfl | hne
    · rcases Nat.lt_or_ge r g.length with hr | hr
      · rw [listGetD_set_eq _ _ hr, listGetD_set_ne _ _ h]
      · rw [listGetD_set_irrel _ hr]
    · rw [listGetD_set_ne _ _ hne]

theorem getCell_setCell (g : Grid) (r c v r' c' : Nat)
    (hr : r < g.length) (hc : c < (g.getD r []).length) :
    getCell (setCell g r c v) r' c'
      = if r = r' ∧ c = c' then v else getCell g r' c' := by
  split
  · next h => rcases h with ⟨rfl, rfl⟩; exact getCell_setCell_eq v hr hc
  · next h =>
      rcases Decidable.not_and_iff_or_not.mp h with h | h
      · exact getCell_setCell_ne _ _ v (Or.inl h)
      · exact getCell_setCell_ne _ _ v (Or.inr h)

theorem setCell_length (g : Grid) (r c v : Nat) :
    (setCell g r c v).length = g.length := by
  unfold setCell; simp

theorem setCell_row_length (g : Grid) (r c v r' : Nat) :
    ((setCell g r c v).getD r' []).length = (g.getD r' []).length := by
  unfold setCell
  rcases eq_or_ne r r' with rfl | hne
  · rcases Nat.lt_or_ge r g.length with hr | hr
    · rw [listGetD_set_eq _ _ hr, List.length_set]
    · rw [listGetD_set_irrel _ hr]
  · rw [listGetD_set_ne _ _ hne]

theorem setCell_WF {g : Grid} {n : Nat} (r c v : Nat) (h : WFGrid g n) :
    WFGrid (setCell g r c v) n := by
  obtain ⟨hl, hrow⟩ := h
  rcases Nat.lt_or_ge r g.length with hr | hr
  · refine ⟨by rw [setCell_length]; exact hl, ?_⟩
    intro row hrowmem
    unfold setCell at hrowmem
    rcases List.mem_or_eq_of_mem_set hrowmem with hmem | rfl
    · exact hrow _ hmem
    · rw [List.length_set]
      exact hrow _ (by
        rw [List.getD_eq_getElem?_getD, List.getElem?_eq_getElem hr]
        exact List.getElem_mem _)
  · unfold setCell
    rw [listGetD_set_irrel _ hr]
    exact ⟨hl, hrow⟩

/-- Blanking a cell that is already empty is a no-op (covers out-of-range
reads, which return the default 0 and make the write a no-op too). -/
theorem setCell_self {g : Grid} {r c : Nat} (h : getCell g r c = 0) :
    setCell g r c 0 = g := by
  unfold setCell
  rcases Nat.lt_or_ge r g.length with hr | hr
  · rcases Nat.lt_or_ge c (g.getD r []).length with hc | hc
    · have hrow : (g.getD r []).set c 0 = g.getD r [] := by
        apply List.ext_getElem?
        intro i
        rcases eq_or_ne c i with rfl | hne
        · rw [List.getElem?_set_eq_of_lt _ hc, List.getElem?_eq_getElem hc]
          unfold getCell at h
          rw [List.getD_eq_getElem?_getD, List.getElem?_eq_getElem hc] at h
          simp only [Option.getD_some] at h
          exact congrArg some h.symm
        · rw [List.getElem?_set_ne hne]
      rw [hrow]
      apply List.ext_getElem?
      intro i
      rcases eq_or_ne r i with rfl | hne
      · rw [List.getElem?_set_eq_of_lt _ hr,
          List.getD_eq_getElem?_getD, List.getElem?_eq_getElem hr]
        rfl
      · rw [List.getElem?_set_ne hne]
    · rw [listGetD_set_irrel (l := g.getD r []) _ hc]
      apply List.ext_getElem?
      intro i
      rcases eq_or_ne r i with rfl | hne
      · rw [List.getElem?_set_eq_of_lt _ hr,
          List.getD_eq_getElem?_getD, List.getElem?_eq_getElem hr]
        rfl
      · rw [List.getElem?_set_ne hne]
  · exact listGetD_set_irrel _ hr

theorem setCell_setCell (g : Grid) (r c v w : Nat) :
    setCell (setCell g r c v) r c w = setCell g r c w := by
  unfold setCell
  rcases Nat.lt_or_ge r g.length with hr | hr
  · rw [listGetD_set_eq _ _ hr, List.set_set, List.set_set]
  · rw [listGetD_set_irrel (l := g) _ hr, listGetD_set_irrel (l := g) _ hr]

-- Domain enumerations (src/packages/shared/src/types/puzzle.ts) ---------------

/-- The `Difficulty` enumeration. -/
inductive Difficulty where
  | beginner | easy | medium | hard | expert
deriving DecidableEq, Repr

/-- The `PuzzleVariant` enumeration. -/
inductive PuzzleVariant where
  | classic | killer | xSudoku | hyper | mini | mega
deriving DecidableEq, Repr

/-- The `SolvingTechnique` enumeration, in declaration order. -/
inductive SolvingTechnique where
  | nakedSingles | hiddenSingles | nakedPairs | hiddenPairs | pointingPairs
  | boxLineReduction | xWing | swordfish | xyWing | coloring | forcingChains
deriving DecidableEq, Repr

/-- A cell coordinate (`Position` in the source). -/
structure Position where
  row : Nat
  col : Nat
deriving DecidableEq, Repr

/-- The `PuzzleMetadata` record (fields the engine computes; the id string
and timestamps are presentation-only and omitted). -/
structure PuzzleMetadata where
  estimatedSolveTime : Int
  techniques : List SolvingTechnique
  rating : ℚ
  playCount : Nat
  averageSolveTime : Nat
  tags : List String
deriving Repr

/-- The `Puzzle` record returned by the generator. -/
structure Puzzle where
  variant : PuzzleVariant
  difficulty : Difficulty
  size : Nat
  initialState : Grid
  solution : Grid
  metadata : PuzzleMetadata
  difficultyScore : ℚ
deriving Repr

-- Randomness model ------------------------------------------------------------

/-- Oracle for `Math.random()`: the k-th random draw. -/
abbrev Rng := Nat → Nat

/-- The JS array-destructuring swap `[a[i], a[j]] = [a[j], a[i]]`. -/
def swapList (l : List α) (i j : Nat) : List α :=
  match l[i]?, l[j]? with
  | some a, some b => (l.set i b).set j a
  | _, _ => l

/-- Fisher–Yates loop of `shuffleArray`, from index `i` down to 1; `k` is
the `Math.random()` call counter. -/
def shuffleGo (rng : Rng) : List α → Nat → Nat → List α × Nat
  | l, 0, k => (l, k)
  | l, i + 1, k =>
    let j := rng k % (i + 2)
    shuffleGo rng (swapList l (i + 1) j) i (k + 1)

/-- `shuffleArray`: copy the array and run Fisher–Yates. -/
def shuffleArray (rng : Rng) (l : List α) (k : Nat) : List α × Nat :=
  shuffleGo rng l (l.length - 1) k

theorem cons_set_perm {x : α} : ∀ (xs : List α) (j : Nat) (hj : j < xs.length),
    (xs.get ⟨j, hj⟩ :: xs.set j x).Perm (x :: xs)
  | y :: ys, 0, _ => List.Perm.swap _ _ _
  | y :: ys, j + 1, hj => by
    have hj' : j < ys.length := by simpa using hj
    show (ys.get ⟨j, hj'⟩ :: y :: ys.set j x).Perm (x :: y :: ys)
    refine List.Perm.trans (List.Perm.swap _ _ _) ?_
    refine List.Perm.trans (List.Perm.cons y (cons_set_perm ys j hj')) ?_
    exact List.Perm.swap _ _ _

theorem set_set_perm : ∀ (l : List α) (i j : Nat) (hi : i < l.length)
    (hj : j < l.length), ((l.set i (l.get ⟨j, hj⟩)).set j (l.get ⟨i, hi⟩)).Perm l
  | x :: xs, 0, 0, _, _ => by simp
  | x :: xs, 0, j + 1, hi, hj => by
    have hj' : j < xs.length := by simpa using hj
    have : ((x :: xs).set 0 ((x :: xs).get ⟨j + 1, hj⟩)).set (j + 1)
        ((x :: xs).get ⟨0, hi⟩) = xs.get ⟨j, hj'⟩ :: xs.set j x := rfl
    rw [this]
    exact cons_set_perm xs j hj'
  | x :: xs, i + 1, 0, hi, hj => by
    have hi' : i < xs.length := by simpa using hi
    have : ((x :: xs).set (i + 1) ((x :: xs).get ⟨0, hj⟩)).set 0
        ((x :: xs).get ⟨i + 1, hi⟩) = xs.get ⟨i, hi'⟩ :: xs.set i x := rfl
    rw [this]
    exact cons_set_perm xs i hi'
  | x :: xs, i + 1, j + 1, hi, hj => by
    have hi' : i < xs.length := by simpa using hi
    have hj' : j < xs.length := by simpa using hj
    have : ((x :: xs).set (i + 1) ((x :: xs).get ⟨j + 1, hj⟩)).set (j + 1)
        ((x :: xs).get ⟨i + 1, hi⟩)
        = x :: (xs.set i (xs.get ⟨j, hj'⟩)).set j (xs.get ⟨i, hi'⟩) := rfl
    rw [this]
    exact List.Perm.cons x (set_set_perm xs i j hi' hj')

theorem swapList_perm (l : List α) (i j : Nat) : (swapList l i j).Perm l := by
  unfold swapList
  split
  · next a b ha hb =>
      rcases List.getElem?_eq_some_iff.mp ha with ⟨hi, rfl⟩
      rcases List.getElem?_eq_some_iff.mp hb with ⟨hj, rfl⟩
      simpa using set_set_perm l i j hi hj
  · exact List.Perm.refl l

theorem shuffleGo_perm (rng : Rng) :
    ∀ (l : List α) (i k : Nat), ((shuffleGo rng l i k).1).Perm l
  | l, 0, k => List.Perm.refl l
  | l, i + 1, k => by
    unfold shuffleGo
    exact (shuffleGo_perm rng _ i (k + 1)).trans (swapList_perm l (i + 1) _)

theorem shuffleArray_perm (rng : Rng) (l : List α) (k : Nat) :
    ((shuffleArray rng l k).1).Perm l :=
  shuffleGo_perm rng l (l.length - 1) k

-- PuzzleGenerator (src/packages/shared/src/engine/puzzle-generator.ts) --------

namespace PuzzleGenerator

/-- `isValidMove(grid,row,col,num,size)`: the value is absent from the
row, the column, and the containing `√size × √size` box. -/
def isValidMove (grid : Grid) (row col num size : Nat) : Bool :=
  ((List.range size).all fun c => getCell grid row c ≠ num) &&
  ((List.range size).all fun r => getCell grid r col ≠ num) &&
  (let boxSize := isqrt size
   let boxRow := row / boxSize * boxSize
   let boxCol := col / boxSize * boxSize
   (List.range boxSize).all fun dr =>
     (List.range boxSize).all fun dc =>
       getCell grid (boxRow + dr) (boxCol + dc) ≠ num)

/-- `findEmptyCell`: row-major scan for the first 0 cell. -/
def findEmptyCell (grid : Grid) (size : Nat) : Option (Nat × Nat) :=
  (List.range size).findSome? fun row =>
    (List.range size).findSome? fun col =>
      if getCell grid row col = 0 then some (row, col) else none

/-- `solvePuzzle(grid, size)`: randomized depth-first backtracking fill.
The candidate order at each cell is a fresh shuffle of `1..size`; the
grid and the random-call counter are threaded as values, and the `fuel`
argument bounds the recursion depth (each level fills one empty cell, so
`size² + 1` fuel can never run out). -/
def solvePuzzle (rng : Rng) : Nat → Grid → Nat → Nat → Bool × Grid × Nat
  | 0, grid, _, k => (false, grid, k)
  | fuel + 1, grid, size, k =>
    match findEmptyCell grid size with
    | none => (true, grid, k)
    | some (row, col) =>
      let p := shuffleArray rng (List.range' 1 size) k
      p.1.foldl
        (fun st num =>
          match st with
          | (true, g, k) => (true, g, k)
          | (false, g, k) =>
            if isValidMove g row col num size then
              match solvePuzzle rng fuel (setCell g row col num) size k with
              | (true, g', k') => (true, g', k')
              | (false, g', k') => (false, setCell g' row col 0, k')
            else (false, g, k))
        (false, grid, p.2)

/-- `generateCompleteSolution`: fill an all-empty grid; `none` models the
thrown generation-failure error. -/
def generateCompleteSolution (rng : Rng) (size k : Nat) : Option Grid × Nat :=
  match solvePuzzle rng (size * size + 1)
      (List.replicate size (List.replicate size 0)) size k with
  | (true, g, k1) => (some g, k1)
  | (false, _, k1) => (none, k1)

end PuzzleGenerator

-- Characterizations of the generator's primitive searches ---------------------

theorem PG_isValidMove_iff (grid : Grid) (row col num size : Nat) :
    PuzzleGenerator.isValidMove grid row col num size = true ↔
      (∀ c, c < size → getCell grid row c ≠ num) ∧
      (∀ r, r < size → getCell grid r col ≠ num) ∧
      (∀ dr, dr < isqrt size → ∀ dc, dc < isqrt size →
        getCell grid (row / isqrt size * isqrt size + dr)
          (col / isqrt size * isqrt size + dc) ≠ num) := by
  unfold PuzzleGenerator.isValidMove
  simp [List.all_eq_true, decide_eq_true_iff, and_assoc]

theorem PG_findEmptyCell_none_iff (grid : Grid) (size : Nat) :
    PuzzleGenerator.findEmptyCell grid size = none ↔
      ∀ r, r < size → ∀ c, c < size → getCell grid r c ≠ 0 := by
  unfold PuzzleGenerator.findEmptyCell
  rw [List.findSome?_eq_none_iff]
  constructor
  · intro h r hr c hc hzero
    have := h r (List.mem_range.mpr hr)
    rw [List.findSome?_eq_none_iff] at this
    have := this c (List.mem_range.mpr hc)
    simp [hzero] at this
  · intro h r hr
    rw [List.findSome?_eq_none_iff]
    intro c hc
    simp only [ite_eq_right_iff]
    intro hzero
    exact absurd hzero (h r (List.mem_range.mp hr) c (List.mem_range.mp hc))

theorem PG_findEmptyCell_some (grid : Grid) (size : Nat) {r c : Nat}
    (h : PuzzleGenerator.findEmptyCell grid size = some (r, c)) :
    r < size ∧ c < size ∧ getCell grid r c = 0 := by
  unfold PuzzleGenerator.findEmptyCell at h
  obtain ⟨row, hrow, hfind⟩ := List.exists_of_findSome?_eq_some h
  obtain ⟨col, hcol, hcell⟩ := List.exists_of_findSome?_eq_some hfind
  by_cases hz : getCell grid row col = 0
  · simp only [hz, if_pos rfl] at hcell
    obtain ⟨rfl, rfl⟩ : row = r ∧ col = c := by
      constructor <;> [injection hcell with h'; injection hcell with h'] <;>
        [exact congrArg Prod.fst h'; exact congrArg Prod.snd h']
    exact ⟨List.mem_range.mp hrow, List.mem_range.mp hcol, hz⟩
  · simp [hz] at hcell

-- Bridges between the loop-based checks and the legality predicates ----------

theorem WFGrid.row_length {g : Grid} {n : Nat} (hwf : WFGrid g n) {r : Nat}
    (hr : r < n) : (g.getD r []).length = n := by
  obtain ⟨hl, hrow⟩ := hwf
  have hrlen : r < g.length := by omega
  rw [List.getD_eq_getElem?_getD, List.getElem?_eq_getElem hrlen]
  exact hrow _ (List.getElem_mem hrlen)

theorem getCell_setCell_WF {g : Grid} {n : Nat} (hwf : WFGrid g n) {r c : Nat}
    (hr : r < n) (hc : c < n) (v r' c' : Nat) :
    getCell (setCell g r c v) r' c'
      = if r = r' ∧ c = c' then v else getCell g r' c' := by
  have h1 : r < g.length := by have := hwf.1; omega
  have h2 : c < (g.getD r []).length := by rw [hwf.row_length hr]; exact hc
  exact getCell_setCell g r c v r' c' h1 h2

theorem sqrt_of_sq {b n : Nat} (hb : b * b = n) : isqrt n = b := by
  rw [isqrt_eq]
  subst hb
  have := Nat.sqrt_eq' b
  rwa [pow_two] at this

theorem div_lt_of_sq {b n r : Nat} (hb : b * b = n) (hr : r < n) : r / b < b := by
  rcases Nat.eq_zero_or_pos b with rfl | hbpos
  · omega
  · exact (Nat.div_lt_iff_lt_mul hbpos).mpr (by omega)

theorem box_cell_lt {b n r : Nat} (hb : b * b = n) (hr : r < n) {dr : Nat}
    (hdr : dr < b) : r / b * b + dr < n := by
  have h1 : r / b < b := div_lt_of_sq hb hr
  have hbpos : 0 < b := by
    rcases Nat.eq_zero_or_pos b with rfl | hbpos
    · omega
    · exact hbpos
  have h2 : r / b * b + b ≤ b * b := by
    have := Nat.mul_le_mul_right b (Nat.succ_le_of_lt h1)
    calc r / b * b + b = (r / b + 1) * b := by ring
      _ ≤ b * b := this
  omega

theorem box_cell_div {b r : Nat} (hbpos : 0 < b) {dr : Nat} (hdr : dr < b) :
    (r / b * b + dr) / b = r / b := by
  rw [Nat.mul_comm (r / b) b, Nat.mul_add_div hbpos]
  have : dr / b = 0 := Nat.div_eq_of_lt hdr
  omega

theorem box_decomp {b n : Nat} (hb : b * b = n) {r r₂ : Nat} (hr : r < n)
    (hr2 : r₂ < n) (h : r₂ / b = r / b) :
    ∃ dr, dr < b ∧ r₂ = r / b * b + dr := by
  have hbpos : 0 < b := by
    rcases Nat.eq_zero_or_pos b with rfl | hbpos
    · omega
    · exact hbpos
  refine ⟨r₂ % b, Nat.mod_lt _ hbpos, ?_⟩
  have hdm : b * (r₂ / b) + r₂ % b = r₂ := Nat.div_add_mod r₂ b
  have hcomm : r₂ / b * b = b * (r₂ / b) := Nat.mul_comm _ _
  rw [← h]
  omega

/-- If a complete consistent grid `h` extends `g`, then `h`'s value at an
empty cell of `g` passes the generator's `isValidMove` check on `g`. -/
theorem isValidMove_of_completion {g h : Grid} {n b r c : Nat}
    (hb : b * b = n)
    (hcomp : CompleteGrid h n) (hcons : Consistent h n b)
    (hext : ExtendsGrid g h n)
    (hr : r < n) (hc : c < n) (hz : getCell g r c = 0) :
    PuzzleGenerator.isValidMove g r c (getCell h r c) n = true := by
  obtain ⟨hrows, hcols, hboxes⟩ := hcons
  have hv : getCell h r c ≠ 0 := hcomp r hr c hc
  rw [PG_isValidMove_iff, sqrt_of_sq hb]
  refine ⟨?_, ?_, ?_⟩
  · intro c' hc' heq
    have hnz : getCell g r c' ≠ 0 := by rw [heq]; exact hv
    have hh : getCell h r c' = getCell g r c' := hext r hr c' hc' hnz
    rcases eq_or_ne c' c with rfl | hne
    · exact absurd hz hnz
    · exact hrows r hr c hc c' hc' hne.symm hv (by rw [hh, heq])
  · intro r' hr' heq
    have hnz : getCell g r' c ≠ 0 := by rw [heq]; exact hv
    have hh : getCell h r' c = getCell g r' c := hext r' hr' c hc hnz
    rcases eq_or_ne r' r with rfl | hne
    · exact absurd hz hnz
    · exact hcols c hc r hr r' hr' hne.symm hv (by rw [hh, heq])
  · intro dr hdr dc hdc heq
    set r₂ := r / b * b + dr with hr₂
    set c₂ := c / b * b + dc with hc₂
    have hbpos : 0 < b := by
      rcases Nat.eq_zero_or_pos b with rfl | hp
      · omega
      · exact hp
    have hr₂n : r₂ < n := box_cell_lt hb hr hdr
    have hc₂n : c₂ < n := box_cell_lt hb hc hdc
    have hdiv_r : r₂ / b = r / b := box_cell_div hbpos hdr
    have hdiv_c : c₂ / b = c / b := box_cell_div hbpos hdc
    have hnz : getCell g r₂ c₂ ≠ 0 := by rw [heq]; exact hv
    have hh : getCell h r₂ c₂ = getCell g r₂ c₂ := hext r₂ hr₂n c₂ hc₂n hnz
    rcases eq_or_ne (r₂, c₂) (r, c) with hpair | hne
    · obtain ⟨h1, h2⟩ := Prod.mk.injEq _ _ _ _ ▸ hpair
      rw [h1, h2] at hnz
      exact absurd hz hnz
    · exact hboxes r hr c hc r₂ hr₂n c₂ hc₂n hdiv_r.symm hdiv_c.symm
        (by intro hcontra; exact hne (by rw [Prod.mk.injEq] at hcontra ⊢; tauto))
        hv (by rw [hh, heq])

/-- Placing a value that passes `isValidMove` at an empty cell preserves
consistency. -/
theorem consistent_setCell {g : Grid} {n b r c v : Nat}
    (hb : b * b = n) (hwf : WFGrid g n)
    (hr : r < n) (hc : c < n) (hz : getCell g r c = 0)
    (hvalid : PuzzleGenerator.isValidMove g r c v n = true)
    (hcons : Consistent g n b) :
    Consistent (setCell g r c v) n b := by
  rw [PG_isValidMove_iff, sqrt_of_sq hb] at hvalid
  obtain ⟨hvrow, hvcol, hvbox⟩ := hvalid
  obtain ⟨hrows, hcols, hboxes⟩ := hcons
  have hget : ∀ r' c', getCell (setCell g r c v) r' c'
      = if r = r' ∧ c = c' then v else getCell g r' c' :=
    fun r' c' => getCell_setCell_WF hwf hr hc v r' c'
  have hbpos : 0 < b := by
    rcases Nat.eq_zero_or_pos b with rfl | hp
    · omega
    · exact hp
  refine ⟨?_, ?_, ?_⟩
  · intro i hi c₁ hc₁ c₂ hc₂ hne hnz
    rw [hget, hget] at *
    by_cases h1 : r = i ∧ c = c₁
    · obtain ⟨rfl, rfl⟩ := h1
      rw [if_pos ⟨rfl, rfl⟩]
      rw [if_neg (by tauto)]
      exact fun heq => hvrow c₂ hc₂ heq.symm
    · rw [if_neg h1] at hnz ⊢
      by_cases h2 : r = i ∧ c = c₂
      · obtain ⟨rfl, rfl⟩ := h2
        rw [if_pos ⟨rfl, rfl⟩]
        exact hvrow c₁ hc₁
      · rw [if_neg h2]
        exact hrows i hi c₁ hc₁ c₂ hc₂ hne hnz
  · intro j hj r₁ hr₁ r₂ hr₂ hne hnz
    rw [hget, hget] at *
    by_cases h1 : r = r₁ ∧ c = j
    · obtain ⟨rfl, rfl⟩ := h1
      rw [if_pos ⟨rfl, rfl⟩]
      rw [if_neg (by tauto)]
      exact fun heq => hvcol r₂ hr₂ heq.symm
    · rw [if_neg h1] at hnz ⊢
      by_cases h2 : r = r₂ ∧ c = j
      · obtain ⟨rfl, rfl⟩ := h2
        rw [if_pos ⟨rfl, rfl⟩]
        exact hvcol r₁ hr₁
      · rw [if_neg h2]
        exact hcols j hj r₁ hr₁ r₂ hr₂ hne hnz
  · intro r₁ hr₁ c₁ hc₁ r₂ hr₂ c₂ hc₂ hdivr hdivc hnepair hnz
    rw [hget, hget] at *
    by_cases h1 : r = r₁ ∧ c = c₁
    · obtain ⟨rfl, rfl⟩ := h1
      rw [if_pos ⟨rfl, rfl⟩]
      have h2 : ¬(r = r₂ ∧ c = c₂) := by
        intro hcontra
        exact hnepair (by rw [Prod.mk.injEq]; omega)
      rw [if_neg h2]
      obtain ⟨dr, hdr, hdr_eq⟩ := box_decomp hb hr₁ hr₂ hdivr.symm
      obtain ⟨dc, hdc, hdc_eq⟩ := box_decomp hb hc₁ hc₂ hdivc.symm
      rw [hdr_eq, hdc_eq]
      exact fun heq => hvbox dr hdr dc hdc heq.symm
    · rw [if_neg h1] at hnz ⊢
      by_cases h2 : r = r₂ ∧ c = c₂
      · obtain ⟨rfl, rfl⟩ := h2
        rw [if_pos ⟨rfl, rfl⟩]
        obtain ⟨dr, hdr, hdr_eq⟩ := box_decomp hb hr₂ hr₁ hdivr
        obtain ⟨dc, hdc, hdc_eq⟩ := box_decomp hb hc₂ hc₁ hdivc
        rw [hdr_eq, hdc_eq]
        exact fun heq => hvbox dr hdr dc hdc heq
      · rw [if_neg h2]
        exact hboxes r₁ hr₁ c₁ hc₁ r₂ hr₂ c₂ hc₂ hdivr hdivc hnepair hnz

-- Helper lemmas for the backtracking proofs -----------------------------------

theorem foldl_pres_mem {σ α : Type _} (step : σ → α → σ) (P : σ → Prop) :
    ∀ (l : List α) (s : σ), (∀ s a, a ∈ l → P s → P (step s a)) → P s →
      P (l.foldl step s)
  | [], s, _, hs => hs
  | a :: l, s, hstep, hs =>
    foldl_pres_mem step P l (step s a)
      (fun s' a' ha' => hstep s' a' (List.mem_cons_of_mem a ha'))
      (hstep s a (List.mem_cons_self a l) hs)

theorem extendsGrid_refl (g : Grid) (n : Nat) : ExtendsGrid g g n :=
  fun _ _ _ _ _ => rfl

theorem extendsGrid_trans {g h h' : Grid} {n : Nat}
    (h1 : ExtendsGrid g h n) (h2 : ExtendsGrid h h' n) : ExtendsGrid g h' n := by
  intro r hr c hc hnz
  have hgh := h1 r hr c hc hnz
  have hnz' : getCell h r c ≠ 0 := by rw [hgh]; exact hnz
  rw [h2 r hr c hc hnz', hgh]

theorem extendsGrid_setCell {g : Grid} {n : Nat} (hwf : WFGrid g n)
    {r c : Nat} (hr : r < n) (hc : c < n) (hz : getCell g r c = 0) (v : Nat) :
    ExtendsGrid g (setCell g r c v) n := by
  intro i hi j hj hnz
  rw [getCell_setCell_WF hwf hr hc]
  rw [if_neg ?_]
  intro ⟨rfl, rfl⟩
  exact hnz hz

theorem inRange_setCell {g : Grid} {n : Nat} (hwf : WFGrid g n)
    {r c v : Nat} (hr : r < n) (hc : c < n) (hv : v ≤ n)
    (hrange : InRange g n) : InRange (setCell g r c v) n := by
  intro i hi j hj
  rw [getCell_setCell_WF hwf hr hc]
  split
  · exact hv
  · exact hrange i hi j hj

theorem countZeros_setCell {g : Grid} {n : Nat} (hwf : WFGrid g n)
    {r c v : Nat} (hr : r < n) (hc : c < n) (hz : getCell g r c = 0)
    (hv : v ≠ 0) :
    countZeros (setCell g r c v) n + 1 = countZeros g n := by
  unfold countZeros
  have hmem : (r, c) ∈ (Finset.range n ×ˢ Finset.range n).filter
      (fun q => getCell g q.1 q.2 = 0) := by
    simp [Finset.mem_filter, Finset.mem_product, hr, hc, hz]
  have hfilter : (Finset.range n ×ˢ Finset.range n).filter
      (fun q => getCell (setCell g r c v) q.1 q.2 = 0)
      = ((Finset.range n ×ˢ Finset.range n).filter
          (fun q => getCell g q.1 q.2 = 0)).erase (r, c) := by
    ext ⟨i, j⟩
    simp only [Finset.mem_filter, Finset.mem_erase, Finset.mem_product,
      Finset.mem_range]
    rw [getCell_setCell_WF hwf hr hc]
    constructor
    · rintro ⟨⟨hi, hj⟩, hcell⟩
      split at hcell
      · next heq => exact absurd hcell hv
      · next hne =>
          refine ⟨?_, ⟨hi, hj⟩, hcell⟩
          intro hcontra
          rw [Prod.mk.injEq] at hcontra
          exact hne ⟨hcontra.1.symm, hcontra.2.symm⟩
    · rintro ⟨hne, ⟨hi, hj⟩, hcell⟩
      refine ⟨⟨hi, hj⟩, ?_⟩
      rw [if_neg ?_]
      · exact hcell
      · intro ⟨rfl, rfl⟩
        exact hne rfl
  rw [hfilter, Finset.card_erase_of_mem hmem]
  have : 0 < ((Finset.range n ×ˢ Finset.range n).filter
      (fun q => getCell g q.1 q.2 = 0)).card :=
    Finset.card_pos.mpr ⟨(r, c), hmem⟩
  omega

theorem countZeros_pos {g : Grid} {n r c : Nat} (hr : r < n) (hc : c < n)
    (hz : getCell g r c = 0) : 0 < countZeros g n := by
  unfold countZeros
  apply Finset.card_pos.mpr
  exact ⟨(r, c), by simp [Finset.mem_filter, Finset.mem_product, hr, hc, hz]⟩

theorem countZeros_eq_zero {g : Grid} {n : Nat}
    (h : ∀ r, r < n → ∀ c, c < n → getCell g r c ≠ 0) :
    countZeros g n = 0 := by
  unfold countZeros
  rw [Finset.card_eq_zero]
  ext ⟨i, j⟩
  simp only [Finset.mem_filter, Finset.mem_product, Finset.mem_range,
    Finset.not_mem_empty, iff_false, not_and]
  rintro ⟨hi, hj⟩
  exact h i hi j hj

-- solvePuzzle: restoration, soundness, completeness ---------------------------

theorem PG_solvePuzzle_false (rng : Rng) :
    ∀ (fuel : Nat) (g : Grid) (size k : Nat),
      (PuzzleGenerator.solvePuzzle rng fuel g size k).1 = false →
      (PuzzleGenerator.solvePuzzle rng fuel g size k).2.1 = g := by
  intro fuel
  induction fuel with
  | zero => intro g size k _; rfl
  | succ fuel ih =>
    intro g size k hfalse
    rw [PuzzleGenerator.solvePuzzle] at hfalse ⊢
    cases hfind : PuzzleGenerator.findEmptyCell g size with
    | none => rw [hfind] at hfalse
    | some rc =>
      obtain ⟨r, c⟩ := rc
      rw [hfind] at hfalse
      obtain ⟨hr, hc, hz⟩ := PG_findEmptyCell_some g size hfind
      dsimp only at hfalse ⊢
      refine foldl_pres_mem _
        (fun st : Bool × Grid × Nat => st.1 = false → st.2.1 = g) _ _ ?_
        (fun _ => rfl) hfalse
      rintro ⟨b, gs, ks⟩ num _ hP
      cases b with
      | true => intro hcontra; simp at hcontra
      | false =>
        have hgs : g = gs := (hP rfl).symm
        subst hgs
        dsimp only
        split
        · rcases hrec : PuzzleGenerator.solvePuzzle rng fuel
              (setCell g r c num) size ks with ⟨bb, g2, k2⟩
          cases bb with
          | true => intro hcontra; simp at hcontra
          | false =>
            intro _
            dsimp only
            have hg2 : g2 = setCell g r c num := by
              have h5 := ih (setCell g r c num) size ks (by rw [hrec])
              rw [hrec] at h5
              exact h5
            rw [hg2, setCell_setCell, setCell_self hz]
        · exact fun _ => rfl

theorem shuffled_range_mem {rng : Rng} {n k num : Nat}
    (h : num ∈ (shuffleArray rng (List.range' 1 n) k).1) :
    1 ≤ num ∧ num ≤ n := by
  have hperm := shuffleArray_perm rng (List.range' 1 n) k
  have := hperm.mem_iff.mp h
  rw [List.mem_range'] at this
  omega

/-- Soundness of the generator's backtracking fill: a successful run
starting from a legal grid yields a complete legal grid extending it. -/
theorem PG_solvePuzzle_sound (rng : Rng) {n b : Nat} (hb : b * b = n) :
    ∀ (fuel : Nat) (g : Grid) (k : Nat),
      WFGrid g n → Consistent g n b → InRange g n →
      (PuzzleGenerator.solvePuzzle rng fuel g n k).1 = true →
      WFGrid (PuzzleGenerator.solvePuzzle rng fuel g n k).2.1 n ∧
      Consistent (PuzzleGenerator.solvePuzzle rng fuel g n k).2.1 n b ∧
      InRange (PuzzleGenerator.solvePuzzle rng fuel g n k).2.1 n ∧
      CompleteGrid (PuzzleGenerator.solvePuzzle rng fuel g n k).2.1 n ∧
      ExtendsGrid g (PuzzleGenerator.solvePuzzle rng fuel g n k).2.1 n := by
  intro fuel
  induction fuel with
  | zero =>
    intro g k _ _ _ htrue
    exact absurd htrue (by simp [PuzzleGenerator.solvePuzzle])
  | succ fuel ih =>
    intro g k hwf hcons hrange htrue
    rw [PuzzleGenerator.solvePuzzle] at htrue ⊢
    cases hfind : PuzzleGenerator.findEmptyCell g n with
    | none =>
      rw [hfind] at htrue
      refine ⟨hwf, hcons, hrange, ?_, extendsGrid_refl g n⟩
      exact (PG_findEmptyCell_none_iff g n).mp hfind
    | some rc =>
      obtain ⟨r, c⟩ := rc
      rw [hfind] at htrue
      obtain ⟨hr, hc, hz⟩ := PG_findEmptyCell_some g n hfind
      dsimp only at htrue ⊢
      refine (foldl_pres_mem _
        (fun st : Bool × Grid × Nat =>
          (st.1 = false → st.2.1 = g) ∧
          (st.1 = true → WFGrid st.2.1 n ∧ Consistent st.2.1 n b ∧
            InRange st.2.1 n ∧ CompleteGrid st.2.1 n ∧
            ExtendsGrid g st.2.1 n)) _ _
        ?_ ⟨fun _ => rfl, fun h => by simp at h⟩).2 htrue
      intro st num hmem hPst
      obtain ⟨bst, gs, ks⟩ := st
      obtain ⟨hPf, hPt⟩ := hPst
      cases bst with
      | true => exact ⟨fun h => by simp at h, hPt⟩
      | false =>
        have hgs : g = gs := (hPf rfl).symm
        subst hgs
        dsimp only
        split
        · next hvalid =>
          obtain ⟨hnum1, hnum2⟩ := shuffled_range_mem hmem
          have hwf' : WFGrid (setCell g r c num) n := setCell_WF r c num hwf
          have hcons' : Consistent (setCell g r c num) n b :=
            consistent_setCell hb hwf hr hc hz hvalid hcons
          have hrange' : InRange (setCell g r c num) n :=
            inRange_setCell hwf hr hc hnum2 hrange
          rcases hrec : PuzzleGenerator.solvePuzzle rng fuel
              (setCell g r c num) n ks with ⟨bb, g2, k2⟩
          cases bb with
          | true =>
            refine ⟨fun h => by simp at h, fun _ => ?_⟩
            have hind := ih (setCell g r c num) ks hwf' hcons' hrange'
              (by rw [hrec])
            rw [hrec] at hind
            obtain ⟨h1, h2, h3, h4, h5⟩ := hind
            exact ⟨h1, h2, h3, h4,
              extendsGrid_trans (extendsGrid_setCell hwf hr hc hz num) h5⟩
          | false =>
            refine ⟨fun _ => ?_, fun h => by simp at h⟩
            have hg2 : g2 = setCell g r c num := by
              have h5 := PG_solvePuzzle_false rng fuel (setCell g r c num)
                n ks (by rw [hrec])
              rw [hrec] at h5
              exact h5
            dsimp only
            rw [hg2, setCell_setCell, setCell_self hz]
        · exact ⟨fun _ => rfl, fun h => by simp at h⟩

theorem foldl_fixed {σ α : Type _} (step : σ → α → σ) (s : σ)
    (hfix : ∀ a, step s a = s) : ∀ l : List α, l.foldl step s = s
  | [] => rfl
  | a :: l => by rw [List.foldl_cons, hfix a]; exact foldl_fixed step s hfix l

theorem extendsGrid_setCell_of_completion {g h : Grid} {n r c v : Nat}
    (hwf : WFGrid g n) (hr : r < n) (hc : c < n)
    (hext : ExtendsGrid g h n) (hval : getCell h r c = v) :
    ExtendsGrid (setCell g r c v) h n := by
  intro i hi j hj hnz
  rw [getCell_setCell_WF hwf hr hc] at hnz ⊢
  split at hnz
  · next heq =>
      obtain ⟨rfl, rfl⟩ := heq
      rw [if_pos ⟨rfl, rfl⟩, hval]
  · next hne =>
      rw [if_neg hne]
      exact hext i hi j hj hnz

/-- If any value in the candidate list is valid and leads to a successful
recursive fill, the candidate loop of `solvePuzzle` succeeds. -/
theorem PG_fold_success (rng : Rng) (fuel n r c : Nat) (g : Grid)
    (hz : getCell g r c = 0) :
    ∀ (nums : List Nat) (k0 v : Nat), v ∈ nums →
      PuzzleGenerator.isValidMove g r c v n = true →
      (∀ k', (PuzzleGenerator.solvePuzzle rng fuel (setCell g r c v) n k').1
        = true) →
      ((nums.foldl (fun st num =>
        match st with
        | (true, g, k) => (true, g, k)
        | (false, g, k) =>
          if PuzzleGenerator.isValidMove g r c num n = true then
            match PuzzleGenerator.solvePuzzle rng fuel (setCell g r c num)
                n k with
            | (true, g', k') => (true, g', k')
            | (false, g', k') => (false, setCell g' r c 0, k')
          else (false, g, k)) (false, g, k0)).1 = true) := by
  intro nums
  induction nums with
  | nil => intro k0 v hv; exact absurd hv (List.not_mem_nil v)
  | cons a rest ihnums =>
    intro k0 v hv hvalid hsucc
    rw [List.foldl_cons]
    by_cases hva : PuzzleGenerator.isValidMove g r c a n = true
    · rcases hrec : PuzzleGenerator.solvePuzzle rng fuel (setCell g r c a)
          n k0 with ⟨bb, g2, k2⟩
      cases bb with
      | true =>
        have hstep : (match (false, g, k0) with
          | (true, g, k) => (true, g, k)
          | (false, g, k) =>
            if PuzzleGenerator.isValidMove g r c a n = true then
              match PuzzleGenerator.solvePuzzle rng fuel (setCell g r c a)
                  n k with
              | (true, g', k') => (true, g', k')
              | (false, g', k') => (false, setCell g' r c 0, k')
            else (false, g, k) : Bool × Grid × Nat) = (true, g2, k2) := by
          dsimp only
          rw [if_pos hva, hrec]
        rw [hstep, foldl_fixed _ _ (fun _ => rfl)]
      | false =>
        have hg2 : g2 = setCell g r c a := by
          have h5 := PG_solvePuzzle_false rng fuel (setCell g r c a) n k0
            (by rw [hrec])
          rw [hrec] at h5
          exact h5
        have hback : setCell g2 r c 0 = g := by
          rw [hg2, setCell_setCell, setCell_self hz]
        have hstep : (match (false, g, k0) with
          | (true, g, k) => (true, g, k)
          | (false, g, k) =>
            if PuzzleGenerator.isValidMove g r c a n = true then
              match PuzzleGenerator.solvePuzzle rng fuel (setCell g r c a)
                  n k with
              | (true, g', k') => (true, g', k')
              | (false, g', k') => (false, setCell g' r c 0, k')
            else (false, g, k) : Bool × Grid × Nat)
            = (false, g, k2) := by
          dsimp only
          rw [if_pos hva, hrec]
          dsimp only
          rw [hback]
        rw [hstep]
        have hav : a ≠ v := by
          intro hcontra
          subst hcontra
          have := hsucc k0
          rw [hrec] at this
          simp at this
        have hvrest : v ∈ rest := by
          rcases List.mem_cons.mp hv with rfl | hmem
          · exact absurd rfl hav
          · exact hmem
        exact ihnums k2 v hvrest hvalid hsucc
    · have hstep : (match (false, g, k0) with
        | (true, g, k) => (true, g, k)
        | (false, g, k) =>
          if PuzzleGenerator.isValidMove g r c a n = true then
            match PuzzleGenerator.solvePuzzle rng fuel (setCell g r c a)
                n k with
            | (true, g', k') => (true, g', k')
            | (false, g', k') => (false, setCell g' r c 0, k')
          else (false, g, k) : Bool × Grid × Nat) = (false, g, k0) := by
        dsimp only
        rw [if_neg hva]
      rw [hstep]
      have hav : a ≠ v := by
        intro hcontra
        subst hcontra
        exact hva hvalid
      have hvrest : v ∈ rest := by
        rcases List.mem_cons.mp hv with rfl | hmem
        · exact absurd rfl hav
        · exact hmem
      exact ihnums k0 v hvrest hvalid hsucc

/-- Completeness of the generator's backtracking fill: whenever some
complete legal grid extends the current grid and the fuel exceeds the
number of empty cells, the randomized search succeeds (for every
outcome of the shuffles). -/
theorem PG_solvePuzzle_complete (rng : Rng) {n b : Nat} (hb : b * b = n) :
    ∀ (fuel : Nat) (g : Grid) (k : Nat) (h : Grid),
      WFGrid g n → ExtendsGrid g h n → WFGrid h n → Consistent h n b →
      CompleteGrid h n → InRange h n →
      countZeros g n < fuel →
      (PuzzleGenerator.solvePuzzle rng fuel g n k).1 = true := by
  intro fuel
  induction fuel with
  | zero => intro g k h _ _ _ _ _ _ hfuel; omega
  | succ fuel ih =>
    intro g k h hwf hext hwfh hconsh hcomph hrangeh hfuel
    rw [PuzzleGenerator.solvePuzzle]
    cases hfind : PuzzleGenerator.findEmptyCell g n with
    | none => rfl
    | some rc =>
      obtain ⟨r, c⟩ := rc
      obtain ⟨hr, hc, hz⟩ := PG_findEmptyCell_some g n hfind
      dsimp only
      obtain ⟨v, hv⟩ : ∃ v, getCell h r c = v := ⟨_, rfl⟩
      have hv0 : v ≠ 0 := hv ▸ hcomph r hr c hc
      have hvn : v ≤ n := hv ▸ hrangeh r hr c hc
      have hvalid : PuzzleGenerator.isValidMove g r c v n = true :=
        hv ▸ isValidMove_of_completion hb hcomph hconsh hext hr hc hz
      have hvmem : v ∈ (shuffleArray rng (List.range' 1 n) k).1 := by
        rw [(shuffleArray_perm rng (List.range' 1 n) k).mem_iff,
          List.mem_range']
        exact ⟨v - 1, by omega, by omega⟩
      have hsucc : ∀ k', (PuzzleGenerator.solvePuzzle rng fuel
          (setCell g r c v) n k').1 = true := by
        intro k'
        have hcz := countZeros_setCell hwf hr hc hz hv0
        exact ih (setCell g r c v) k' h (setCell_WF r c v hwf)
          (extendsGrid_setCell_of_completion hwf hr hc hext hv)
          hwfh hconsh hcomph hrangeh (by omega)
      exact PG_fold_success rng fuel n r c g hz
        (shuffleArray rng (List.range' 1 n) k).1
        (shuffleArray rng (List.range' 1 n) k).2 v hvmem hvalid hsucc

-- Band-wise permutations ------------------------------------------------------

namespace PuzzleGenerator

/-- `generateBandWisePermutation`: shuffle the rows within each band and
the order of the bands, then concatenate the bands in shuffled order. -/
def generateBandWisePermutation (rng : Rng) (size k : Nat) :
    List Nat × Nat :=
  let box := isqrt size
  let bp := (List.range box).foldl
    (fun (acc : List (List Nat) × Nat) b =>
      let s := shuffleArray rng ((List.range box).map (fun i => b * box + i))
        acc.2
      (acc.1 ++ [s.1], s.2)) ([], k)
  let so := shuffleArray rng (List.range box) bp.2
  let permuted := so.1.foldl (fun acc b => acc ++ bp.1.getD b []) []
  (permuted, so.2)

/-- `invertPermutation`: `inv[perm[i]] = i`. -/
def invertPermutation (perm : List Nat) : List Nat :=
  (List.range perm.length).foldl
    (fun inv i => inv.set (perm.getD i 0) i)
    (List.replicate perm.length 0)

/-- `applyPermutation`: `out[rowPerm[r]][colPerm[c]] = grid[r][c]` (the
`out[rowPerm[r]] || …` re-initialisation in the source is a no-op since
`out` is pre-filled). -/
def applyPermutation (grid : Grid) (rowPerm colPerm : List Nat) : Grid :=
  let size := grid.length
  let out : Grid := List.replicate size (List.replicate size 0)
  (List.range size).foldl
    (fun out r =>
      (List.range size).foldl
        (fun out c =>
          setCell out (rowPerm.getD r 0) (colPerm.getD c 0) (getCell grid r c))
        out)
    out

end PuzzleGenerator

theorem foldl_append_eq_flatten {β : Type _} (f : β → List α) :
    ∀ (l : List β) (init : List α),
      l.foldl (fun acc b => acc ++ f b) init = init ++ (l.map f).flatten
  | [], init => by simp
  | b :: l, init => by
    rw [List.foldl_cons, foldl_append_eq_flatten f l (init ++ f b)]
    simp

theorem flatten_bands (box : Nat) :
    ∀ m : Nat,
      ((List.range m).map (fun b => List.range' (b * box) box)).flatten
        = List.range (m * box)
  | 0 => by simp
  | m + 1 => by
    rw [List.range_succ, List.map_append, List.flatten_append,
      flatten_bands box m]
    simp only [List.map_cons, List.map_nil, List.flatten_cons,
      List.flatten_nil, List.append_nil]
    rw [Nat.succ_mul, List.range_add, List.range'_eq_map_range]

theorem bands_fold_spec (rng : Rng) (box : Nat) :
    ∀ (l : List Nat) (acc : List (List Nat)) (k : Nat),
      ∃ rest : List (List Nat),
        (l.foldl (fun (acc : List (List Nat) × Nat) b =>
          let s := shuffleArray rng
            ((List.range box).map (fun i => b * box + i)) acc.2
          (acc.1 ++ [s.1], s.2)) (acc, k)).1 = acc ++ rest ∧
        rest.length = l.length ∧
        ∀ j, j < l.length →
          (rest.getD j []).Perm (List.range' (l.getD j 0 * box) box)
  | [], acc, k => ⟨[], by simp, rfl, fun j hj => absurd hj (by simp)⟩
  | b :: l, acc, k => by
    rw [List.foldl_cons]
    obtain ⟨rest, heq, hlen, hperm⟩ := bands_fold_spec rng box l
      (acc ++ [(shuffleArray rng ((List.range box).map (fun i => b * box + i))
        k).1])
      ((shuffleArray rng ((List.range box).map (fun i => b * box + i)) k).2)
    refine ⟨(shuffleArray rng ((List.range box).map (fun i => b * box + i))
      k).1 :: rest, ?_, by simpa using hlen, ?_⟩
    · rw [heq]; simp
    · intro j hj
      cases j with
      | zero =>
        simp only [List.getD_cons_zero]
        have h1 := shuffleArray_perm rng
          ((List.range box).map (fun i => b * box + i)) k
        rw [List.range'_eq_map_range]
        exact h1
      | succ j =>
        simp only [List.getD_cons_succ]
        exact hperm j (by simpa using hj)

/-- The band-wise permutation is a permutation of `0..size-1`. -/
theorem generateBandWisePermutation_perm (rng : Rng) {size b : Nat}
    (hb : b * b = size) (k : Nat) :
    IsPermList (PuzzleGenerator.generateBandWisePermutation rng size k).1
      size := by
  unfold IsPermList PuzzleGenerator.generateBandWisePermutation
  rw [sqrt_of_sq hb]
  dsimp only
  obtain ⟨bands, heq, hlen, hperm⟩ := bands_fold_spec rng b (List.range b) [] k
  simp only [List.nil_append] at heq
  rw [foldl_append_eq_flatten, heq]
  simp only [List.nil_append]
  have hlen' : bands.length = b := by simpa using hlen
  have hso_perm := shuffleArray_perm rng (List.range b)
    (List.foldl (fun (acc : List (List Nat) × Nat) bb =>
      (acc.1 ++ [(shuffleArray rng
          (List.map (fun i => bb * b + i) (List.range b)) acc.2).1],
        (shuffleArray rng
          (List.map (fun i => bb * b + i) (List.range b)) acc.2).2))
      ([], k) (List.range b)).2
  have step1 := List.Perm.flatten
    (hso_perm.map (fun bb => bands.getD bb []))
  have step2 : ((List.range b).map (fun bb => bands.getD bb [])).flatten.Perm
      ((List.range b).map (fun bb => List.range' (bb * b) b)).flatten := by
    apply List.Perm.flatten_congr
    rw [List.forall₂_map_right_iff, List.forall₂_map_left_iff]
    rw [List.forall₂_same]
    intro bb hbb
    have hbb' : bb < b := List.mem_range.mp hbb
    have h9 := hperm bb (by simpa using hbb')
    have h10 : (List.range b).getD bb 0 = bb := by
      rw [List.getD_eq_getElem?_getD,
        List.getElem?_eq_getElem (by simpa using hbb')]
      simp
    rwa [h10] at h9
  have step3 : ((List.range b).map
      (fun bb => List.range' (bb * b) b)).flatten = List.range (b * b) :=
    flatten_bands b b
  rw [hb] at step3
  exact (step1.trans step2).trans (step3 ▸ List.Perm.refl _)

-- Permutation-list utilities --------------------------------------------------

theorem IsPermList.len {p : List Nat} {n : Nat} (h : IsPermList p n) :
    p.length = n := by
  have := h.length_eq
  simpa using this

theorem IsPermList.getD_lt {p : List Nat} {n : Nat} (h : IsPermList p n)
    {i : Nat} (hi : i < n) : p.getD i 0 < n := by
  have hlen : i < p.length := by rw [h.len]; exact hi
  have hmem : p.getD i 0 ∈ p := by
    rw [List.getD_eq_getElem?_getD, List.getElem?_eq_getElem hlen]
    exact List.getElem_mem hlen
  have := h.mem_iff.mp hmem
  exact List.mem_range.mp this

theorem IsPermList.nodup {p : List Nat} {n : Nat} (h : IsPermList p n) :
    p.Nodup := h.nodup_iff.mpr (List.nodup_range n)

theorem IsPermList.getD_inj {p : List Nat} {n : Nat} (h : IsPermList p n)
    {i j : Nat} (hi : i < n) (hj : j < n) (hne : i ≠ j) :
    p.getD i 0 ≠ p.getD j 0 := by
  have hi' : i < p.length := by rw [h.len]; exact hi
  have hj' : j < p.length := by rw [h.len]; exact hj
  have e1 : p.getD i 0 = p[i] := by
    rw [List.getD_eq_getElem?_getD, List.getElem?_eq_getElem hi']; rfl
  have e2 : p.getD j 0 = p[j] := by
    rw [List.getD_eq_getElem?_getD, List.getElem?_eq_getElem hj']; rfl
  rw [e1, e2]
  intro heq
  exact hne ((h.nodup.getElem_inj_iff).mp heq)

theorem IsPermList.exists_preimage {p : List Nat} {n : Nat}
    (h : IsPermList p n) {j : Nat} (hj : j < n) :
    ∃ i, i < n ∧ p.getD i 0 = j := by
  have hmem : j ∈ p := h.mem_iff.mpr (List.mem_range.mpr hj)
  obtain ⟨idx, hidx, heq⟩ := List.getElem_of_mem hmem
  refine ⟨idx, by rw [← h.len]; exact hidx, ?_⟩
  rw [List.getD_eq_getElem?_getD, List.getElem?_eq_getElem hidx, heq]
  rfl

theorem foldl_set_length (t v : Nat → Nat) :
    ∀ (l : List Nat) (inv : List Nat),
      (l.foldl (fun inv x => inv.set (t x) (v x)) inv).length = inv.length
  | [], inv => rfl
  | x :: l, inv => by
    rw [List.foldl_cons, foldl_set_length t v l]
    exact List.length_set ..

theorem foldl_set_untouched (t v : Nat → Nat) :
    ∀ (l : List Nat) (inv : List Nat) (j : Nat), (∀ x ∈ l, t x ≠ j) →
      (l.foldl (fun inv x => inv.set (t x) (v x)) inv).getD j 0
        = inv.getD j 0
  | [], inv, j, _ => rfl
  | x :: l, inv, j, hne => by
    rw [List.foldl_cons, foldl_set_untouched t v l _ j
      (fun y hy => hne y (List.mem_cons_of_mem x hy))]
    exact listGetD_set_ne _ _ (hne x (List.mem_cons_self x l))

theorem foldl_set_hit (t v : Nat → Nat) :
    ∀ (l : List Nat) (inv : List Nat) (x₀ : Nat), x₀ ∈ l → l.Nodup →
      (∀ x ∈ l, x ≠ x₀ → t x ≠ t x₀) → t x₀ < inv.length →
      (l.foldl (fun inv x => inv.set (t x) (v x)) inv).getD (t x₀) 0 = v x₀
  | [], _, x₀, hmem, _, _, _ => absurd hmem (List.not_mem_nil x₀)
  | x :: l, inv, x₀, hmem, hnodup, hdist, hlt => by
    rw [List.foldl_cons]
    rcases List.mem_cons.mp hmem with rfl | hmem'
    · have hnotin : x₀ ∉ l := (List.nodup_cons.mp hnodup).1
      rw [foldl_set_untouched t v l _ (t x₀) ?_]
      · exact listGetD_set_eq _ _ hlt
      · intro y hy
        exact hdist y (List.mem_cons_of_mem x₀ hy)
          (fun hcontra => hnotin (hcontra ▸ hy))
    · have hxne : x ≠ x₀ := by
        intro rfl_eq
        exact (List.nodup_cons.mp hnodup).1 (rfl_eq ▸ hmem')
      exact foldl_set_hit t v l _ x₀ hmem' (List.nodup_cons.mp hnodup).2
        (fun y hy => hdist y (List.mem_cons_of_mem x hy))
        (by rw [List.length_set]; exact hlt)

theorem invertPermutation_length (p : List Nat) :
    (PuzzleGenerator.invertPermutation p).length = p.length := by
  unfold PuzzleGenerator.invertPermutation
  rw [foldl_set_length]
  exact List.length_replicate ..

/-- The defining property of `invertPermutation`: it sends `perm[i]` back
to `i`. -/
theorem invertPermutation_getD {p : List Nat} {n : Nat} (h : IsPermList p n)
    {i : Nat} (hi : i < n) :
    (PuzzleGenerator.invertPermutation p).getD (p.getD i 0) 0 = i := by
  unfold PuzzleGenerator.invertPermutation
  have hlen : p.length = n := h.len
  have := foldl_set_hit (fun i => p.getD i 0) (fun i => i)
    (List.range p.length) (List.replicate p.length 0) i
    (by rw [hlen]; exact List.mem_range.mpr hi)
    (List.nodup_range _)
    (fun y hy hne => h.getD_inj (by rw [← hlen]; exact List.mem_range.mp hy)
      hi hne)
    (by rw [List.length_replicate, hlen]; exact h.getD_lt hi)
  exact this

theorem invertPermutation_getD_lt {p : List Nat} {n : Nat}
    (h : IsPermList p n) {j : Nat} (hj : j < n) :
    (PuzzleGenerator.invertPermutation p).getD j 0 < n ∧
    p.getD ((PuzzleGenerator.invertPermutation p).getD j 0) 0 = j := by
  obtain ⟨i, hi, hpi⟩ := h.exists_preimage hj
  have hinv : (PuzzleGenerator.invertPermutation p).getD j 0 = i := by
    rw [← hpi]
    exact invertPermutation_getD h hi
  rw [hinv, hpi]
  exact ⟨hi, rfl⟩

/-- The inverse of a permutation list is a permutation list. -/
theorem invertPermutation_isPerm {p : List Nat} {n : Nat}
    (h : IsPermList p n) :
    IsPermList (PuzzleGenerator.invertPermutation p) n := by
  unfold IsPermList
  have hlen : (PuzzleGenerator.invertPermutation p).length = n := by
    rw [invertPermutation_length, h.len]
  have hentry : ∀ j, j < n →
      (PuzzleGenerator.invertPermutation p).getD j 0 < n :=
    fun j hj => (invertPermutation_getD_lt h hj).1
  have hgetD_inj : ∀ j j', j < n → j' < n → j ≠ j' →
      (PuzzleGenerator.invertPermutation p).getD j 0
        ≠ (PuzzleGenerator.invertPermutation p).getD j' 0 := by
    intro j j' hj hj' hne heq
    have h1 := (invertPermutation_getD_lt h hj).2
    have h2 := (invertPermutation_getD_lt h hj').2
    rw [heq] at h1
    rw [h1] at h2
    exact hne h2
  have hnodup : (PuzzleGenerator.invertPermutation p).Nodup := by
    rw [List.nodup_iff_injective_getElem]
    rintro ⟨a, ha⟩ ⟨b, hb⟩ heq
    simp only at heq
    by_contra hne
    have hne' : a ≠ b := fun hcontra => hne (by simpa using hcontra)
    refine hgetD_inj a b (by omega) (by omega) hne' ?_
    rw [List.getD_eq_getElem?_getD, List.getElem?_eq_getElem ha,
      List.getD_eq_getElem?_getD, List.getElem?_eq_getElem hb]
    simpa using heq
  have hsub : (PuzzleGenerator.invertPermutation p) ⊆ List.range n := by
    intro x hx
    obtain ⟨idx, hidx, heq⟩ := List.getElem_of_mem hx
    rw [List.mem_range]
    have := hentry idx (by omega)
    rw [List.getD_eq_getElem?_getD, List.getElem?_eq_getElem hidx] at this
    simpa [heq] using this
  have hsubperm := List.subperm_of_subset hnodup hsub
  exact hsubperm.perm_of_length_le (by rw [hlen]; simp)

-- applyPermutation characterization -------------------------------------------

theorem replicate_WF (n : Nat) :
    WFGrid (List.replicate n (List.replicate n 0)) n := by
  constructor
  · exact List.length_replicate ..
  · intro row hrow
    rw [List.eq_of_mem_replicate hrow]
    exact List.length_replicate ..

theorem AP_inner_WF {n : Nat} (g : Grid) (q : List Nat) (tr r : Nat) :
    ∀ (cs : List Nat) (out : Grid), WFGrid out n →
      WFGrid (cs.foldl (fun out c =>
        setCell out tr (q.getD c 0) (getCell g r c)) out) n := by
  intro cs out hwf
  exact foldl_pres_mem _ (fun out : Grid => WFGrid out n) cs out
    (fun s a _ hs => setCell_WF _ _ _ hs) hwf

theorem AP_inner_untouched (g : Grid) (q : List Nat) (tr r : Nat) :
    ∀ (cs : List Nat) (out : Grid) (i j : Nat),
      (tr ≠ i ∨ ∀ x ∈ cs, q.getD x 0 ≠ j) →
      getCell (cs.foldl (fun out c =>
        setCell out tr (q.getD c 0) (getCell g r c)) out) i j
      = getCell out i j
  | [], out, i, j, _ => rfl
  | c :: cs, out, i, j, hcond => by
    rw [List.foldl_cons]
    have hrest : tr ≠ i ∨ ∀ x ∈ cs, q.getD x 0 ≠ j := by
      rcases hcond with h | h
      · exact Or.inl h
      · exact Or.inr (fun x hx => h x (List.mem_cons_of_mem c hx))
    rw [AP_inner_untouched g q tr r cs _ i j hrest]
    apply getCell_setCell_ne
    rcases hcond with h | h
    · exact Or.inl h
    · exact Or.inr (h c (List.mem_cons_self c cs))

theorem AP_inner_hit {n : Nat} (g : Grid) {q : List Nat}
    (hq : IsPermList q n) (tr r : Nat) (htr : tr < n) :
    ∀ (cs : List Nat) (out : Grid), WFGrid out n → cs.Nodup →
      (∀ x ∈ cs, x < n) → ∀ c₀, c₀ ∈ cs →
      getCell (cs.foldl (fun out c =>
        setCell out tr (q.getD c 0) (getCell g r c)) out) tr (q.getD c₀ 0)
      = getCell g r c₀
  | [], _, _, _, _, c₀, hmem => absurd hmem (List.not_mem_nil c₀)
  | c :: cs, out, hwf, hnodup, hbound, c₀, hmem => by
    rw [List.foldl_cons]
    rcases List.mem_cons.mp hmem with rfl | hmem'
    · have hnotin : c₀ ∉ cs := (List.nodup_cons.mp hnodup).1
      rw [AP_inner_untouched g q tr r cs _ tr (q.getD c₀ 0) ?_]
      · apply getCell_setCell_eq
        · rw [hwf.1]; exact htr
        · rw [hwf.row_length htr]
          exact hq.getD_lt (hbound c₀ (List.mem_cons_self c₀ cs))
      · refine Or.inr ?_
        intro x hx
        exact hq.getD_inj (hbound x (List.mem_cons_of_mem c₀ hx))
          (hbound c₀ (List.mem_cons_self c₀ cs))
          (fun hcontra => hnotin (hcontra ▸ hx))
    · exact AP_inner_hit g hq tr r htr cs _ (setCell_WF _ _ _ hwf)
        (List.nodup_cons.mp hnodup).2
        (fun x hx => hbound x (List.mem_cons_of_mem c hx)) c₀ hmem'

theorem AP_outer_WF {n : Nat} (g : Grid) (p q : List Nat) :
    ∀ (rs : List Nat) (out : Grid), WFGrid out n →
      WFGrid (rs.foldl (fun out r =>
        (List.range g.length).foldl (fun out c =>
          setCell out (p.getD r 0) (q.getD c 0) (getCell g r c)) out) out)
        n := by
  intro rs out hwf
  exact foldl_pres_mem _ (fun out : Grid => WFGrid out n) rs out
    (fun s a _ hs => AP_inner_WF g q _ a _ s hs) hwf

theorem AP_outer_untouched (g : Grid) (p q : List Nat) :
    ∀ (rs : List Nat) (out : Grid) (i j : Nat),
      (∀ x ∈ rs, p.getD x 0 ≠ i) →
      getCell (rs.foldl (fun out r =>
        (List.range g.length).foldl (fun out c =>
          setCell out (p.getD r 0) (q.getD c 0) (getCell g r c)) out) out) i j
      = getCell out i j
  | [], out, i, j, _ => rfl
  | r :: rs, out, i, j, hcond => by
    rw [List.foldl_cons]
    rw [AP_outer_untouched g p q rs _ i j
      (fun x hx => hcond x (List.mem_cons_of_mem r hx))]
    exact AP_inner_untouched g q (p.getD r 0) r (List.range g.length) _ i j
      (Or.inl (hcond r (List.mem_cons_self r rs)))

theorem AP_outer_hit {n : Nat} (g : Grid) {p q : List Nat}
    (hp : IsPermList p n) (hq : IsPermList q n) (hglen : g.length = n) :
    ∀ (rs : List Nat) (out : Grid), WFGrid out n → rs.Nodup →
      (∀ x ∈ rs, x < n) → ∀ r₀, r₀ ∈ rs → ∀ c₀, c₀ < n →
      getCell (rs.foldl (fun out r =>
        (List.range g.length).foldl (fun out c =>
          setCell out (p.getD r 0) (q.getD c 0) (getCell g r c)) out) out)
        (p.getD r₀ 0) (q.getD c₀ 0)
      = getCell g r₀ c₀
  | [], _, _, _, _, r₀, hmem, _, _ => absurd hmem (List.not_mem_nil r₀)
  | r :: rs, out, hwf, hnodup, hbound, r₀, hmem, c₀, hc₀ => by
    rw [List.foldl_cons]
    rcases List.mem_cons.mp hmem with rfl | hmem'
    · have hnotin : r₀ ∉ rs := (List.nodup_cons.mp hnodup).1
      rw [AP_outer_untouched g p q rs _ (p.getD r₀ 0) (q.getD c₀ 0) ?_]
      · exact AP_inner_hit g hq (p.getD r₀ 0) r₀
          (hp.getD_lt (hbound r₀ (List.mem_cons_self r₀ rs)))
          (List.range g.length) out hwf (List.nodup_range _)
          (fun x hx => by rw [← hglen]; exact List.mem_range.mp hx)
          c₀ (by rw [hglen]; exact List.mem_range.mpr hc₀)
      · intro x hx
        exact hp.getD_inj (hbound x (List.mem_cons_of_mem r₀ hx))
          (hbound r₀ (List.mem_cons_self r₀ rs))
          (fun hcontra => hnotin (hcontra ▸ hx))
    · exact AP_outer_hit g hp hq hglen rs _
        (AP_inner_WF g q _ r _ out hwf)
        (List.nodup_cons.mp hnodup).2
        (fun x hx => hbound x (List.mem_cons_of_mem r hx)) r₀ hmem' c₀ hc₀

/-- `applyPermutation` keeps the grid well-formed. -/
theorem applyPermutation_WF {g : Grid} {n : Nat} (hwf : WFGrid g n)
    (p q : List Nat) :
    WFGrid (PuzzleGenerator.applyPermutation g p q) n := by
  unfold PuzzleGenerator.applyPermutation
  dsimp only
  exact AP_outer_WF g p q (List.range g.length) _
    (by rw [hwf.1]; exact replicate_WF n)

/-- The defining property of `applyPermutation`: the cell `(r, c)` moves
to `(rowPerm[r], colPerm[c])`. -/
theorem applyPermutation_getCell {g : Grid} {n : Nat} (hwf : WFGrid g n)
    {p q : List Nat} (hp : IsPermList p n) (hq : IsPermList q n)
    {r c : Nat} (hr : r < n) (hc : c < n) :
    getCell (PuzzleGenerator.applyPermutation g p q)
      (p.getD r 0) (q.getD c 0) = getCell g r c := by
  unfold PuzzleGenerator.applyPermutation
  dsimp only
  exact AP_outer_hit g hp hq hwf.1 (List.range g.length) _
    (by rw [hwf.1]; exact replicate_WF n) (List.nodup_range _)
    (fun x hx => by rw [← hwf.1]; exact List.mem_range.mp hx)
    r (List.mem_range.mpr (by rw [hwf.1]; exact hr)) c hc

theorem getCell_eq_getElem {g : Grid} {i j : Nat} (hi : i < g.length)
    (hj : j < g[i].length) : getCell g i j = g[i][j] := by
  show (g.getD i []).getD j 0 = g[i][j]
  have hrow : g.getD i [] = g[i] := by
    rw [List.getD_eq_getElem?_getD, List.getElem?_eq_getElem hi]
    rfl
  rw [hrow, List.getD_eq_getElem?_getD, List.getElem?_eq_getElem hj]
  rfl

theorem grid_ext {g h : Grid} {n : Nat} (hg : WFGrid g n) (hh : WFGrid h n)
    (hcell : ∀ r, r < n → ∀ c, c < n → getCell g r c = getCell h r c) :
    g = h := by
  apply List.ext_getElem?
  intro i
  rcases Nat.lt_or_ge i n with hi | hi
  · have hgi : i < g.length := by rw [hg.1]; exact hi
    have hhi : i < h.length := by rw [hh.1]; exact hi
    rw [List.getElem?_eq_getElem hgi, List.getElem?_eq_getElem hhi]
    congr 1
    apply List.ext_getElem?
    intro j
    have hrowg : g[i].length = n := hg.2 _ (List.getElem_mem hgi)
    have hrowh : h[i].length = n := hh.2 _ (List.getElem_mem hhi)
    rcases Nat.lt_or_ge j n with hj | hj
    · have hgj : j < g[i].length := by rw [hrowg]; exact hj
      have hhj : j < h[i].length := by rw [hrowh]; exact hj
      rw [List.getElem?_eq_getElem hgj, List.getElem?_eq_getElem hhj]
      have e1 := getCell_eq_getElem hgi hgj
      have e2 := getCell_eq_getElem hhi hhj
      exact congrArg some ((e1.symm.trans (hcell i hi j hj)).trans e2)
    · rw [List.getElem?_eq_none (by omega), List.getElem?_eq_none (by omega)]
  · rw [List.getElem?_eq_none (by rw [hg.1]; omega),
      List.getElem?_eq_none (by rw [hh.1]; omega)]

/-- Applying a band permutation and then its inverse restores the grid
exactly (cell for cell, and as a list of rows). -/
theorem applyPermutation_roundtrip {g : Grid} {n : Nat} (hwf : WFGrid g n)
    {p q : List Nat} (hp : IsPermList p n) (hq : IsPermList q n) :
    PuzzleGenerator.applyPermutation (PuzzleGenerator.applyPermutation g p q)
      (PuzzleGenerator.invertPermutation p)
      (PuzzleGenerator.invertPermutation q) = g := by
  have hwf1 : WFGrid (PuzzleGenerator.applyPermutation g p q) n :=
    applyPermutation_WF hwf p q
  have hinvp := invertPermutation_isPerm hp
  have hinvq := invertPermutation_isPerm hq
  have hwf2 : WFGrid (PuzzleGenerator.applyPermutation
      (PuzzleGenerator.applyPermutation g p q)
      (PuzzleGenerator.invertPermutation p)
      (PuzzleGenerator.invertPermutation q)) n :=
    applyPermutation_WF hwf1 _ _
  apply grid_ext hwf2 hwf
  intro i hi j hj
  have hpi : p.getD i 0 < n := hp.getD_lt hi
  have hqj : q.getD j 0 < n := hq.getD_lt hj
  have h1 : getCell (PuzzleGenerator.applyPermutation
      (PuzzleGenerator.applyPermutation g p q)
      (PuzzleGenerator.invertPermutation p)
      (PuzzleGenerator.invertPermutation q))
      ((PuzzleGenerator.invertPermutation p).getD (p.getD i 0) 0)
      ((PuzzleGenerator.invertPermutation q).getD (q.getD j 0) 0)
      = getCell (PuzzleGenerator.applyPermutation g p q)
        (p.getD i 0) (q.getD j 0) :=
    applyPermutation_getCell hwf1 hinvp hinvq hpi hqj
  rw [invertPermutation_getD hp hi, invertPermutation_getD hq hj] at h1
  rw [h1]
  exact applyPermutation_getCell hwf hp hq hi hj

-- Remaining generator machinery ----------------------------------------------

namespace PuzzleGenerator

/-- `getCandidates`: all values `1..size` passing `isValidMove`. -/
def getCandidates (grid : Grid) (row col size : Nat) : List Nat :=
  (List.range' 1 size).filter fun num => isValidMove grid row col num size

/-- `isGridComplete`: every cell of every row is nonzero. -/
def isGridComplete (grid : Grid) : Bool :=
  grid.all fun row => row.all fun cell => cell ≠ 0

/-- `applyNakedSingles` (generator variant): scan all cells, filling each
empty cell that has a single candidate; returns the progress flag and the
updated grid. -/
def applyNakedSingles (grid : Grid) : Bool × Grid :=
  let size := grid.length
  (List.range size).foldl
    (fun st row =>
      (List.range size).foldl
        (fun (st : Bool × Grid) col =>
          if getCell st.2 row col = 0 then
            match getCandidates st.2 row col size with
            | [v] => (true, setCell st.2 row col v)
            | _ => st
          else st)
        st)
    (false, grid)

/-- `findHiddenSinglesInRow`. -/
def findHiddenSinglesInRow (grid : Grid) (row size : Nat) : Bool × Grid :=
  (List.range' 1 size).foldl
    (fun (st : Bool × Grid) num =>
      let possibleCols := (List.range size).filter fun col =>
        getCell st.2 row col = 0 && isValidMove st.2 row col num size
      match possibleCols with
      | [col] => (true, setCell st.2 row col num)
      | _ => st)
    (false, grid)

/-- `findHiddenSinglesInColumn`. -/
def findHiddenSinglesInColumn (grid : Grid) (col size : Nat) : Bool × Grid :=
  (List.range' 1 size).foldl
    (fun (st : Bool × Grid) num =>
      let possibleRows := (List.range size).filter fun row =>
        getCell st.2 row col = 0 && isValidMove st.2 row col num size
      match possibleRows with
      | [row] => (true, setCell st.2 row col num)
      | _ => st)
    (false, grid)

/-- `findHiddenSinglesInBox`. -/
def findHiddenSinglesInBox (grid : Grid) (startRow startCol boxSize : Nat) :
    Bool × Grid :=
  let size := grid.length
  (List.range' 1 size).foldl
    (fun (st : Bool × Grid) num =>
      let possiblePositions :=
        ((List.range' startRow boxSize).map fun r =>
          (List.range' startCol boxSize).filterMap fun c =>
            if getCell st.2 r c = 0 && isValidMove st.2 r c num size then
              some (Position.mk r c)
            else none).flatten
      match possiblePositions with
      | [pos] => (true, setCell st.2 pos.row pos.col num)
      | _ => st)
    (false, grid)

/-- `applyHiddenSingles`: rows and columns interleaved, then boxes (the
`boxRow += boxSize` loop visits the multiples of `boxSize` below `size`). -/
def applyHiddenSingles (grid : Grid) : Bool × Grid :=
  let size := grid.length
  let boxSize := isqrt size
  let st1 := (List.range size).foldl
    (fun (st : Bool × Grid) i =>
      let str := findHiddenSinglesInRow st.2 i size
      let stc := findHiddenSinglesInColumn str.2 i size
      (stc.1 || str.1 || st.1, stc.2))
    (false, grid)
  let starts := List.range' 0 ((size + boxSize - 1) / boxSize) boxSize
  starts.foldl
    (fun st boxRow =>
      starts.foldl
        (fun (st : Bool × Grid) boxCol =>
          let stb := findHiddenSinglesInBox st.2 boxRow boxCol boxSize
          (stb.1 || st.1, stb.2))
        st)
    st1

/-- `applyNakedPairs`: a permanent no-op in the source. -/
def applyNakedPairs (_grid : Grid) : Bool := false

/-- Append a technique if not already recorded
(`if (!techniques.includes(t)) techniques.push(t)`). -/
def pushIfNew (techs : List SolvingTechnique) (t : SolvingTechnique) :
    List SolvingTechnique :=
  if t ∈ techs then techs else techs ++ [t]

/-- The while-loop of `analyzeSolvingTechniques`; each productive
iteration fills at least one cell, so `size² + 1` fuel never runs out. -/
def analyzeGo : Nat → Grid → List SolvingTechnique → List SolvingTechnique
  | 0, _, techs => techs
  | fuel + 1, g, techs =>
    if isGridComplete g then techs
    else
      match applyNakedSingles g with
      | (true, g1) => analyzeGo fuel g1 (pushIfNew techs .nakedSingles)
      | (false, _) =>
        match applyHiddenSingles g with
        | (true, g2) => analyzeGo fuel g2 (pushIfNew techs .hiddenSingles)
        | (false, _) =>
          if applyNakedPairs g then techs
          else techs ++ [.forcingChains]

/-- `analyzeSolvingTechniques` (the `_solution` argument is unused in the
source). -/
def analyzeSolvingTechniques (puzzle : Grid) (_solution : Grid) :
    List SolvingTechnique :=
  analyzeGo (puzzle.length * puzzle.length + 1) puzzle []

/-- The generator's `techniqueScores` table. -/
def techniqueScores : SolvingTechnique → ℚ
  | .nakedSingles => 1/10
  | .hiddenSingles => 2/10
  | .nakedPairs => 1
  | .hiddenPairs => 12/10
  | .pointingPairs => 15/10
  | .boxLineReduction => 18/10
  | .xWing => 25/10
  | .swordfish => 35/10
  | .xyWing => 4
  | .coloring => 45/10
  | .forcingChains => 5

/-- `calculateDifficultyFromTechniques`: sum of scores capped at 10. -/
def calculateDifficultyFromTechniques (techs : List SolvingTechnique) : ℚ :=
  min (techs.foldl (fun score t => score + techniqueScores t) 0) 10

/-- `Math.round` on a rational (round half toward positive infinity). -/
def jsRound (q : ℚ) : Int := ⌊q + 1/2⌋

/-- `estimateSolveTime`: `Math.round(300 * (1 + score / 5))`. -/
def estimateSolveTime (difficultyScore : ℚ) : Int :=
  jsRound (300 * (1 + difficultyScore / 5))

/-- `calculateTargetClues`: a random count in the tier's range for 9×9,
a fixed ratio of the cell count otherwise (`Math.floor(total * ratio)`
agrees with the integer arithmetic below for the supported sizes). -/
def calculateTargetClues (rng : Rng) (size : Nat) (difficulty : Difficulty)
    (k : Nat) : Nat × Nat :=
  if size = 9 then
    let lo : Nat := match difficulty with
      | .beginner => 50 | .easy => 36 | .medium => 32
      | .hard => 28 | .expert => 22
    let hi : Nat := match difficulty with
      | .beginner => 60 | .easy => 46 | .medium => 35
      | .hard => 31 | .expert => 27
    (rng k % (hi - lo + 1) + lo, k + 1)
  else
    let totalCells := size * size
    let clues : Nat := match difficulty with
      | .beginner => totalCells * 65 / 100
      | .easy => totalCells * 50 / 100
      | .medium => totalCells * 40 / 100
      | .hard => totalCells * 32 / 100
      | .expert => totalCells * 28 / 100
    (clues, k)

/-- Pop the last element of a box's position list (`Array.pop`). -/
def popBox (l : List Position) : Option Position × List Position :=
  match l.getLast? with
  | none => (none, l)
  | some x => (some x, l.dropLast)

/-- One round-robin pass over the boxes in the given index order; the
source iterates over (possibly reversed) references to the same mutable
arrays, which the index-based state models. -/
def roundRobinPass (idxs : List Nat)
    (st : List (List Position) × List Position) :
    List (List Position) × List Position :=
  idxs.foldl
    (fun st i =>
      match popBox (st.1.getD i []) with
      | (some cell, rest) => (st.1.set i rest, st.2 ++ [cell])
      | (none, _) => st)
    st

/-- The `while (remaining > 0)` loop; each pass pops at least one cell
while any remains, so total-cells + 1 fuel never runs out. -/
def roundRobinGo : Nat → List (List Position) → Nat → List Position →
    List Position
  | 0, _, _, acc => acc
  | fuel + 1, boxes, step, acc =>
    if (boxes.map List.length).sum = 0 then acc
    else
      let idxs := if step % 2 = 0 then List.range boxes.length
        else (List.range boxes.length).reverse
      let st := roundRobinPass idxs (boxes, acc)
      roundRobinGo fuel st.1 (step + 1) st.2

/-- `getBalancedRemovalOrder`: per-box shuffled positions, shuffled box
order, then alternating-direction round-robin removal order. -/
def getBalancedRemovalOrder (rng : Rng) (size k : Nat) :
    List Position × Nat :=
  let boxSize := isqrt size
  let bp := (List.range boxSize).foldl
    (fun (acc : List (List Position) × Nat) boxRow =>
      (List.range boxSize).foldl
        (fun (acc : List (List Position) × Nat) boxCol =>
          let cells := ((List.range' (boxRow * boxSize) boxSize).map fun r =>
            (List.range' (boxCol * boxSize) boxSize).map fun c =>
              Position.mk r c).flatten
          let s := shuffleArray rng cells acc.2
          (acc.1 ++ [s.1], s.2))
        acc)
    ([], k)
  let sb := shuffleArray rng bp.1 bp.2
  (roundRobinGo (size * size + 1) sb.1 0 [], sb.2)

/-- The removal loop of `createEasyPuzzle`. -/
def createEasyGo (target : Nat) : List Position → Grid → Nat → Grid
  | [], puz, _ => puz
  | pos :: rest, puz, clues =>
    if clues ≤ target then puz
    else
      if getCell puz pos.row pos.col = 0 then createEasyGo target rest puz clues
      else createEasyGo target rest (setCell puz pos.row pos.col 0) (clues - 1)

/-- `createEasyPuzzle`: permissive removal down to the target count. -/
def createEasyPuzzle (rng : Rng) (puzzle : Grid) (targetClues size k : Nat) :
    Grid × Nat :=
  let po := getBalancedRemovalOrder rng size k
  (createEasyGo targetClues po.1 puzzle (size * size), po.2)

/-- `hasAnySolution`: full-completion existence check on a private copy
(the defensive copy is the identity on grid values). -/
def hasAnySolution (rng : Rng) (grid : Grid) (size k : Nat) : Bool × Nat :=
  let res := solvePuzzle rng (size * size + 1) grid size k
  (res.1, res.2.2)

/-- The removal loop of `createHardPuzzle` (existence-gated every 5th
attempt, 200-attempt cap). -/
def createHardGo (rng : Rng) (target size : Nat) :
    List Position → Grid → Nat → Nat → Nat → Grid × Nat
  | [], puz, _, _, k => (puz, k)
  | pos :: rest, puz, clues, attempts, k =>
    if clues ≤ target ∨ attempts ≥ 200 then (puz, k)
    else
      if getCell puz pos.row pos.col = 0 then
        createHardGo rng target size rest puz clues (attempts + 1) k
      else
        let puz' := setCell puz pos.row pos.col 0
        if (attempts + 1) % 5 = 0 then
          match hasAnySolution rng puz' size k with
          | (true, k1) =>
            createHardGo rng target size rest puz' (clues - 1) (attempts + 1) k1
          | (false, k1) =>
            createHardGo rng target size rest
              (setCell puz' pos.row pos.col (getCell puz pos.row pos.col))
              clues (attempts + 1) k1
        else createHardGo rng target size rest puz' (clues - 1) (attempts + 1) k

/-- `createHardPuzzle`. -/
def createHardPuzzle (rng : Rng) (puzzle : Grid) (targetClues size k : Nat) :
    Grid × Nat :=
  let po := getBalancedRemovalOrder rng size k
  createHardGo rng targetClues size po.1 puzzle (size * size) 0 po.2

/-- Specification-comparison definition (not itself in the source): the
removal loop of `createHardPuzzle` with the every-5th-attempt solvability
gate removed, i.e. the permissive removal policy under the same attempt
cap.  It makes no rng calls. -/
def createHardGoUngated (target : Nat) :
    List Position → Grid → Nat → Nat → Grid
  | [], puz, _, _ => puz
  | pos :: rest, puz, clues, attempts =>
    if clues ≤ target ∨ attempts ≥ 200 then puz
    else
      if getCell puz pos.row pos.col = 0 then
        createHardGoUngated target rest puz clues (attempts + 1)
      else
        createHardGoUngated target rest (setCell puz pos.row pos.col 0)
          (clues - 1) (attempts + 1)

/-- `createPuzzleFromSolution`: target clue count, then gated removal for
Hard/Expert and permissive removal otherwise. -/
def createPuzzleFromSolution (rng : Rng) (solution : Grid)
    (difficulty : Difficulty) (size k : Nat) : Grid × Nat :=
  let tc := calculateTargetClues rng size difficulty k
  if difficulty = .expert ∨ difficulty = .hard then
    createHardPuzzle rng solution tc.1 size tc.2
  else
    createEasyPuzzle rng solution tc.1 size tc.2

/-- `findAllSolutions`: exhaustive ascending-order enumeration capped at
`maxSolutions`, threading the mutated-and-restored grid. -/
def findAllSolutions : Nat → Grid → Nat → List Grid → Nat →
    List Grid × Grid
  | 0, g, _, sols, _ => (sols, g)
  | fuel + 1, g, size, sols, maxS =>
    if sols.length ≥ maxS then (sols, g)
    else
      match findEmptyCell g size with
      | none => (sols ++ [g], g)
      | some (r, c) =>
        (List.range' 1 size).foldl
          (fun (st : List Grid × Grid) num =>
            if st.1.length ≥ maxS then st
            else if isValidMove st.2 r c num size then
              let res := findAllSolutions fuel (setCell st.2 r c num) size
                st.1 maxS
              (res.1, setCell res.2 r c 0)
            else st)
          (sols, g)

/-- `validateUniqueSolution`: exactly one completion found with the
enumeration capped at two. -/
def validateUniqueSolution (grid : Grid) : Bool :=
  let size := grid.length
  decide ((findAllSolutions (size * size + 1) grid size [] 2).1.length = 1)

/-- Rendering of the enum values used for metadata tags. -/
def variantTag : PuzzleVariant → String
  | .classic => "classic" | .killer => "killer" | .xSudoku => "x-sudoku"
  | .hyper => "hyper" | .mini => "mini" | .mega => "mega"

def difficultyTag : Difficulty → String
  | .beginner => "beginner" | .easy => "easy" | .medium => "medium"
  | .hard => "hard" | .expert => "expert"

/-- Generation errors: the invalid-size throw and the (unreachable)
complete-solution failure throw. -/
inductive GenError where
  | invalidSize
  | generationFailed
deriving DecidableEq, Repr

/-- `generatePuzzle`: the full generation pipeline.  Thrown errors are
modelled as `Except.error`; the id string and creation timestamp are
presentation-only and omitted from the model. -/
def generatePuzzle (rng : Rng) (variant : PuzzleVariant)
    (difficulty : Difficulty) (size k : Nat) : Except GenError Puzzle :=
  if isqrt size * isqrt size ≠ size then .error .invalidSize
  else
    let rp := generateBandWisePermutation rng size k
    let cp := generateBandWisePermutation rng size rp.2
    match generateCompleteSolution rng size cp.2 with
    | (none, _) => .error .generationFailed
    | (some sol0, k3) =>
      let solution := applyPermutation sol0 rp.1 cp.1
      let ip := createPuzzleFromSolution rng solution difficulty size k3
      let initialState := applyPermutation ip.1
        (invertPermutation rp.1) (invertPermutation cp.1)
      let solution2 := applyPermutation solution
        (invertPermutation rp.1) (invertPermutation cp.1)
      let techniques := analyzeSolvingTechniques initialState solution2
      let difficultyScore := calculateDifficultyFromTechniques techniques
      .ok
        { variant := variant
          difficulty := difficulty
          size := size
          initialState := initialState
          solution := solution2
          metadata :=
            { estimatedSolveTime := estimateSolveTime difficultyScore
              techniques := techniques
              rating := (jsRound (difficultyScore * 10) : ℚ) / 10
              playCount := 0
              averageSolveTime := 0
              tags := [variantTag variant, difficultyTag difficulty] }
          difficultyScore := difficultyScore }

end PuzzleGenerator

-- PuzzleSolver (dist/engine/puzzle-solver.js) ---------------------------------

/-- The structured validation-error record (`message` is a
presentation-only string and omitted). -/
inductive ConflictType where
  | invalidValue
  | duplicateInRow
  | duplicateInColumn
  | duplicateInBox
deriving DecidableEq, Repr

structure ValidationError where
  type : ConflictType
  position : Position
  value : Nat
deriving DecidableEq, Repr

structure ValidationResult where
  isValid : Bool
  errors : List ValidationError
  isComplete : Bool
  conflictingCells : List Position
deriving DecidableEq, Repr

namespace PuzzleSolver

/-- `isValidMove` (solver variant): the box check is guarded by
`Math.sqrt(size)` being an integer. -/
def isValidMove (grid : Grid) (row col num size : Nat) : Bool :=
  ((List.range size).all fun c => getCell grid row c ≠ num) &&
  ((List.range size).all fun r => getCell grid r col ≠ num) &&
  (let boxSize := isqrt size
   if boxSize * boxSize = size then
     let boxRow := row / boxSize * boxSize
     let boxCol := col / boxSize * boxSize
     (List.range boxSize).all fun dr =>
       (List.range boxSize).all fun dc =>
         getCell grid (boxRow + dr) (boxCol + dc) ≠ num
   else true)

/-- `findEmptyCell` (solver variant). -/
def findEmptyCell (grid : Grid) (size : Nat) : Option (Nat × Nat) :=
  (List.range size).findSome? fun row =>
    (List.range size).findSome? fun col =>
      if getCell grid row col = 0 then some (row, col) else none

/-- `getCandidates`: empty list for a filled cell. -/
def getCandidates (grid : Grid) (row col : Nat) : List Nat :=
  if getCell grid row col ≠ 0 then []
  else
    let size := grid.length
    (List.range' 1 size).filter fun num => isValidMove grid row col num size

/-- `isGridComplete`. -/
def isGridComplete (grid : Grid) : Bool :=
  grid.all fun row => row.all fun cell => cell ≠ 0

/-- `findConflicts`: one error per conflicting peer, or a single
invalid-value error for an out-of-range value. -/
def findConflicts (grid : Grid) (row col value size : Nat) :
    List ValidationError :=
  if value < 1 ∨ value > size then
    [{ type := .invalidValue, position := ⟨row, col⟩, value := value }]
  else
    let rowErrs := (List.range size).filterMap fun c =>
      if c ≠ col ∧ getCell grid row c = value then
        some { type := ConflictType.duplicateInRow,
               position := ⟨row, col⟩, value := value }
      else none
    let colErrs := (List.range size).filterMap fun r =>
      if r ≠ row ∧ getCell grid r col = value then
        some { type := ConflictType.duplicateInColumn,
               position := ⟨row, col⟩, value := value }
      else none
    let boxSize := isqrt size
    let boxErrs :=
      if boxSize * boxSize = size then
        let boxRow := row / boxSize * boxSize
        let boxCol := col / boxSize * boxSize
        ((List.range boxSize).map fun dr =>
          (List.range boxSize).filterMap fun dc =>
            if (boxRow + dr ≠ row ∨ boxCol + dc ≠ col) ∧
                getCell grid (boxRow + dr) (boxCol + dc) = value then
              some { type := ConflictType.duplicateInBox,
                     position := ⟨row, col⟩, value := value }
            else none).flatten
      else []
    rowErrs ++ colErrs ++ boxErrs

/-- `validatePuzzle`: accumulate per-cell conflicts and the list of
conflicting coordinates. -/
def validatePuzzle (grid : Grid) : ValidationResult :=
  let size := grid.length
  let acc := (List.range size).foldl
    (fun acc row =>
      (List.range size).foldl
        (fun (acc : List ValidationError × List Position) col =>
          let value := getCell grid row col
          if value ≠ 0 then
            let conflicts := findConflicts grid row col value size
            (acc.1 ++ conflicts,
             if conflicts.length > 0 then acc.2 ++ [⟨row, col⟩] else acc.2)
          else acc)
        acc)
    ([], [])
  { isValid := acc.1.length = 0
    errors := acc.1
    isComplete := isGridComplete grid
    conflictingCells := acc.2 }

/-- The recursion of `findAllSolutionsWithTimeout`.  State threads the
solution list, the mutated-and-restored grid, and the `Date.now()` call
counter; the inner `done` flag models the mid-loop `return`.  The fuel is
only a structural wrapper: the `depth > 81` cap already stops the
recursion, and the fuel used below (84 at depth 0) can never be the
binding constraint. -/
def findAllSolutionsWithTimeout (clock : Nat → Nat) (t0 timeout : Nat) :
    Nat → Grid → Nat → List Grid → Nat → Nat → Nat →
    List Grid × Grid × Nat
  | 0, g, _, sols, _, _, k => (sols, g, k)
  | fuel + 1, g, size, sols, maxS, depth, k =>
    if sols.length ≥ maxS ∨ depth > 81 then (sols, g, k)
    else if clock k - t0 > timeout then (sols, g, k + 1)
    else
      match findEmptyCell g size with
      | none => (sols ++ [g], g, k + 1)
      | some (r, c) =>
        let res := (List.range' 1 size).foldl
          (fun (st : Bool × List Grid × Grid × Nat) num =>
            if st.1 then st
            else if isValidMove st.2.2.1 r c num size then
              let rec1 := findAllSolutionsWithTimeout clock t0 timeout fuel
                (setCell st.2.2.1 r c num) size st.2.1 maxS (depth + 1)
                st.2.2.2
              let g1 := setCell rec1.2.1 r c 0
              if rec1.1.length ≥ maxS then (true, rec1.1, g1, rec1.2.2)
              else if clock rec1.2.2 - t0 > timeout then
                (true, rec1.1, g1, rec1.2.2 + 1)
              else (false, rec1.1, g1, rec1.2.2 + 1)
            else st)
          (false, sols, g, k + 1)
        (res.2.1, res.2.2.1, res.2.2.2)

/-- `hasUniqueSolution`: enumeration capped at two under a 5-second
budget, then `solutions.length === 1`. -/
def hasUniqueSolution (clock : Nat → Nat) (grid : Grid) : Bool :=
  let t0 := clock 0
  decide ((findAllSolutionsWithTimeout clock t0 5000 84 grid grid.length
    [] 2 0 1).1.length = 1)

end PuzzleSolver

-- Properties of the capped, depth-limited enumeration -------------------------

theorem countZeros_setCell_ge (g : Grid) (n r c v : Nat) :
    countZeros g n ≤ countZeros (setCell g r c v) n + 1 := by
  unfold countZeros
  have hsub : (Finset.range n ×ˢ Finset.range n).filter
      (fun q => getCell g q.1 q.2 = 0)
      ⊆ insert (r, c) ((Finset.range n ×ˢ Finset.range n).filter
        (fun q => getCell (setCell g r c v) q.1 q.2 = 0)) := by
    intro ⟨i, j⟩ hmem
    rw [Finset.mem_filter] at hmem
    rcases eq_or_ne (r, c) (i, j) with heq | hne
    · exact Finset.mem_insert.mpr (Or.inl heq.symm)
    · refine Finset.mem_insert.mpr (Or.inr ?_)
      rw [Finset.mem_filter]
      refine ⟨hmem.1, ?_⟩
      rw [getCell_setCell_ne r c v ?_]
      · exact hmem.2
      · rcases eq_or_ne r i with rfl | hri
        · exact Or.inr (fun hcj => hne (by rw [hcj]))
        · exact Or.inl hri
  calc ((Finset.range n ×ˢ Finset.range n).filter
        (fun q => getCell g q.1 q.2 = 0)).card
      ≤ (insert (r, c) ((Finset.range n ×ˢ Finset.range n).filter
          (fun q => getCell (setCell g r c v) q.1 q.2 = 0))).card :=
        Finset.card_le_card hsub
    _ ≤ _ + 1 := Finset.card_insert_le _ _

theorem PS_findEmptyCell_some (grid : Grid) (size : Nat) {r c : Nat}
    (h : PuzzleSolver.findEmptyCell grid size = some (r, c)) :
    r < size ∧ c < size ∧ getCell grid r c = 0 := by
  unfold PuzzleSolver.findEmptyCell at h
  obtain ⟨row, hrow, hfind⟩ := List.exists_of_findSome?_eq_some h
  obtain ⟨col, hcol, hcell⟩ := List.exists_of_findSome?_eq_some hfind
  by_cases hz : getCell grid row col = 0
  · simp only [hz, if_pos rfl] at hcell
    obtain ⟨rfl, rfl⟩ : row = r ∧ col = c := by
      constructor <;> [injection hcell with h'; injection hcell with h'] <;>
        [exact congrArg Prod.fst h'; exact congrArg Prod.snd h']
    exact ⟨List.mem_range.mp hrow, List.mem_range.mp hcol, hz⟩
  · simp [hz] at hcell

theorem PS_findEmptyCell_none_iff (grid : Grid) (size : Nat) :
    PuzzleSolver.findEmptyCell grid size = none ↔
      ∀ r, r < size → ∀ c, c < size → getCell grid r c ≠ 0 := by
  unfold PuzzleSolver.findEmptyCell
  rw [List.findSome?_eq_none_iff]
  constructor
  · intro h r hr c hc hzero
    have := h r (List.mem_range.mpr hr)
    rw [List.findSome?_eq_none_iff] at this
    have := this c (List.mem_range.mpr hc)
    simp [hzero] at this
  · intro h r hr
    rw [List.findSome?_eq_none_iff]
    intro c hc
    simp only [ite_eq_right_iff]
    intro hzero
    exact absurd hzero (h r (List.mem_range.mp hr) c (List.mem_range.mp hc))

/-- The timeout enumeration always restores its grid argument. -/
theorem findAllTimeout_restores (clock : Nat → Nat) (t0 timeout : Nat) :
    ∀ (fuel : Nat) (g : Grid) (size : Nat) (sols : List Grid)
      (maxS depth k : Nat),
      (PuzzleSolver.findAllSolutionsWithTimeout clock t0 timeout fuel g size
        sols maxS depth k).2.1 = g := by
  intro fuel
  induction fuel with
  | zero => intro g size sols maxS depth k; rfl
  | succ fuel ih =>
    intro g size sols maxS depth k
    rw [PuzzleSolver.findAllSolutionsWithTimeout]
    split
    · rfl
    · split
      · rfl
      · cases hfind : PuzzleSolver.findEmptyCell g size with
        | none => rfl
        | some rc =>
          obtain ⟨r, c⟩ := rc
          obtain ⟨hr, hc, hz⟩ := PS_findEmptyCell_some g size hfind
          dsimp only
          refine foldl_pres_mem _
            (fun st : Bool × List Grid × Grid × Nat => st.2.2.1 = g) _ _
            ?_ rfl
          intro st num _ hPst
          dsimp only
          split
          · exact hPst
          · split
            · have hrec := ih (setCell st.2.2.1 r c num) size st.2.1 maxS
                (depth + 1) st.2.2.2
              have hgrid : setCell (PuzzleSolver.findAllSolutionsWithTimeout
                  clock t0 timeout fuel (setCell st.2.2.1 r c num) size
                  st.2.1 maxS (depth + 1) st.2.2.2).2.1 r c 0 = g := by
                rw [hrec, setCell_setCell, hPst, setCell_self hz]
              split
              · exact hgrid
              · split
                · exact hgrid
                · exact hgrid
            · exact hPst

/-- With more than 81 empty cells ahead (counting the depth already
consumed), the enumeration can never record a completion: the returned
solution list is exactly the one passed in. -/
theorem findAllTimeout_no_completion (clock : Nat → Nat) (t0 timeout : Nat) :
    ∀ (fuel : Nat) (g : Grid) (size : Nat) (sols : List Grid)
      (maxS depth k : Nat),
      81 < depth + countZeros g size →
      (PuzzleSolver.findAllSolutionsWithTimeout clock t0 timeout fuel g size
        sols maxS depth k).1 = sols := by
  intro fuel
  induction fuel with
  | zero => intro g size sols maxS depth k _; rfl
  | succ fuel ih =>
    intro g size sols maxS depth k hinv
    rw [PuzzleSolver.findAllSolutionsWithTimeout]
    split
    · rfl
    · split
      · rfl
      · next hnotbig hnottime =>
        cases hfind : PuzzleSolver.findEmptyCell g size with
        | none =>
          exfalso
          have hz : countZeros g size = 0 :=
            countZeros_eq_zero ((PS_findEmptyCell_none_iff g size).mp hfind)
          rw [not_or] at hnotbig
          have hdepth : ¬ depth > 81 := hnotbig.2
          omega
        | some rc =>
          obtain ⟨r, c⟩ := rc
          obtain ⟨hr, hc, hz⟩ := PS_findEmptyCell_some g size hfind
          refine (foldl_pres_mem _
            (fun st : Bool × List Grid × Grid × Nat =>
              st.2.1 = sols ∧ st.2.2.1 = g) _ _ ?_ ⟨rfl, rfl⟩).1
          intro st num _ hPst
          obtain ⟨hsols, hgrid⟩ := hPst
          dsimp only
          split
          · exact ⟨hsols, hgrid⟩
          · split
            · have hzlt := countZeros_setCell_ge g size r c num
              have hrecsols := ih (setCell st.2.2.1 r c num) size st.2.1 maxS
                (depth + 1) st.2.2.2 (by rw [hgrid]; omega)
              have hrecgrid := findAllTimeout_restores clock t0 timeout fuel
                (setCell st.2.2.1 r c num) size st.2.1 maxS (depth + 1)
                st.2.2.2
              have hback : setCell (PuzzleSolver.findAllSolutionsWithTimeout
                  clock t0 timeout fuel (setCell st.2.2.1 r c num) size
                  st.2.1 maxS (depth + 1) st.2.2.2).2.1 r c 0 = g := by
                rw [hrecgrid, setCell_setCell, hgrid, setCell_self hz]
              split
              · exact ⟨by rw [hrecsols, hsols], hback⟩
              · split
                · exact ⟨by rw [hrecsols, hsols], hback⟩
                · exact ⟨by rw [hrecsols, hsols], hback⟩
            · exact ⟨hsols, hgrid⟩

-- validatePuzzle on complete legal grids --------------------------------------

theorem findConflicts_nil {g : Grid} {n b : Nat} (hb : b * b = n)
    (hcons : Consistent g n b) {row col : Nat} (hrow : row < n)
    (hcol : col < n) (hlow : 1 ≤ getCell g row col)
    (hhigh : getCell g row col ≤ n) :
    PuzzleSolver.findConflicts g row col (getCell g row col) n = [] := by
  obtain ⟨hrows, hcols, hboxes⟩ := hcons
  have hbpos : 0 < b := by
    rcases Nat.eq_zero_or_pos b with rfl | hp
    · omega
    · exact hp
  unfold PuzzleSolver.findConflicts
  rw [if_neg (by omega)]
  dsimp only
  have hnz : getCell g row col ≠ 0 := by omega
  have hrowErrs : ((List.range n).filterMap fun c =>
      if c ≠ col ∧ getCell g row c = getCell g row col then
        some { type := ConflictType.duplicateInRow,
               position := ⟨row, col⟩, value := getCell g row col }
      else none) = ([] : List ValidationError) := by
    rw [List.filterMap_eq_nil]
    intro c hc
    rw [if_neg]
    rintro ⟨hne, heq⟩
    exact hrows row hrow col hcol c (List.mem_range.mp hc) (fun h => hne h.symm)
      hnz heq.symm
  have hcolErrs : ((List.range n).filterMap fun r =>
      if r ≠ row ∧ getCell g r col = getCell g row col then
        some { type := ConflictType.duplicateInColumn,
               position := ⟨row, col⟩, value := getCell g row col }
      else none) = ([] : List ValidationError) := by
    rw [List.filterMap_eq_nil]
    intro r hr
    rw [if_neg]
    rintro ⟨hne, heq⟩
    exact hcols col hcol row hrow r (List.mem_range.mp hr) (fun h => hne h.symm)
      hnz heq.symm
  rw [hrowErrs, hcolErrs, sqrt_of_sq hb, if_pos hb]
  have hboxErrs : (((List.range b).map fun dr =>
      (List.range b).filterMap fun dc =>
        if (row / b * b + dr ≠ row ∨ col / b * b + dc ≠ col) ∧
            getCell g (row / b * b + dr) (col / b * b + dc)
              = getCell g row col then
          some { type := ConflictType.duplicateInBox,
                 position := ⟨row, col⟩, value := getCell g row col }
        else none).flatten) = ([] : List ValidationError) := by
    rw [List.flatten_eq_nil_iff]
    intro l hl
    rw [List.mem_map] at hl
    obtain ⟨dr, hdr, rfl⟩ := hl
    rw [List.filterMap_eq_nil]
    intro dc hdc
    rw [if_neg]
    rintro ⟨hne, heq⟩
    have hdr' : dr < b := List.mem_range.mp hdr
    have hdc' : dc < b := List.mem_range.mp hdc
    have hr2 : row / b * b + dr < n := box_cell_lt hb hrow hdr'
    have hc2 : col / b * b + dc < n := box_cell_lt hb hcol hdc'
    have hdivr : (row / b * b + dr) / b = row / b := box_cell_div hbpos hdr'
    have hdivc : (col / b * b + dc) / b = col / b := box_cell_div hbpos hdc'
    have hpairne : (row, col) ≠ (row / b * b + dr, col / b * b + dc) := by
      intro hcontra
      rw [Prod.mk.injEq] at hcontra
      rcases hne with h | h
      · exact h hcontra.1.symm
      · exact h hcontra.2.symm
    exact hboxes row hrow col hcol _ hr2 _ hc2 hdivr.symm hdivc.symm hpairne
      hnz heq.symm
  rw [hboxErrs]
  simp

theorem isGridComplete_of_complete {g : Grid} {n : Nat} (hwf : WFGrid g n)
    (hcomp : CompleteGrid g n) : PuzzleSolver.isGridComplete g = true := by
  unfold PuzzleSolver.isGridComplete
  rw [List.all_eq_true]
  intro row hrowmem
  rw [List.all_eq_true]
  intro cell hcellmem
  obtain ⟨i, hi, rfl⟩ := List.getElem_of_mem hrowmem
  obtain ⟨j, hj, rfl⟩ := List.getElem_of_mem hcellmem
  have hcell : getCell g i j = g[i][j] := getCell_eq_getElem hi hj
  have hin : i < n := by rw [← hwf.1]; exact hi
  have hjn : j < n := by
    have := hwf.2 g[i] (List.getElem_mem hi)
    omega
  have := hcomp i hin j hjn
  rw [hcell] at this
  simpa using this

/-- On a complete grid that is legal under the row, column and box
constraints, `validatePuzzle` reports valid, complete, no errors and no
conflicting cells. -/
theorem validatePuzzle_clean {g : Grid} {n b : Nat} (hb : b * b = n)
    (hwf : WFGrid g n) (hcomp : CompleteGrid g n) (hrange : InRange g n)
    (hcons : Consistent g n b) :
    PuzzleSolver.validatePuzzle g =
      { isValid := true, errors := [], isComplete := true,
        conflictingCells := [] } := by
  unfold PuzzleSolver.validatePuzzle
  have hsize : g.length = n := hwf.1
  rw [hsize]
  dsimp only
  have hacc : ((List.range n).foldl
      (fun acc row =>
        (List.range n).foldl
          (fun (acc : List ValidationError × List Position) col =>
            let value := getCell g row col
            if value ≠ 0 then
              let conflicts := PuzzleSolver.findConflicts g row col value n
              (acc.1 ++ conflicts,
               if conflicts.length > 0 then acc.2 ++ [⟨row, col⟩] else acc.2)
            else acc)
          acc)
      ([], []))
      = (([], []) : List ValidationError × List Position) := by
    refine foldl_pres_mem _
      (fun st : List ValidationError × List Position => st = ([], [])) _ _
      ?_ rfl
    intro st row hrowmem hPst
    refine foldl_pres_mem _
      (fun st : List ValidationError × List Position => st = ([], [])) _ _
      ?_ hPst
    intro st col hcolmem hPst
    subst hPst
    dsimp only
    have hrow' : row < n := List.mem_range.mp hrowmem
    have hcol' : col < n := List.mem_range.mp hcolmem
    have hnz : getCell g row col ≠ 0 := hcomp row hrow' col hcol'
    rw [if_pos hnz]
    have hconf := findConflicts_nil hb hcons hrow' hcol'
      (by omega) (hrange row hrow' col hcol')
    rw [hconf]
    simp
  rw [hacc]
  have hcompb := isGridComplete_of_complete hwf hcomp
  rw [hcompb]
  rfl

-- Solver: logical techniques, backtracking fallback, heap frame ---------------

/-- Step positions may be the `(-1, -1)` backtracking placeholder. -/
structure StepPosition where
  row : Int
  col : Int
deriving DecidableEq, Repr

structure SolveStep where
  technique : SolvingTechnique
  position : StepPosition
  value : Nat
  candidates : Option (List Nat)
  description : String
deriving DecidableEq, Repr

structure SolveResult where
  solved : Bool
  solution : Option Grid
  steps : List SolveStep
  techniques : List SolvingTechnique
  timeElapsed : Nat
deriving Repr

namespace PuzzleSolver

def maxIterations : Nat := 1000

def techniques : List SolvingTechnique :=
  [.nakedSingles, .hiddenSingles, .nakedPairs, .hiddenPairs, .pointingPairs,
   .boxLineReduction, .xWing, .swordfish, .xyWing, .coloring, .forcingChains]

def applyNakedSingles (grid : Grid) (size : Nat) :
    Bool × Grid × List SolveStep :=
  (List.range size).foldl
    (fun st row =>
      (List.range size).foldl
        (fun (st : Bool × Grid × List SolveStep) col =>
          if getCell st.2.1 row col = 0 then
            match getCandidates st.2.1 row col with
            | [value] =>
              (true, setCell st.2.1 row col value, st.2.2 ++
                [{ technique := .nakedSingles, position := ⟨row, col⟩,
                   value := value, candidates := some [value],
                   description := "Naked single: only " ++ toString value ++
                     " can go in cell (" ++ toString (row + 1) ++ ", " ++
                     toString (col + 1) ++ ")" }])
            | _ => st
          else st)
        st)
    (false, grid, [])

def findHiddenSinglesInRowS (grid : Grid) (row size : Nat)
    (st0 : Bool × Grid × List SolveStep) : Bool × Grid × List SolveStep :=
  (List.range' 1 size).foldl
    (fun (st : Bool × Grid × List SolveStep) num =>
      let possibleCols := (List.range size).filter fun col =>
        getCell st.2.1 row col = 0 && isValidMove st.2.1 row col num size
      match possibleCols with
      | [col] =>
        (true, setCell st.2.1 row col num, st.2.2 ++
          [{ technique := .hiddenSingles, position := ⟨row, col⟩,
             value := num, candidates := none,
             description := "Hidden single in row: " ++ toString num ++
               " can only go in cell (" ++ toString (row + 1) ++ ", " ++
               toString (col + 1) ++ ")" }])
      | _ => st)
    st0

def findHiddenSinglesInColumnS (grid : Grid) (col size : Nat)
    (st0 : Bool × Grid × List SolveStep) : Bool × Grid × List SolveStep :=
  (List.range' 1 size).foldl
    (fun (st : Bool × Grid × List SolveStep) num =>
      let possibleRows := (List.range size).filter fun row =>
        getCell st.2.1 row col = 0 && isValidMove st.2.1 row col num size
      match possibleRows with
      | [row] =>
        (true, setCell st.2.1 row col num, st.2.2 ++
          [{ technique := .hiddenSingles, position := ⟨row, col⟩,
             value := num, candidates := none,
             description := "Hidden single in column: " ++ toString num ++
               " can only go in cell (" ++ toString (row + 1) ++ ", " ++
               toString (col + 1) ++ ")" }])
      | _ => st)
    st0

def findHiddenSinglesInBoxS (grid : Grid) (startRow startCol boxSize : Nat)
    (st0 : Bool × Grid × List SolveStep) : Bool × Grid × List SolveStep :=
  (List.range' 1 (st0.2.1.length)).foldl
    (fun (st : Bool × Grid × List SolveStep) num =>
      let possiblePositions :=
        ((List.range' startRow boxSize).map fun r =>
          (List.range' startCol boxSize).filterMap fun c =>
            if getCell st.2.1 r c = 0 &&
                isValidMove st.2.1 r c num st.2.1.length then
              some (Position.mk r c)
            else none).flatten
      match possiblePositions with
      | [pos] =>
        (true, setCell st.2.1 pos.row pos.col num, st.2.2 ++
          [{ technique := .hiddenSingles,
             position := ⟨(pos.row : Int), (pos.col : Int)⟩,
             value := num, candidates := none,
             description := "Hidden single in box: " ++ toString num ++
               " can only go in cell (" ++ toString (pos.row + 1) ++ ", " ++
               toString (pos.col + 1) ++ ")" }])
      | _ => st)
    st0

def applyHiddenSingles (grid : Grid) (size : Nat) :
    Bool × Grid × List SolveStep :=
  let st1 := (List.range size).foldl
    (fun (st : Bool × Grid × List SolveStep) row =>
      let st' := findHiddenSinglesInRowS st.2.1 row size (false, st.2.1, st.2.2)
      (st'.1 || st.1, st'.2))
    (false, grid, [])
  let st2 := (List.range size).foldl
    (fun (st : Bool × Grid × List SolveStep) col =>
      let st' := findHiddenSinglesInColumnS st.2.1 col size
        (false, st.2.1, st.2.2)
      (st'.1 || st.1, st'.2))
    st1
  let boxSize := isqrt size
  if boxSize * boxSize = size then
    let starts := List.range' 0 ((size + boxSize - 1) / boxSize) boxSize
    starts.foldl
      (fun st boxRow =>
        starts.foldl
          (fun (st : Bool × Grid × List SolveStep) boxCol =>
            let st' := findHiddenSinglesInBoxS st.2.1 boxRow boxCol boxSize
              (false, st.2.1, st.2.2)
            (st'.1 || st.1, st'.2))
          st)
      st2
  else st2

def applyTechnique (grid : Grid) (t : SolvingTechnique) (size : Nat) :
    Bool × Grid × List SolveStep :=
  match t with
  | .nakedSingles => applyNakedSingles grid size
  | .hiddenSingles => applyHiddenSingles grid size
  | .nakedPairs => (false, grid, [])
  | .hiddenPairs => (false, grid, [])
  | _ => (false, grid, [])

def pushIfNewS (techs : List SolvingTechnique) (t : SolvingTechnique) :
    List SolvingTechnique :=
  if t ∈ techs then techs else techs ++ [t]

/-- One pass of the technique ladder: the first technique that makes
progress wins (`break`). -/
def tryTechniques (grid : Grid) (size : Nat) :
    Option (Grid × List SolveStep × SolvingTechnique) :=
  techniques.foldl
    (fun st t =>
      match st with
      | some r => some r
      | none =>
        match applyTechnique grid t size with
        | (true, g', steps) => some (g', steps, t)
        | (false, _, _) => none)
    none

/-- The main `while` loop of `solvePuzzle`, bounded by `maxIterations`. -/
def solveLoop (size : Nat) :
    Nat → Grid → List SolveStep → List SolvingTechnique →
    Grid × List SolveStep × List SolvingTechnique
  | 0, g, steps, used => (g, steps, used)
  | fuel + 1, g, steps, used =>
    if isGridComplete g then (g, steps, used)
    else
      match tryTechniques g size with
      | some (g', newSteps, t) =>
        solveLoop size fuel g' (steps ++ newSteps) (pushIfNewS used t)
      | none => (g, steps, used)

/-- `solveWithBacktracking`, with its own `depth > 81` recursion cap; the
fuel (84 at depth 0) is a structural wrapper the cap makes unreachable. -/
def solveWithBacktracking : Nat → Grid → Nat → Nat → Bool × Grid
  | 0, g, _, _ => (false, g)
  | fuel + 1, g, size, depth =>
    if depth > 81 then (false, g)
    else
      match findEmptyCell g size with
      | none => (true, g)
      | some (r, c) =>
        (List.range' 1 size).foldl
          (fun (st : Bool × Grid) num =>
            if st.1 then st
            else if isValidMove st.2 r c num size then
              match solveWithBacktracking fuel (setCell st.2 r c num) size
                  (depth + 1) with
              | (true, g') => (true, g')
              | (false, g') => (false, setCell g' r c 0)
            else st)
          (false, g)

/-- The body of `solvePuzzle` on the working grid, also returning the
final state of the working grid (which the heap model stores back). -/
def solvePuzzleCore (clock : Nat → Nat) (initialState : Grid) (size : Nat) :
    SolveResult × Grid :=
  let t0 := clock 0
  let lr := solveLoop size maxIterations initialState [] []
  if isGridComplete lr.1 then
    ({ solved := true, solution := some lr.1, steps := lr.2.1,
       techniques := lr.2.2, timeElapsed := max 1 (clock 1 - t0) }, lr.1)
  else
    let timeRemaining : Int := 10000 - ((clock 1 : Int) - (t0 : Int))
    if timeRemaining > 1000 then
      match solveWithBacktracking 84 lr.1 size 0 with
      | (true, g2) =>
        let steps := lr.2.1 ++
          [{ technique := .forcingChains, position := ⟨-1, -1⟩, value := 0,
             candidates := none,
             description := "Completed using backtracking algorithm" }]
        let used := pushIfNewS lr.2.2 .forcingChains
        let solved := isGridComplete g2
        ({ solved := solved,
           solution := if solved then some g2 else none,
           steps := steps, techniques := used,
           timeElapsed := max 1 (clock 2 - t0) }, g2)
      | (false, g2) =>
        let solved := isGridComplete g2
        ({ solved := solved,
           solution := if solved then some g2 else none,
           steps := lr.2.1, techniques := lr.2.2,
           timeElapsed := max 1 (clock 2 - t0) }, g2)
    else
      let solved := isGridComplete lr.1
      ({ solved := solved,
         solution := if solved then some lr.1 else none,
         steps := lr.2.1, techniques := lr.2.2,
         timeElapsed := max 1 (clock 2 - t0) }, lr.1)

/-- `solvePuzzle(puzzle)`: runs the core on `puzzle.initialState`. -/
def solvePuzzle (clock : Nat → Nat) (puzzle : Puzzle) : SolveResult :=
  (solvePuzzleCore clock puzzle.initialState puzzle.size).1

end PuzzleSolver

-- Heap model for the frame property of solvePuzzle ----------------------------

/-- A heap of row arrays; a grid owned by a caller is a list of row
references into the heap. -/
abbrev Heap := List (List Nat)

def derefRow (h : Heap) (ref : Nat) : List Nat := h.getD ref []

def derefGrid (h : Heap) (refs : List Nat) : Grid := refs.map (derefRow h)

/-- Allocate fresh rows at the end of the heap. -/
def allocRows (h : Heap) (rows : List (List Nat)) : Heap × List Nat :=
  (h ++ rows, List.range' h.length rows.length)

/-- Write a grid's rows through the given row references. -/
def storeGrid (h : Heap) (refs : List Nat) (g : Grid) : Heap :=
  (refs.zip g).foldl (fun h rv => h.set rv.1 rv.2) h

/-- A caller-owned `Puzzle` whose grids live in the heap. -/
structure PuzzleRef where
  variant : PuzzleVariant
  difficulty : Difficulty
  size : Nat
  initialState : List Nat
  solution : List Nat

/-- Heap-level `solvePuzzle`: the source's
`puzzle.initialState.map(row => [...row])` allocates fresh row arrays
holding copies of the caller's rows, and every write the solver performs
targets only those fresh rows, so the net heap effect is storing the
final working grid at the fresh references. -/
def solvePuzzleHeap (clock : Nat → Nat) (h : Heap) (p : PuzzleRef) :
    SolveResult × Heap :=
  let init := derefGrid h p.initialState
  let al := allocRows h (init.map fun row => row.map fun x => x)
  let core := PuzzleSolver.solvePuzzleCore clock init p.size
  (core.1, storeGrid al.1 al.2 core.2)

-- DifficultyCalibrator (dist/engine/difficulty-calibrator.js) -----------------

structure TechniqueAnalysis where
  technique : SolvingTechnique
  frequency : ℚ
  complexity : ℚ
  timeImpact : ℚ
deriving Repr

structure DifficultyCalibrationResult where
  calculatedDifficulty : Difficulty
  difficultyScore : ℚ
  requiredTechniques : List SolvingTechnique
  estimatedSolveTime : Int
  confidence : ℚ
deriving Repr

namespace DifficultyCalibrator

def complexityOf : SolvingTechnique → ℚ
  | .nakedSingles => 1/10
  | .hiddenSingles => 2/10
  | .nakedPairs => 1
  | .hiddenPairs => 12/10
  | .pointingPairs => 15/10
  | .boxLineReduction => 18/10
  | .xWing => 25/10
  | .swordfish => 35/10
  | .xyWing => 4
  | .coloring => 45/10
  | .forcingChains => 5

def timeImpactOf : SolvingTechnique → ℚ
  | .nakedSingles => 1
  | .hiddenSingles => 2
  | .nakedPairs => 5
  | .hiddenPairs => 6
  | .pointingPairs => 8
  | .boxLineReduction => 10
  | .xWing => 15
  | .swordfish => 25
  | .xyWing => 30
  | .coloring => 35
  | .forcingChains => 45

/-- The per-tier `[min, max)` score bands, in declaration order. -/
def difficultyBoundaries : Difficulty → ℚ × ℚ
  | .beginner => (0, 2)
  | .easy => (15/10, 35/10)
  | .medium => (3, 55/10)
  | .hard => (5, 8)
  | .expert => (75/10, 10)

/-- `baseSolveTimes[size] || baseSolveTimes[CLASSIC_9X9]`. -/
def baseSolveTime (size : Nat) : ℚ :=
  if size = 6 then 180 else if size = 9 then 600
  else if size = 16 then 1800 else 600

/-- `isValidMove` (calibrator variant, with entry bounds checks; the
per-row existence guards inside the scans are no-ops on value grids). -/
def isValidMove (grid : Grid) (row col num size : Nat) : Bool :=
  if size ≤ row ∨ size ≤ col then false
  else if grid.length ≤ row then false
  else
    ((List.range size).all fun c => getCell grid row c ≠ num) &&
    ((List.range size).all fun r => getCell grid r col ≠ num) &&
    (let boxSize := isqrt size
     if boxSize * boxSize = size then
       let boxRow := row / boxSize * boxSize
       let boxCol := col / boxSize * boxSize
       (List.range boxSize).all fun dr =>
         (List.range boxSize).all fun dc =>
           getCell grid (boxRow + dr) (boxCol + dc) ≠ num
     else true)

def getCandidates (grid : Grid) (row col size : Nat) : List Nat :=
  (List.range' 1 size).filter fun num => isValidMove grid row col num size

def isGridComplete (grid : Grid) : Bool :=
  grid.all fun row => row.all fun cell => cell ≠ 0

def applyNakedSingles (grid : Grid) (gridSize : Nat) : Bool × Grid :=
  (List.range gridSize).foldl
    (fun st row =>
      (List.range gridSize).foldl
        (fun (st : Bool × Grid) col =>
          if getCell st.2 row col = 0 then
            match getCandidates st.2 row col gridSize with
            | [v] => (true, setCell st.2 row col v)
            | _ => st
          else st)
        st)
    (false, grid)

def findHiddenSinglesInRow (grid : Grid) (row size : Nat)
    (st0 : Bool × Grid) : Bool × Grid :=
  (List.range' 1 size).foldl
    (fun (st : Bool × Grid) num =>
      let possibleCols := (List.range size).filter fun col =>
        getCell st.2 row col = 0 && isValidMove st.2 row col num size
      match possibleCols with
      | [col] => (true, setCell st.2 row col num)
      | _ => st)
    st0

def findHiddenSinglesInColumn (grid : Grid) (col size : Nat)
    (st0 : Bool × Grid) : Bool × Grid :=
  (List.range' 1 size).foldl
    (fun (st : Bool × Grid) num =>
      let possibleRows := (List.range size).filter fun row =>
        getCell st.2 row col = 0 && isValidMove st.2 row col num size
      match possibleRows with
      | [row] => (true, setCell st.2 row col num)
      | _ => st)
    st0

def findHiddenSinglesInBox (grid : Grid) (startRow startCol boxSize : Nat)
    (st0 : Bool × Grid) : Bool × Grid :=
  (List.range' 1 st0.2.length).foldl
    (fun (st : Bool × Grid) num =>
      let possiblePositions :=
        ((List.range' startRow boxSize).map fun r =>
          (List.range' startCol boxSize).filterMap fun c =>
            if getCell st.2 r c = 0 && isValidMove st.2 r c num st.2.length
            then some (Position.mk r c)
            else none).flatten
      match possiblePositions with
      | [pos] => (true, setCell st.2 pos.row pos.col num)
      | _ => st)
    st0

def applyHiddenSingles (grid : Grid) (gridSize : Nat) : Bool × Grid :=
  let st1 := (List.range gridSize).foldl
    (fun (st : Bool × Grid) i =>
      let str := findHiddenSinglesInRow st.2 i gridSize (false, st.2)
      let stc := findHiddenSinglesInColumn str.2 i gridSize (false, str.2)
      (stc.1 || str.1 || st.1, stc.2))
    (false, grid)
  let boxSize := isqrt gridSize
  if boxSize * boxSize = gridSize then
    let starts := List.range' 0 ((gridSize + boxSize - 1) / boxSize) boxSize
    starts.foldl
      (fun st boxRow =>
        starts.foldl
          (fun (st : Bool × Grid) boxCol =>
            let stb := findHiddenSinglesInBox st.2 boxRow boxCol boxSize
              (false, st.2)
            (stb.1 || st.1, stb.2))
          st)
      st1
  else st1

/-- `applyTechnique` (calibrator variant): empty-grid guard, then the
implemented rungs; everything above hidden pairs is a no-op. -/
def applyTechnique (grid : Grid) (t : SolvingTechnique) : Bool × Grid :=
  if grid.length = 0 then (false, grid)
  else
    let gridSize := grid.length
    match t with
    | .nakedSingles => applyNakedSingles grid gridSize
    | .hiddenSingles => applyHiddenSingles grid gridSize
    | .nakedPairs => (false, grid)
    | .hiddenPairs => (false, grid)
    | _ => (false, grid)

def countEmptyCells (grid : Grid) : Nat :=
  grid.foldl (fun acc row => acc + (row.filter (fun c => c = 0)).length) 0

def getAdvancedTechniqueForDifficulty : Difficulty → SolvingTechnique
  | .beginner => .hiddenSingles
  | .easy => .hiddenSingles
  | .medium => .nakedPairs
  | .hard => .xWing
  | .expert => .forcingChains

/-- Insertion-ordered map from techniques to (rational) frequencies,
modelling the JS `Map`. -/
abbrev Usage := List (SolvingTechnique × ℚ)

def usageGet (m : Usage) (t : SolvingTechnique) : ℚ :=
  match m.find? (fun e => e.1 = t) with
  | some e => e.2
  | none => 0

def usageSet (m : Usage) (t : SolvingTechnique) (v : ℚ) : Usage :=
  if m.any (fun e => e.1 = t) then
    m.map (fun e => if e.1 = t then (t, v) else e)
  else m ++ [(t, v)]

def techniquesList : List SolvingTechnique :=
  [.nakedSingles, .hiddenSingles, .nakedPairs, .hiddenPairs, .pointingPairs,
   .boxLineReduction, .xWing, .swordfish, .xyWing, .coloring, .forcingChains]

/-- One iteration of the analysis loop: the first technique that applies
wins. -/
def tryTechniquesC (grid : Grid) : Option (Grid × SolvingTechnique) :=
  techniquesList.foldl
    (fun st t =>
      match st with
      | some r => some r
      | none =>
        match applyTechnique grid t with
        | (true, g') => some (g', t)
        | (false, _) => none)
    none

/-- The bounded analysis loop (`maxIterations = 100`). -/
def analyzeLoop (difficulty : Difficulty) :
    Nat → Grid → Usage → Usage
  | 0, _, usage => usage
  | fuel + 1, g, usage =>
    if isGridComplete g then usage
    else
      match tryTechniquesC g with
      | some (g', t) => analyzeLoop difficulty fuel g' (usageSet usage t
          (usageGet usage t + 1))
      | none => usageSet usage (getAdvancedTechniqueForDifficulty difficulty)
          (usageGet usage (getAdvancedTechniqueForDifficulty difficulty) + 1)

def addTechniquesBasedOnDifficulty (difficulty : Difficulty) (usage : Usage)
    (emptyCells : Nat) : Usage :=
  let baseFrequency : ℚ := ((max 1 (emptyCells / 20) : Nat) : ℚ)
  match difficulty with
  | .beginner => usage
  | .easy => usageSet usage .hiddenSingles
      (usageGet usage .hiddenSingles + baseFrequency)
  | .medium =>
    let u1 := usageSet usage .hiddenSingles
      (usageGet usage .hiddenSingles + baseFrequency)
    usageSet u1 .nakedPairs (usageGet u1 .nakedPairs + baseFrequency)
  | .hard =>
    let u1 := usageSet usage .hiddenSingles
      (usageGet usage .hiddenSingles + baseFrequency)
    let u2 := usageSet u1 .nakedPairs (usageGet u1 .nakedPairs + baseFrequency)
    let u3 := usageSet u2 .hiddenPairs
      (usageGet u2 .hiddenPairs + baseFrequency)
    usageSet u3 .xWing (usageGet u3 .xWing + max 1 (baseFrequency / 2))
  | .expert =>
    let u1 := usageSet usage .hiddenSingles
      (usageGet usage .hiddenSingles + baseFrequency)
    let u2 := usageSet u1 .nakedPairs (usageGet u1 .nakedPairs + baseFrequency)
    let u3 := usageSet u2 .hiddenPairs
      (usageGet u2 .hiddenPairs + baseFrequency)
    let u4 := usageSet u3 .xWing (usageGet u3 .xWing + baseFrequency)
    let u5 := usageSet u4 .xyWing
      (usageGet u4 .xyWing + max 1 (baseFrequency / 2))
    usageSet u5 .forcingChains
      (usageGet u5 .forcingChains + max 1 (baseFrequency / 3))

/-- `analyzeTechniques`: run the ladder in frequency-tracking mode, seed
basic techniques if nothing fired, and optionally add tier-based usage
when calibrating for generation. -/
def analyzeTechniques (puzzle : Puzzle) (forGeneration : Bool) :
    List TechniqueAnalysis :=
  let workingGrid := puzzle.initialState
  let emptyCells := countEmptyCells workingGrid
  let totalCells := puzzle.size * puzzle.size
  let fillRatio : ℚ := ((totalCells : ℚ) - (emptyCells : ℚ)) / totalCells
  let usage0 := analyzeLoop puzzle.difficulty 100 workingGrid []
  let usage1 :=
    if usage0.length = 0 then
      let u1 := usageSet usage0 .nakedSingles ((max 1 (emptyCells / 10) : Nat) : ℚ)
      if fillRatio < 6/10 then
        usageSet u1 .hiddenSingles ((max 1 (emptyCells / 15) : Nat) : ℚ)
      else u1
    else usage0
  let usage2 :=
    if forGeneration ∧ emptyCells > 1 then
      addTechniquesBasedOnDifficulty puzzle.difficulty usage1 emptyCells
    else usage1
  usage2.map fun e =>
    { technique := e.1, frequency := e.2,
      complexity := complexityOf e.1, timeImpact := timeImpactOf e.1 }

/-- `calculateDifficultyScore` with `Math.log` as the oracle `logO`:
`Σ complexity · log(frequency + 1)`, capped at 10. -/
def calculateDifficultyScore (logO : ℚ → ℚ)
    (techniques : List TechniqueAnalysis) : ℚ :=
  min (techniques.foldl
    (fun total a => total + a.complexity * logO (a.frequency + 1)) 0) 10

/-- `scoreToDifficulty`: first `[min, max)` band that contains the score,
in ascending declaration order; EXPERT as the fallback. -/
def scoreToDifficulty (score : ℚ) : Difficulty :=
  match [Difficulty.beginner, .easy, .medium, .hard, .expert].find?
      (fun d => decide ((difficultyBoundaries d).1 ≤ score ∧
        score < (difficultyBoundaries d).2)) with
  | some d => d
  | none => .expert

def getSizeMultiplier (size : Nat) : ℚ :=
  if size = 6 then 6/10 else if size = 9 then 1
  else if size = 16 then 25/10 else 1

def getDifficultyMultiplier (techniques : List TechniqueAnalysis) : ℚ :=
  if techniques.length = 0 then 1
  else
    let avgComplexity := (techniques.foldl (fun s t => s + t.complexity)
      (0 : ℚ)) / (techniques.length : ℚ)
    if avgComplexity < 5/10 then 8/10
    else if avgComplexity < 15/10 then 1
    else if avgComplexity < 3 then 14/10
    else 18/10

def estimateSolveTime (logO : ℚ → ℚ) (size : Nat)
    (techniques : List TechniqueAnalysis) : Int :=
  let baseTime := baseSolveTime size
  let tm1 := techniques.foldl
    (fun tm a => tm + (a.timeImpact / 100) * logO (a.frequency + 1)) 1
  let tm2 := tm1 * getSizeMultiplier size
  let tm3 := tm2 * getDifficultyMultiplier techniques
  PuzzleGenerator.jsRound (baseTime * tm3)

/-- `calculateConfidence`: multiplicative discounts, the 9×9 floor of
0.85, and the global floor of 0.1. -/
def calculateConfidence (logO : ℚ → ℚ) (puzzle : Puzzle)
    (techniques : List TechniqueAnalysis) : ℚ :=
  let c0 : ℚ := 1
  let techniqueCount := techniques.length
  let c1 := if techniqueCount < 2 then c0 * (7/10)
    else if techniqueCount > 8 then c0 * (8/10)
    else c0
  let score := calculateDifficultyScore logO techniques
  let c2 := if score < 5/10 ∨ score > 95/10 then c1 * (6/10) else c1
  let c3 := if puzzle.size ≠ 9 then c2 * (85/100) else c2
  let c4 :=
    if puzzle.size = 9 ∧ (1 ≤ techniqueCount ∧ techniqueCount ≤ 8 ∧
        1/10 ≤ score ∧ score ≤ 9) then
      max c3 (85/100)
    else c3
  max c4 (1/10)

/-- `calibrateDifficulty`. -/
def calibrateDifficulty (logO : ℚ → ℚ) (puzzle : Puzzle)
    (forGeneration : Bool) : DifficultyCalibrationResult :=
  let techniques := analyzeTechniques puzzle forGeneration
  let difficultyScore := calculateDifficultyScore logO techniques
  { calculatedDifficulty := scoreToDifficulty difficultyScore
    difficultyScore := difficultyScore
    requiredTechniques := techniques.map (·.technique)
    estimatedSolveTime := estimateSolveTime logO puzzle.size techniques
    confidence := calculateConfidence logO puzzle techniques }

end DifficultyCalibrator

-- Frame property of the heap-level solvePuzzle --------------------------------

theorem storeGrid_frame (i : Nat) :
    ∀ (pairs : List (Nat × List Nat)) (h : Heap),
      (∀ pr ∈ pairs, i < pr.1) →
      (pairs.foldl (fun h rv => h.set rv.1 rv.2) h)[i]? = h[i]?
  | [], h, _ => rfl
  | pr :: pairs, h, hlt => by
    rw [List.foldl_cons]
    rw [storeGrid_frame i pairs _
      (fun q hq => hlt q (List.mem_cons_of_mem pr hq))]
    exact List.getElem?_set_ne
      (Nat.ne_of_gt (hlt pr (List.mem_cons_self pr pairs)))

theorem solvePuzzleHeap_frame (clock : Nat → Nat) (h : Heap) (p : PuzzleRef)
    {i : Nat} (hi : i < h.length) :
    (solvePuzzleHeap clock h p).2[i]? = h[i]? := by
  unfold solvePuzzleHeap allocRows storeGrid
  dsimp only
  rw [storeGrid_frame i _ _ ?_]
  · exact List.getElem?_append_left hi
  · intro pr hpr
    have := List.of_mem_zip hpr
    have hmem := this.1
    rw [List.mem_range'] at hmem
    obtain ⟨idx, _, heq⟩ := hmem
    omega

theorem derefGrid_frame (clock : Nat → Nat) (h : Heap) (p : PuzzleRef)
    (refs : List Nat) (hrefs : ∀ ref ∈ refs, ref < h.length) :
    derefGrid (solvePuzzleHeap clock h p).2 refs = derefGrid h refs := by
  unfold derefGrid
  apply List.map_congr_left
  intro ref hmem
  unfold derefRow
  rw [List.getD_eq_getElem?_getD, List.getD_eq_getElem?_getD,
    solvePuzzleHeap_frame clock h p (hrefs ref hmem)]

-- Confidence bounds -----------------------------------------------------------

theorem calculateConfidence_bounds (logO : ℚ → ℚ) (puzzle : Puzzle)
    (techniques : List TechniqueAnalysis) :
    1/10 ≤ DifficultyCalibrator.calculateConfidence logO puzzle techniques ∧
    DifficultyCalibrator.calculateConfidence logO puzzle techniques ≤ 1 := by
  unfold DifficultyCalibrator.calculateConfidence
  dsimp only
  constructor
  · exact le_max_right _ _
  · have h1 : (0 : ℚ) ≤ 1 := by norm_num
    set c1 := if techniques.length < 2 then (1 : ℚ) * (7/10)
      else if techniques.length > 8 then (1 : ℚ) * (8/10) else (1 : ℚ)
      with hc1
    have hc1b : 0 ≤ c1 ∧ c1 ≤ 1 := by
      rw [hc1]
      split
      · norm_num
      · split
        · norm_num
        · norm_num
    set score := DifficultyCalibrator.calculateDifficultyScore logO techniques
      with hscore
    set c2 := if score < 5/10 ∨ score > 95/10 then c1 * (6/10) else c1
      with hc2
    have hc2b : 0 ≤ c2 ∧ c2 ≤ 1 := by
      rw [hc2]
      split
      · constructor
        · positivity
        · nlinarith [hc1b.1, hc1b.2]
      · exact hc1b
    set c3 := if puzzle.size ≠ 9 then c2 * (85/100) else c2 with hc3
    have hc3b : 0 ≤ c3 ∧ c3 ≤ 1 := by
      rw [hc3]
      split
      · constructor
        · positivity
        · nlinarith [hc2b.1, hc2b.2]
      · exact hc2b
    set c4 := if puzzle.size = 9 ∧ (1 ≤ techniques.length ∧
        techniques.length ≤ 8 ∧ 1/10 ≤ score ∧ score ≤ 9) then
        max c3 (85/100) else c3 with hc4
    have hc4b : c4 ≤ 1 := by
      rw [hc4]
      split
      · exact max_le hc3b.2 (by norm_num)
      · exact hc3b.2
    exact max_le hc4b (by norm_num)

theorem calculateConfidence_floor (logO : ℚ → ℚ) (puzzle : Puzzle)
    (techniques : List TechniqueAnalysis)
    (hsize : puzzle.size = 9)
    (hlo : 1 ≤ techniques.length) (hhi : techniques.length ≤ 8)
    (hslo : 1/10 ≤ DifficultyCalibrator.calculateDifficultyScore logO
      techniques)
    (hshi : DifficultyCalibrator.calculateDifficultyScore logO techniques
      ≤ 9) :
    85/100 ≤ DifficultyCalibrator.calculateConfidence logO puzzle
      techniques := by
  unfold DifficultyCalibrator.calculateConfidence
  dsimp only
  rw [if_pos ⟨hsize, hlo, hhi, hslo, hshi⟩]
  exact le_max_of_le_left (le_max_right _ _)

-- Mask preservation through the removal loops ---------------------------------

/-- Writing back the value a cell currently holds is the identity. -/
theorem setCell_getCell_self (g : Grid) (r c : Nat) :
    setCell g r c (getCell g r c) = g := by
  unfold setCell
  rcases Nat.lt_or_ge r g.length with hr | hr
  · rcases Nat.lt_or_ge c (g.getD r []).length with hc | hc
    · have hrow : (g.getD r []).set c (getCell g r c) = g.getD r [] := by
        apply List.ext_getElem?
        intro i
        rcases eq_or_ne c i with rfl | hne
        · rw [List.getElem?_set_eq_of_lt _ hc, List.getElem?_eq_getElem hc]
          unfold getCell
          rw [List.getD_eq_getElem?_getD (l := g.getD r []),
            List.getElem?_eq_getElem hc]
          rfl
        · rw [List.getElem?_set_ne hne]
      rw [hrow]
      apply List.ext_getElem?
      intro i
      rcases eq_or_ne r i with rfl | hne
      · rw [List.getElem?_set_eq_of_lt _ hr,
          List.getD_eq_getElem?_getD, List.getElem?_eq_getElem hr]
        rfl
      · rw [List.getElem?_set_ne hne]
    · rw [listGetD_set_irrel (l := g.getD r []) _ hc]
      apply List.ext_getElem?
      intro i
      rcases eq_or_ne r i with rfl | hne
      · rw [List.getElem?_set_eq_of_lt _ hr,
          List.getD_eq_getElem?_getD, List.getElem?_eq_getElem hr]
        rfl
      · rw [List.getElem?_set_ne hne]
  · exact listGetD_set_irrel _ hr

theorem getCell_setCell_cases (g : Grid) (r c v i j : Nat) :
    getCell (setCell g r c v) i j = getCell g i j ∨
    getCell (setCell g r c v) i j = v := by
  by_cases h : r = i ∧ c = j
  · obtain ⟨rfl, rfl⟩ := h
    rcases Nat.lt_or_ge r g.length with hr | hr
    · rcases Nat.lt_or_ge c (g.getD r []).length with hc | hc
      · exact Or.inr (getCell_setCell_eq v hr hc)
      · left
        unfold setCell
        rw [listGetD_set_irrel (l := g.getD r []) _ hc]
        rw [set_row_self_aux hr]
    · left
      unfold setCell
      rw [listGetD_set_irrel _ hr]
  · refine Or.inl (getCell_setCell_ne _ _ v ?_)
    rcases Decidable.not_and_iff_or_not.mp h with h | h
    · exact Or.inl h
    · exact Or.inr h
where
  set_row_self_aux {g : Grid} {r : Nat} (hr : r < g.length) :
      g.set r (g.getD r []) = g := by
    apply List.ext_getElem?
    intro i
    rcases eq_or_ne r i with rfl | hne
    · rw [List.getElem?_set_eq_of_lt _ hr,
        List.getD_eq_getElem?_getD, List.getElem?_eq_getElem hr]
      rfl
    · rw [List.getElem?_set_ne hne]

theorem maskOf_refl (g : Grid) (n : Nat) : MaskOf g g n :=
  fun _ _ _ _ => Or.inr rfl

theorem maskOf_setCell_zero {g sol : Grid} {n : Nat} (hmask : MaskOf g sol n)
    (r c : Nat) : MaskOf (setCell g r c 0) sol n := by
  intro i hi j hj
  rcases getCell_setCell_cases g r c 0 i j with h | h
  · rw [h]; exact hmask i hi j hj
  · rw [h]; exact Or.inl rfl

theorem maskOf_extends {g sol : Grid} {n : Nat} (hmask : MaskOf g sol n) :
    ExtendsGrid g sol n := by
  intro r hr c hc hnz
  rcases hmask r hr c hc with h | h
  · exact absurd h hnz
  · exact h.symm

theorem countZeros_le (g : Grid) (n : Nat) : countZeros g n ≤ n * n := by
  unfold countZeros
  calc ((Finset.range n ×ˢ Finset.range n).filter _).card
      ≤ (Finset.range n ×ˢ Finset.range n).card := Finset.card_filter_le _ _
    _ = n * n := by rw [Finset.card_product, Finset.card_range]

/-- The permissive removal loop only blanks cells: the result is a mask
of its input and stays well-formed. -/
theorem createEasyGo_spec {sol : Grid} {n target : Nat} :
    ∀ (positions : List Position) (puz : Grid) (clues : Nat),
      MaskOf puz sol n → WFGrid puz n →
      MaskOf (PuzzleGenerator.createEasyGo target positions puz clues) sol n ∧
      WFGrid (PuzzleGenerator.createEasyGo target positions puz clues) n
  | [], puz, clues, hmask, hwf => ⟨hmask, hwf⟩
  | pos :: rest, puz, clues, hmask, hwf => by
    rw [PuzzleGenerator.createEasyGo]
    split
    · exact ⟨hmask, hwf⟩
    · split
      · exact createEasyGo_spec rest puz clues hmask hwf
      · exact createEasyGo_spec rest _ _ (maskOf_setCell_zero hmask _ _)
          (setCell_WF _ _ _ hwf)

/-- The gated removal loop likewise only blanks cells (the restore branch
writes the original value back, which is the identity on the grid). -/
theorem createHardGo_spec (rng : Rng) {sol : Grid} {n target : Nat} :
    ∀ (positions : List Position) (puz : Grid) (clues attempts k : Nat),
      MaskOf puz sol n → WFGrid puz n →
      MaskOf (PuzzleGenerator.createHardGo rng target n positions puz clues
        attempts k).1 sol n ∧
      WFGrid (PuzzleGenerator.createHardGo rng target n positions puz clues
        attempts k).1 n
  | [], puz, clues, attempts, k, hmask, hwf => ⟨hmask, hwf⟩
  | pos :: rest, puz, clues, attempts, k, hmask, hwf => by
    rw [PuzzleGenerator.createHardGo]
    split
    · exact ⟨hmask, hwf⟩
    · split
      · exact createHardGo_spec rng rest puz clues (attempts + 1) k hmask hwf
      · dsimp only
        split
        · rcases hres : PuzzleGenerator.hasAnySolution rng
            (setCell puz pos.row pos.col 0) n k with ⟨b1, k1⟩
          cases b1 with
          | true =>
            exact createHardGo_spec rng rest _ _ (attempts + 1) k1
              (maskOf_setCell_zero hmask _ _) (setCell_WF _ _ _ hwf)
          | false =>
            rw [setCell_setCell, setCell_getCell_self]
            exact createHardGo_spec rng rest puz clues (attempts + 1) k1
              hmask hwf
        · exact createHardGo_spec rng rest _ _ (attempts + 1) k
            (maskOf_setCell_zero hmask _ _) (setCell_WF _ _ _ hwf)

/-- `createPuzzleFromSolution` returns a well-formed mask of the solution
it was given. -/
theorem createPuzzleFromSolution_spec (rng : Rng) {sol : Grid} {n : Nat}
    (difficulty : Difficulty) (k : Nat) (hwf : WFGrid sol n) :
    MaskOf (PuzzleGenerator.createPuzzleFromSolution rng sol difficulty n
      k).1 sol n ∧
    WFGrid (PuzzleGenerator.createPuzzleFromSolution rng sol difficulty n
      k).1 n := by
  unfold PuzzleGenerator.createPuzzleFromSolution
  dsimp only
  split
  · unfold PuzzleGenerator.createHardPuzzle
    exact createHardGo_spec rng _ sol _ 0 _ (maskOf_refl sol n) hwf
  · unfold PuzzleGenerator.createEasyPuzzle
    exact createEasyGo_spec _ sol _ (maskOf_refl sol n) hwf

-- The master specification of a successful generation -------------------------

theorem getCell_replicate (n r c : Nat) :
    getCell (List.replicate n (List.replicate n 0)) r c = 0 := by
  unfold getCell
  have hrow : (List.replicate n (List.replicate n 0)).getD r []
      = if r < n then List.replicate n 0 else [] := by
    rw [List.getD_eq_getElem?_getD, List.getElem?_replicate]
    split <;> rfl
  rw [hrow]
  split
  · have hcol : (List.replicate n (0 : Nat)).getD c 0
        = if c < n then 0 else 0 := by
      rw [List.getD_eq_getElem?_getD, List.getElem?_replicate]
      split <;> rfl
    rw [hcol]
    split <;> rfl
  · rfl

theorem consistent_empty (n b : Nat) :
    Consistent (List.replicate n (List.replicate n 0)) n b := by
  refine ⟨?_, ?_, ?_⟩
  · intro r _ c₁ _ _ _ _ hnz
    exact absurd (getCell_replicate n r c₁) hnz
  · intro c _ r₁ _ _ _ _ hnz
    exact absurd (getCell_replicate n r₁ c) hnz
  · intro r₁ _ c₁ _ _ _ _ _ _ _ _ hnz
    exact absurd (getCell_replicate n r₁ c₁) hnz

theorem inRange_empty (n : Nat) :
    InRange (List.replicate n (List.replicate n 0)) n := by
  intro r _ c _
  rw [getCell_replicate]
  omega

theorem generatePuzzle_ok_spec (rng : Rng) (variant : PuzzleVariant)
    (difficulty : Difficulty) {size k : Nat} {p : Puzzle}
    (hok : PuzzleGenerator.generatePuzzle rng variant difficulty size k
      = .ok p) :
    isqrt size * isqrt size = size ∧
    p.size = size ∧
    WFGrid p.solution size ∧ CompleteGrid p.solution size ∧
    InRange p.solution size ∧ Consistent p.solution size (isqrt size) ∧
    WFGrid p.initialState size ∧ MaskOf p.initialState p.solution size := by
  unfold PuzzleGenerator.generatePuzzle at hok
  split at hok
  · exact absurd hok (by simp)
  · next hsq =>
    have hb : isqrt size * isqrt size = size := by omega
    dsimp only at hok
    rcases hgen : PuzzleGenerator.generateCompleteSolution rng size
      (PuzzleGenerator.generateBandWisePermutation rng size
        (PuzzleGenerator.generateBandWisePermutation rng size k).2).2
      with ⟨osol, k3⟩
    rw [hgen] at hok
    cases osol with
    | none => exact absurd hok (by simp)
    | some sol0 =>
      dsimp only at hok
      -- facts about the filled grid sol0
      unfold PuzzleGenerator.generateCompleteSolution at hgen
      rcases hsp : PuzzleGenerator.solvePuzzle rng (size * size + 1)
        (List.replicate size (List.replicate size 0)) size
        (PuzzleGenerator.generateBandWisePermutation rng size
          (PuzzleGenerator.generateBandWisePermutation rng size k).2).2
        with ⟨bb, g1, k1⟩
      rw [hsp] at hgen
      cases bb with
      | false => simp at hgen
      | true =>
        dsimp only at hgen
        obtain ⟨hg1, hk1⟩ : g1 = sol0 ∧ k1 = k3 := by
          injection hgen with h1 h2
          injection h1 with h1
          exact ⟨h1, h2⟩
        subst hg1
        have hsound := PG_solvePuzzle_sound rng hb (size * size + 1)
          (List.replicate size (List.replicate size 0))
          (PuzzleGenerator.generateBandWisePermutation rng size
            (PuzzleGenerator.generateBandWisePermutation rng size k).2).2
          (replicate_WF size) (consistent_empty size (isqrt size))
          (inRange_empty size) (by rw [hsp])
        rw [hsp] at hsound
        obtain ⟨hwf0, hcons0, hrange0, hcomp0, _⟩ := hsound
        -- permutations
        have hrp := generateBandWisePermutation_perm rng hb k
        have hcp := generateBandWisePermutation_perm rng hb
          (PuzzleGenerator.generateBandWisePermutation rng size k).2
        -- the permuted solution and the removal result
        have hwfsol := applyPermutation_WF hwf0
          (PuzzleGenerator.generateBandWisePermutation rng size k).1
          (PuzzleGenerator.generateBandWisePermutation rng size
            (PuzzleGenerator.generateBandWisePermutation rng size k).2).1
        have hmaskip := createPuzzleFromSolution_spec rng difficulty k3
          hwfsol
        have hroundtrip := applyPermutation_roundtrip hwf0 hrp hcp
        -- read off the fields of p
        injection hok with hok
        subst hok
        dsimp only
        rw [hroundtrip]
        refine ⟨hb, rfl, hwf0, hcomp0, hrange0, hcons0, ?_, ?_⟩
        · exact applyPermutation_WF hmaskip.2 _ _
        · -- mask transfer through the inverse permutation
          intro i hi j hj
          have hinvp := invertPermutation_isPerm hrp
          have hinvq := invertPermutation_isPerm hcp
          have hpi : (PuzzleGenerator.generateBandWisePermutation rng size
              k).1.getD i 0 < size := hrp.getD_lt hi
          have hqj : (PuzzleGenerator.generateBandWisePermutation rng size
              (PuzzleGenerator.generateBandWisePermutation rng size
                k).2).1.getD j 0 < size := hcp.getD_lt hj
          have hchar := applyPermutation_getCell hmaskip.2 hinvp hinvq
            hpi hqj
          rw [invertPermutation_getD hrp hi,
            invertPermutation_getD hcp hj] at hchar
          rw [hchar]
          have hchar2 := applyPermutation_getCell hwf0 hrp hcp hi hj
          rcases hmaskip.1 _ hpi _ hqj with h | h
          · exact Or.inl h
          · rw [h, hchar2]
            exact Or.inr rfl

-- The generator's capped exhaustive enumeration -------------------------------

/-- The enumeration restores every cell it mutates: the grid it returns is
the grid it was given. -/
theorem findAllSolutions_snd :
    ∀ (fuel : Nat) (g : Grid) (size : Nat) (sols : List Grid) (maxS : Nat),
      (PuzzleGenerator.findAllSolutions fuel g size sols maxS).2 = g
  | 0, _, _, _, _ => rfl
  | fuel + 1, g, size, sols, maxS => by
    rw [PuzzleGenerator.findAllSolutions]
    split
    · rfl
    · cases hfind : PuzzleGenerator.findEmptyCell g size with
      | none => rfl
      | some rc =>
        obtain ⟨r, c⟩ := rc
        obtain ⟨hr, hc, hz⟩ := PG_findEmptyCell_some g size hfind
        dsimp only
        refine foldl_pres_mem _ (fun st : List Grid × Grid => st.2 = g) _ _
          ?_ rfl
        intro st num _ hst
        dsimp only
        split
        · exact hst
        · split
          · dsimp only
            rw [findAllSolutions_snd fuel (setCell st.2 r c num) size st.1
              maxS, setCell_setCell, hst, setCell_self hz]
          · exact hst

/-- The enumeration only appends to the list of collected solutions. -/
theorem findAllSolutions_mono :
    ∀ (fuel : Nat) (g : Grid) (size : Nat) (sols : List Grid) (maxS : Nat),
      sols.length
        ≤ (PuzzleGenerator.findAllSolutions fuel g size sols maxS).1.length
  | 0, _, _, _, _ => le_refl _
  | fuel + 1, g, size, sols, maxS => by
    rw [PuzzleGenerator.findAllSolutions]
    split
    · exact le_refl _
    · cases hfind : PuzzleGenerator.findEmptyCell g size with
      | none => simp
      | some rc =>
        obtain ⟨r, c⟩ := rc
        dsimp only
        refine foldl_pres_mem _
          (fun st : List Grid × Grid => sols.length ≤ st.1.length) _ _ ?_
          (le_refl _)
        intro st num _ hst
        dsimp only
        split
        · exact hst
        · split
          · exact le_trans hst
              (findAllSolutions_mono fuel (setCell st.2 r c num) size st.1
                maxS)
          · exact hst

/-- The enumeration never collects more than `maxSolutions` solutions
(when it starts below the cap). -/
theorem findAllSolutions_le :
    ∀ (fuel : Nat) (g : Grid) (size : Nat) (sols : List Grid) (maxS : Nat),
      (PuzzleGenerator.findAllSolutions fuel g size sols maxS).1.length
        ≤ max sols.length maxS
  | 0, _, _, _, _ => le_max_left _ _
  | fuel + 1, g, size, sols, maxS => by
    rw [PuzzleGenerator.findAllSolutions]
    split
    · exact le_max_left _ _
    · next hcap =>
      cases hfind : PuzzleGenerator.findEmptyCell g size with
      | none =>
        refine le_max_of_le_right ?_
        have : (sols ++ [g]).length = sols.length + 1 := by simp
        dsimp only
        omega
      | some rc =>
        obtain ⟨r, c⟩ := rc
        dsimp only
        refine le_max_of_le_right
          (foldl_pres_mem _
            (fun st : List Grid × Grid => st.1.length ≤ maxS) _ _ ?_
            (show sols.length ≤ maxS by omega))
        intro st num _ hst
        dsimp only
        split
        · exact hst
        · split
          · exact le_trans
              (findAllSolutions_le fuel (setCell st.2 r c num) size st.1
                maxS)
              (max_le hst (le_refl _))
          · exact hst

/-- Along the candidate loop of the enumeration the collected list only
grows. -/
theorem FAS_fold_len_mono (fuel size maxS r c : Nat) :
    ∀ (nums : List Nat) (st : List Grid × Grid),
      st.1.length ≤
        ((nums.foldl
          (fun (st : List Grid × Grid) num =>
            if st.1.length ≥ maxS then st
            else if PuzzleGenerator.isValidMove st.2 r c num size then
              let res := PuzzleGenerator.findAllSolutions fuel
                (setCell st.2 r c num) size st.1 maxS
              (res.1, setCell res.2 r c 0)
            else st) st).1.length) := by
  intro nums
  induction nums with
  | nil => intro st; exact le_refl _
  | cons a rest ih =>
    intro st
    rw [List.foldl_cons]
    refine le_trans ?_ (ih _)
    dsimp only
    split
    · exact le_refl _
    · split
      · exact findAllSolutions_mono fuel (setCell st.2 r c a) size st.1 maxS
      · exact le_refl _

/-- If some candidate in the list is a valid move whose recursive call
reaches the target count from any collected list, the candidate loop
reaches the target count. -/
theorem FAS_fold_complete (fuel size maxS r c : Nat) (g : Grid)
    (hz : getCell g r c = 0) :
    ∀ (nums : List Nat) (st : List Grid × Grid) (m v : Nat),
      v ∈ nums →
      PuzzleGenerator.isValidMove g r c v size = true →
      (∀ sols' : List Grid,
        min (sols'.length + 1) maxS ≤
          (PuzzleGenerator.findAllSolutions fuel (setCell g r c v) size
            sols' maxS).1.length) →
      st.2 = g → m ≤ st.1.length →
      min (m + 1) maxS ≤
        ((nums.foldl
          (fun (st : List Grid × Grid) num =>
            if st.1.length ≥ maxS then st
            else if PuzzleGenerator.isValidMove st.2 r c num size then
              let res := PuzzleGenerator.findAllSolutions fuel
                (setCell st.2 r c num) size st.1 maxS
              (res.1, setCell res.2 r c 0)
            else st) st).1.length) := by
  intro nums
  induction nums with
  | nil => intro st m v hv; exact absurd hv (List.not_mem_nil v)
  | cons a rest ih =>
    intro st m v hv hvalid hrec hst hm
    rw [List.foldl_cons]
    by_cases hcap : st.1.length ≥ maxS
    · dsimp only
      rw [if_pos hcap]
      exact le_trans (min_le_right _ _)
        (le_trans hcap (FAS_fold_len_mono fuel size maxS r c rest st))
    · dsimp only
      rw [if_neg hcap]
      rcases eq_or_ne a v with rfl | hav
      · rw [hst, if_pos hvalid]
        refine le_trans ?_ (FAS_fold_len_mono fuel size maxS r c rest _)
        refine le_trans ?_ (hrec st.1)
        exact min_le_min (by omega) (le_refl _)
      · have hvrest : v ∈ rest := by
          rcases List.mem_cons.mp hv with rfl | hmem
          · exact absurd rfl hav
          · exact hmem
        by_cases hva : PuzzleGenerator.isValidMove st.2 r c a size = true
        · rw [if_pos hva]
          refine ih _ m v hvrest hvalid hrec ?_ ?_
          · show setCell (PuzzleGenerator.findAllSolutions fuel
              (setCell st.2 r c a) size st.1 maxS).2 r c 0 = g
            rw [findAllSolutions_snd fuel (setCell st.2 r c a) size st.1
              maxS, setCell_setCell, hst, setCell_self hz]
          · exact le_trans hm
              (findAllSolutions_mono fuel (setCell st.2 r c a) size st.1
                maxS)
        · rw [if_neg hva]
          exact ih st m v hvrest hvalid hrec hst hm

/-- Completeness of the capped enumeration: whenever some complete legal
grid extends the current grid and the fuel exceeds the number of empty
cells, the enumeration collects at least one more solution than it
started with (up to the cap). -/
theorem findAllSolutions_complete {n b : Nat} (hb : b * b = n) :
    ∀ (fuel : Nat) (g : Grid) (sols : List Grid) (maxS : Nat) (h : Grid),
      WFGrid g n → ExtendsGrid g h n → WFGrid h n → Consistent h n b →
      CompleteGrid h n → InRange h n → countZeros g n < fuel →
      min (sols.length + 1) maxS ≤
        (PuzzleGenerator.findAllSolutions fuel g n sols maxS).1.length := by
  intro fuel
  induction fuel with
  | zero => intro g sols maxS h _ _ _ _ _ _ hfuel; omega
  | succ fuel ih =>
    intro g sols maxS h hwf hext hwfh hconsh hcomph hrangeh hfuel
    rw [PuzzleGenerator.findAllSolutions]
    split
    · next hcap => exact le_trans (min_le_right _ _) hcap
    · cases hfind : PuzzleGenerator.findEmptyCell g n with
      | none =>
        dsimp only
        have hlen : (sols ++ [g]).length = sols.length + 1 := by simp
        rw [hlen]
        exact min_le_left _ _
      | some rc =>
        obtain ⟨r, c⟩ := rc
        obtain ⟨hr, hc, hz⟩ := PG_findEmptyCell_some g n hfind
        dsimp only
        obtain ⟨v, hv⟩ : ∃ v, getCell h r c = v := ⟨_, rfl⟩
        have hv0 : v ≠ 0 := hv ▸ hcomph r hr c hc
        have hvn : v ≤ n := hv ▸ hrangeh r hr c hc
        have hvalid : PuzzleGenerator.isValidMove g r c v n = true :=
          hv ▸ isValidMove_of_completion hb hcomph hconsh hext hr hc hz
        have hvmem : v ∈ List.range' 1 n := by
          rw [List.mem_range']
          exact ⟨v - 1, by omega, by omega⟩
        have hrec : ∀ sols' : List Grid,
            min (sols'.length + 1) maxS ≤
              (PuzzleGenerator.findAllSolutions fuel (setCell g r c v) n
                sols' maxS).1.length := by
          intro sols'
          have hcz := countZeros_setCell hwf hr hc hz hv0
          exact ih (setCell g r c v) sols' maxS h (setCell_WF r c v hwf)
            (extendsGrid_setCell_of_completion hwf hr hc hext hv)
            hwfh hconsh hcomph hrangeh (by omega)
        exact FAS_fold_complete fuel n maxS r c g hz (List.range' 1 n)
          (sols, g) sols.length v hvmem hvalid hrec rfl (le_refl _)

-- The solvability gate of the Hard/Expert removal loop ------------------------

theorem maskOf_inRange {g sol : Grid} {n : Nat} (hmask : MaskOf g sol n)
    (hrange : InRange sol n) : InRange g n := by
  intro r hr c hc
  rcases hmask r hr c hc with h | h
  · rw [h]; omega
  · rw [h]; exact hrange r hr c hc

theorem maskOf_consistent {g sol : Grid} {n b : Nat}
    (hmask : MaskOf g sol n) (hcons : Consistent sol n b) :
    Consistent g n b := by
  obtain ⟨hrows, hcols, hboxes⟩ := hcons
  refine ⟨?_, ?_, ?_⟩
  · intro r hr c₁ hc₁ c₂ hc₂ hne hnz
    rcases hmask r hr c₁ hc₁ with h1 | h1
    · exact absurd h1 hnz
    · rcases hmask r hr c₂ hc₂ with h2 | h2
      · rw [h2]; exact hnz
      · rw [h1, h2]
        exact hrows r hr c₁ hc₁ c₂ hc₂ hne (h1 ▸ hnz)
  · intro c hc r₁ hr₁ r₂ hr₂ hne hnz
    rcases hmask r₁ hr₁ c hc with h1 | h1
    · exact absurd h1 hnz
    · rcases hmask r₂ hr₂ c hc with h2 | h2
      · rw [h2]; exact hnz
      · rw [h1, h2]
        exact hcols c hc r₁ hr₁ r₂ hr₂ hne (h1 ▸ hnz)
  · intro r₁ hr₁ c₁ hc₁ r₂ hr₂ c₂ hc₂ hbr hbc hne hnz
    rcases hmask r₁ hr₁ c₁ hc₁ with h1 | h1
    · exact absurd h1 hnz
    · rcases hmask r₂ hr₂ c₂ hc₂ with h2 | h2
      · rw [h2]; exact hnz
      · rw [h1, h2]
        exact hboxes r₁ hr₁ c₁ hc₁ r₂ hr₂ c₂ hc₂ hbr hbc hne (h1 ▸ hnz)

/-- `hasAnySolution` succeeds on every mask of a complete legal grid: the
blanked solution itself is a completion the exhaustive search finds. -/
theorem hasAnySolution_of_mask (rng : Rng) {n b : Nat} (hb : b * b = n)
    {g sol : Grid} (k : Nat) (hwf : WFGrid g n) (hmask : MaskOf g sol n)
    (hwfs : WFGrid sol n) (hcomp : CompleteGrid sol n)
    (hrange : InRange sol n) (hcons : Consistent sol n b) :
    (PuzzleGenerator.hasAnySolution rng g n k).1 = true := by
  unfold PuzzleGenerator.hasAnySolution
  dsimp only
  exact PG_solvePuzzle_complete rng hb (n * n + 1) g k sol hwf
    (maskOf_extends hmask) hwfs hcons hcomp hrange
    (by have := countZeros_le g n; omega)

/-- On masks of a complete legal grid, the gated removal loop removes
exactly the cells the permissive policy removes: the solvability gate
always passes and the restore branch is unreachable. -/
theorem createHardGo_ungated_eq (rng : Rng) {n b : Nat} (hb : b * b = n)
    {sol : Grid} (hwfs : WFGrid sol n) (hcomp : CompleteGrid sol n)
    (hrange : InRange sol n) (hcons : Consistent sol n b) (target : Nat) :
    ∀ (positions : List Position) (puz : Grid) (clues attempts k : Nat),
      MaskOf puz sol n → WFGrid puz n →
      (PuzzleGenerator.createHardGo rng target n positions puz clues
        attempts k).1 =
        PuzzleGenerator.createHardGoUngated target positions puz clues
          attempts
  | [], _, _, _, _, _, _ => rfl
  | pos :: rest, puz, clues, attempts, k, hmask, hwf => by
    rw [PuzzleGenerator.createHardGo, PuzzleGenerator.createHardGoUngated]
    by_cases h1 : clues ≤ target ∨ attempts ≥ 200
    · rw [if_pos h1, if_pos h1]
    · rw [if_neg h1, if_neg h1]
      by_cases h2 : getCell puz pos.row pos.col = 0
      · rw [if_pos h2, if_pos h2]
        exact createHardGo_ungated_eq rng hb hwfs hcomp hrange hcons target
          rest puz clues (attempts + 1) k hmask hwf
      · rw [if_neg h2, if_neg h2]
        dsimp only
        by_cases h3 : (attempts + 1) % 5 = 0
        · rw [if_pos h3]
          have hgate := hasAnySolution_of_mask rng hb k
            (setCell_WF pos.row pos.col 0 hwf)
            (maskOf_setCell_zero hmask pos.row pos.col) hwfs hcomp hrange
            hcons
          rcases hres : PuzzleGenerator.hasAnySolution rng
              (setCell puz pos.row pos.col 0) n k with ⟨b1, k1⟩
          rw [hres] at hgate
          cases b1 with
          | false => exact absurd hgate (by simp)
          | true =>
            dsimp only
            exact createHardGo_ungated_eq rng hb hwfs hcomp hrange hcons
              target rest (setCell puz pos.row pos.col 0) (clues - 1)
              (attempts + 1) k1 (maskOf_setCell_zero hmask _ _)
              (setCell_WF _ _ _ hwf)
        · rw [if_neg h3]
          exact createHardGo_ungated_eq rng hb hwfs hcomp hrange hcons
            target rest (setCell puz pos.row pos.col 0) (clues - 1)
            (attempts + 1) k (maskOf_setCell_zero hmask _ _)
            (setCell_WF _ _ _ hwf)

-- Additional helpers for the closing theorems ---------------------------------

theorem extendsGrid_empty (h : Grid) (n : Nat) :
    ExtendsGrid (List.replicate n (List.replicate n 0)) h n := by
  intro r hr c hc hnz
  rw [getCell_replicate] at hnz
  exact absurd rfl hnz

/-- If the clock budget is already exhausted when a node of the
enumeration is entered (and neither cap has fired), the node returns its
solution list unchanged. -/
theorem findAllTimeout_timedout (clock : Nat → Nat) (t0 timeout : Nat)
    (fuel : Nat) (g : Grid) (size : Nat) (sols : List Grid)
    (maxS depth k : Nat)
    (hcap : ¬(sols.length ≥ maxS ∨ depth > 81))
    (h : clock k - t0 > timeout) :
    (PuzzleSolver.findAllSolutionsWithTimeout clock t0 timeout fuel g size
      sols maxS depth k).1 = sols := by
  cases fuel with
  | zero => rfl
  | succ fuel =>
    rw [PuzzleSolver.findAllSolutionsWithTimeout]
    rw [if_neg hcap, if_pos h]

/-- A successful generation for any rng outcome, given some complete
legal grid of the requested (perfect-square) size. -/
theorem generatePuzzle_ok_of_legal {n : Nat} (hb : isqrt n * isqrt n = n)
    (sol : Grid) (hwf : WFGrid sol n) (hcomp : CompleteGrid sol n)
    (hrange : InRange sol n) (hcons : Consistent sol n (isqrt n))
    (rng : Rng) (variant : PuzzleVariant) (difficulty : Difficulty)
    (k : Nat) (e : PuzzleGenerator.GenError) :
    PuzzleGenerator.generatePuzzle rng variant difficulty n k
      ≠ .error e := by
  unfold PuzzleGenerator.generatePuzzle
  rw [if_neg (by omega)]
  dsimp only
  rcases hgen : PuzzleGenerator.generateCompleteSolution rng n
      (PuzzleGenerator.generateBandWisePermutation rng n
        (PuzzleGenerator.generateBandWisePermutation rng n k).2).2
    with ⟨osol, k3⟩
  cases osol with
  | some sol0 => simp
  | none =>
    exfalso
    unfold PuzzleGenerator.generateCompleteSolution at hgen
    rcases hsp : PuzzleGenerator.solvePuzzle rng (n * n + 1)
        (List.replicate n (List.replicate n 0)) n
        (PuzzleGenerator.generateBandWisePermutation rng n
          (PuzzleGenerator.generateBandWisePermutation rng n k).2).2
      with ⟨bb, g1, k1⟩
    rw [hsp] at hgen
    have hbb := PG_solvePuzzle_complete rng hb (n * n + 1)
      (List.replicate n (List.replicate n 0))
      (PuzzleGenerator.generateBandWisePermutation rng n
        (PuzzleGenerator.generateBandWisePermutation rng n k).2).2
      sol (replicate_WF n) (extendsGrid_empty sol n) hwf hcons hcomp hrange
      (by have := countZeros_le (List.replicate n (List.replicate n 0)) n
          omega)
    rw [hsp] at hbb
    cases bb
    · simp at hbb
    · simp at hgen

-- Concrete data for the closing instances -------------------------------------

/-- The all-zeros outcome of the random oracle. -/
def rng0 : Rng := fun _ => 0

/-- A degenerate puzzle record, the default of the extraction functions
below (never actually selected). -/
def emptyPuzzle : Puzzle :=
  ⟨.classic, .easy, 0, [], [], ⟨0, [], 0, 0, 0, []⟩, 0⟩

/-- The puzzle returned by a concrete 1×1 easy generation. -/
def p1w : Puzzle :=
  match PuzzleGenerator.generatePuzzle rng0 .classic .easy 1 0 with
  | .ok p => p
  | .error _ => emptyPuzzle

/-- The puzzle returned by a concrete 4×4 expert generation. -/
def p4e : Puzzle :=
  match PuzzleGenerator.generatePuzzle rng0 .classic .expert 4 0 with
  | .ok p => p
  | .error _ => emptyPuzzle

/-- A clock that jumps past the 5-second budget after six ticks. -/
def clk6 : Nat → Nat := fun k => if k < 6 then 0 else 6000

/-- A clock that jumps past the 5-second budget after the initial
`Date.now()` reading. -/
def clkW : Nat → Nat := fun k => if k = 0 then 0 else 6000

/-- A solved 4×4 grid (shifted-rows construction). -/
def solvedGrid4 : Grid :=
  (List.range 4).map (fun i =>
    (List.range 4).map (fun j => (2 * (i % 2) + i / 2 + j) % 4 + 1))

/-- A solved 9×9 grid (shifted-rows construction). -/
def solvedGrid9 : Grid :=
  (List.range 9).map (fun i =>
    (List.range 9).map (fun j => (3 * (i % 3) + i / 3 + j) % 9 + 1))

/-- A solved 16×16 grid (shifted-rows construction). -/
def solvedGrid16 : Grid :=
  (List.range 16).map (fun i =>
    (List.range 16).map (fun j => (4 * (i % 4) + i / 4 + j) % 16 + 1))

/-- A 9×9 puzzle record whose initial state is already solved. -/
def p9 : Puzzle :=
  ⟨.classic, .easy, 9, solvedGrid9, solvedGrid9, ⟨0, [], 0, 0, 0, []⟩, 0⟩

/-- A tiny two-row heap. -/
def heap0 : Heap := [[1, 0], [0, 2]]

/-- A 2×2 puzzle whose grids live in `heap0`. -/
def pref0 : PuzzleRef := ⟨.classic, .easy, 2, [0, 1], [0, 1]⟩

theorem solvedGrid4_legal : WFGrid solvedGrid4 4 ∧
    CompleteGrid solvedGrid4 4 ∧ InRange solvedGrid4 4 ∧
    Consistent solvedGrid4 4 (isqrt 4) := by decide

theorem solvedGrid9_legal : WFGrid solvedGrid9 9 ∧
    CompleteGrid solvedGrid9 9 ∧ InRange solvedGrid9 9 ∧
    Consistent solvedGrid9 9 (isqrt 9) := by decide

set_option maxRecDepth 100000 in
set_option maxHeartbeats 64000000 in
theorem solvedGrid16_legal : WFGrid solvedGrid16 16 ∧
    CompleteGrid solvedGrid16 16 ∧ InRange solvedGrid16 16 ∧
    Consistent solvedGrid16 16 (isqrt 16) := by decide

-- Claim C1 --------------------------------------------------------------------

/-- C1: for every Puzzle returned by `generatePuzzle` (any outcome of the
internal random choices, any supported size), every nonzero cell of the
returned `initialState` equals the cell at the same coordinates of the
returned `solution`, and the returned solution is complete (no zero
cells) and legal under the row, column and box constraints. -/
theorem generatePuzzle_mask_and_legal_solution (rng : Rng)
    (variant : PuzzleVariant) (difficulty : Difficulty) (size k : Nat)
    (p : Puzzle)
    (hok : PuzzleGenerator.generatePuzzle rng variant difficulty size k
      = .ok p) :
    (∀ i, i < size → ∀ j, j < size → getCell p.initialState i j ≠ 0 →
      getCell p.initialState i j = getCell p.solution i j) ∧
    WFGrid p.solution size ∧ CompleteGrid p.solution size ∧
    InRange p.solution size ∧ Consistent p.solution size (isqrt size) := by
  obtain ⟨hb, hsize, hwf, hcomp, hrange, hcons, hwfi, hmask⟩ :=
    generatePuzzle_ok_spec rng variant difficulty hok
  refine ⟨?_, hwf, hcomp, hrange, hcons⟩
  intro i hi j hj hnz
  rcases hmask i hi j hj with h | h
  · exact absurd h hnz
  · exact h

/-- Witness for C1: a concrete 1×1 generation. -/
theorem generatePuzzle_mask_and_legal_solution_witness :
    WFGrid p1w.solution 1 ∧ CompleteGrid p1w.solution 1 ∧
    InRange p1w.solution 1 ∧ Consistent p1w.solution 1 (isqrt 1) :=
  (generatePuzzle_mask_and_legal_solution rng0 .classic .easy 1 0 p1w
    rfl).2

-- Claim C2 --------------------------------------------------------------------

/-- C2 (amended): for every Puzzle returned by `generatePuzzle`, the
backtracking enumeration of the initial state capped at two finds one or
two completions — at least the blanked solution — and
`validateUniqueSolution` returns true exactly when it finds one.  The
claim as stated (always true) fails: see the counterexample, a returned
4×4 EXPERT puzzle whose enumeration finds a second completion. -/
theorem generatePuzzle_enumeration_finds_solution (rng : Rng)
    (variant : PuzzleVariant) (difficulty : Difficulty) (size k : Nat)
    (p : Puzzle)
    (hok : PuzzleGenerator.generatePuzzle rng variant difficulty size k
      = .ok p) :
    1 ≤ (PuzzleGenerator.findAllSolutions (size * size + 1) p.initialState
      size [] 2).1.length ∧
    (PuzzleGenerator.findAllSolutions (size * size + 1) p.initialState
      size [] 2).1.length ≤ 2 ∧
    (PuzzleGenerator.validateUniqueSolution p.initialState = true ↔
      (PuzzleGenerator.findAllSolutions (size * size + 1) p.initialState
        size [] 2).1.length = 1) := by
  obtain ⟨hb, hsize, hwf, hcomp, hrange, hcons, hwfi, hmask⟩ :=
    generatePuzzle_ok_spec rng variant difficulty hok
  have hlen : p.initialState.length = size := hwfi.1
  have h1 := findAllSolutions_complete hb (size * size + 1) p.initialState
    [] 2 p.solution hwfi (maskOf_extends hmask) hwf hcons hcomp hrange
    (by have := countZeros_le p.initialState size; omega)
  have h2 := findAllSolutions_le (size * size + 1) p.initialState size [] 2
  refine ⟨by simp at h1; omega, by simp at h2; omega, ?_⟩
  unfold PuzzleGenerator.validateUniqueSolution
  dsimp only
  rw [hlen]
  simp only [decide_eq_true_eq]

/-- Witness for C2: the concrete 1×1 generation. -/
theorem generatePuzzle_enumeration_finds_solution_witness :
    1 ≤ (PuzzleGenerator.findAllSolutions (1 * 1 + 1) p1w.initialState
      1 [] 2).1.length ∧
    (PuzzleGenerator.findAllSolutions (1 * 1 + 1) p1w.initialState
      1 [] 2).1.length ≤ 2 ∧
    (PuzzleGenerator.validateUniqueSolution p1w.initialState = true ↔
      (PuzzleGenerator.findAllSolutions (1 * 1 + 1) p1w.initialState
        1 [] 2).1.length = 1) :=
  generatePuzzle_enumeration_finds_solution rng0 .classic .easy 1 0 p1w rfl

set_option maxHeartbeats 16000000 in
/-- Counterexample for C2 as stated: a concrete 4×4 EXPERT generation
returns a puzzle whose initial state fails `validateUniqueSolution`. -/
theorem generatePuzzle_unique_validation_counterexample :
    PuzzleGenerator.generatePuzzle rng0 .classic .expert 4 0 = .ok p4e ∧
    PuzzleGenerator.validateUniqueSolution p4e.initialState = false :=
  ⟨rfl, rfl⟩

-- Claim C3 --------------------------------------------------------------------

/-- C3 (amended): if the wall-clock budget is exhausted at the first
timeout check, `hasUniqueSolution` collects no solution and returns
false.  The claim as stated — a timed-out search never certifies
uniqueness regardless of how many solutions were collected — fails: a
search that times out after collecting exactly one solution returns
true (see the counterexample). -/
theorem hasUniqueSolution_timeout_at_start (clock : Nat → Nat)
    (grid : Grid) (h : 5000 < clock 1 - clock 0) :
    PuzzleSolver.hasUniqueSolution clock grid = false := by
  unfold PuzzleSolver.hasUniqueSolution
  dsimp only
  rw [findAllTimeout_timedout clock (clock 0) 5000 84 grid grid.length []
    2 0 1 (by simp) (by omega)]
  rfl

/-- Witness for C3: a clock that exceeds the budget right after the
initial reading. -/
theorem hasUniqueSolution_timeout_at_start_witness :
    PuzzleSolver.hasUniqueSolution clkW [[0, 0], [0, 0]] = false :=
  hasUniqueSolution_timeout_at_start clkW [[0, 0], [0, 0]] (by decide)

/-- Counterexample for C3 as stated: the all-empty 2×2 grid has two
completions (third conjunct; with an ample clock `hasUniqueSolution`
accordingly returns false, second conjunct), yet with a clock that runs
out after six ticks the enumeration stops having collected exactly one
solution and `hasUniqueSolution` certifies uniqueness. -/
theorem hasUniqueSolution_timeout_counterexample :
    PuzzleSolver.hasUniqueSolution clk6 [[0, 0], [0, 0]] = true ∧
    PuzzleSolver.hasUniqueSolution (fun _ => 0) [[0, 0], [0, 0]] = false ∧
    (PuzzleSolver.findAllSolutionsWithTimeout (fun _ => 0) 0 5000 84
      [[0, 0], [0, 0]] 2 [] 2 0 1).1.length = 2 :=
  ⟨rfl, rfl, rfl⟩

-- Claim C4 --------------------------------------------------------------------

/-- C4 (amended): `generatePuzzle` raises the invalid-size error exactly
when the requested size's square root is not an integer.  Of the sizes
the spec lists as supported, 9 and 16 generate a puzzle, but 6 is not a
perfect square and is rejected (see the counterexample). -/
theorem generatePuzzle_invalid_size_iff (rng : Rng)
    (variant : PuzzleVariant) (difficulty : Difficulty) (k : Nat) :
    (∀ size,
      (PuzzleGenerator.generatePuzzle rng variant difficulty size k
        = .error .invalidSize) ↔ isqrt size * isqrt size ≠ size) ∧
    (∀ size, size = 9 ∨ size = 16 →
      ∀ e : PuzzleGenerator.GenError,
        PuzzleGenerator.generatePuzzle rng variant difficulty size k
          ≠ .error e) := by
  constructor
  · intro size
    constructor
    · intro heq
      by_cases hsq : isqrt size * isqrt size = size
      · exfalso
        unfold PuzzleGenerator.generatePuzzle at heq
        rw [if_neg (by omega)] at heq
        dsimp only at heq
        rcases hgen : PuzzleGenerator.generateCompleteSolution rng size
            (PuzzleGenerator.generateBandWisePermutation rng size
              (PuzzleGenerator.generateBandWisePermutation rng size
                k).2).2
          with ⟨osol, k3⟩
        rw [hgen] at heq
        cases osol with
        | none => simp at heq
        | some sol0 => simp at heq
      · exact hsq
    · intro hne
      unfold PuzzleGenerator.generatePuzzle
      rw [if_pos hne]
  · intro size hsz e
    rcases hsz with rfl | rfl
    · exact generatePuzzle_ok_of_legal (by decide) solvedGrid9
        solvedGrid9_legal.1 solvedGrid9_legal.2.1 solvedGrid9_legal.2.2.1
        solvedGrid9_legal.2.2.2 rng variant difficulty k e
    · exact generatePuzzle_ok_of_legal (by decide) solvedGrid16
        solvedGrid16_legal.1 solvedGrid16_legal.2.1
        solvedGrid16_legal.2.2.1 solvedGrid16_legal.2.2.2 rng variant
        difficulty k e

/-- Witness for C4: sizes 9 and 16 raise neither generation error. -/
theorem generatePuzzle_invalid_size_iff_witness :
    PuzzleGenerator.generatePuzzle rng0 .classic .easy 9 0
      ≠ .error .invalidSize ∧
    PuzzleGenerator.generatePuzzle rng0 .classic .easy 9 0
      ≠ .error .generationFailed ∧
    PuzzleGenerator.generatePuzzle rng0 .classic .easy 16 0
      ≠ .error .invalidSize ∧
    PuzzleGenerator.generatePuzzle rng0 .classic .easy 16 0
      ≠ .error .generationFailed :=
  ⟨(generatePuzzle_invalid_size_iff rng0 .classic .easy 0).2 9 (Or.inl rfl)
      .invalidSize,
   (generatePuzzle_invalid_size_iff rng0 .classic .easy 0).2 9 (Or.inl rfl)
      .generationFailed,
   (generatePuzzle_invalid_size_iff rng0 .classic .easy 0).2 16
      (Or.inr rfl) .invalidSize,
   (generatePuzzle_invalid_size_iff rng0 .classic .easy 0).2 16
      (Or.inr rfl) .generationFailed⟩

/-- Counterexample for C4 as stated: the spec-listed size 6 is rejected
with the invalid-size error. -/
theorem generatePuzzle_size_six_counterexample :
    PuzzleGenerator.generatePuzzle rng0 .classic .easy 6 0
      = .error .invalidSize := rfl

-- Claim C5 --------------------------------------------------------------------

/-- C5: on every grid obtained from a complete legal grid by blanking
cells, `hasAnySolution` returns true (the blanked solution is still a
completion the exhaustive search finds); consequently the every-5th-
removal solvability gate of `createHardPuzzle` always passes, its
restore branch is unreachable, and gated removal deletes cells exactly
as the permissive (ungated) policy does. -/
theorem hasAnySolution_gate_always_passes (rng : Rng) {n : Nat}
    (hb : isqrt n * isqrt n = n) {sol : Grid} (hwfs : WFGrid sol n)
    (hcomp : CompleteGrid sol n) (hrange : InRange sol n)
    (hcons : Consistent sol n (isqrt n)) :
    (∀ (g : Grid) (k : Nat), WFGrid g n → MaskOf g sol n →
      (PuzzleGenerator.hasAnySolution rng g n k).1 = true) ∧
    (∀ (target : Nat) (positions : List Position) (puz : Grid)
        (clues attempts k : Nat), MaskOf puz sol n → WFGrid puz n →
      (PuzzleGenerator.createHardGo rng target n positions puz clues
        attempts k).1 =
        PuzzleGenerator.createHardGoUngated target positions puz clues
          attempts) :=
  ⟨fun g k hwf hmask =>
      hasAnySolution_of_mask rng hb k hwf hmask hwfs hcomp hrange hcons,
    fun target positions puz clues attempts k hmask hwf =>
      createHardGo_ungated_eq rng hb hwfs hcomp hrange hcons target
        positions puz clues attempts k hmask hwf⟩

/-- Witness for C5: a solved 4×4 grid with one cell blanked. -/
theorem hasAnySolution_gate_always_passes_witness :
    (PuzzleGenerator.hasAnySolution rng0 (setCell solvedGrid4 0 0 0) 4
      0).1 = true ∧
    (PuzzleGenerator.createHardGo rng0 2 4 [⟨0, 0⟩, ⟨1, 1⟩]
      (setCell solvedGrid4 0 0 0) 16 0 0).1 =
      PuzzleGenerator.createHardGoUngated 2 [⟨0, 0⟩, ⟨1, 1⟩]
        (setCell solvedGrid4 0 0 0) 16 0 := by
  have T := hasAnySolution_gate_always_passes rng0 (by decide)
    solvedGrid4_legal.1 solvedGrid4_legal.2.1 solvedGrid4_legal.2.2.1
    solvedGrid4_legal.2.2.2
  exact ⟨T.1 (setCell solvedGrid4 0 0 0) 0 (by decide) (by decide),
    T.2 2 [⟨0, 0⟩, ⟨1, 1⟩] (setCell solvedGrid4 0 0 0) 16 0 0 (by decide)
      (by decide)⟩

-- Claim C6 --------------------------------------------------------------------

/-- C6: for every complete grid legal under the row, column and box
constraints, `validateGrid` returns isValid, isComplete, an empty error
list and an empty conflicting-cell list. -/
theorem validatePuzzle_complete_legal_clean {g : Grid} {n : Nat}
    (hb : isqrt n * isqrt n = n) (hwf : WFGrid g n)
    (hcomp : CompleteGrid g n) (hrange : InRange g n)
    (hcons : Consistent g n (isqrt n)) :
    PuzzleSolver.validatePuzzle g =
      { isValid := true, errors := [], isComplete := true,
        conflictingCells := [] } :=
  validatePuzzle_clean hb hwf hcomp hrange hcons

/-- Witness for C6: the solved 4×4 grid. -/
theorem validatePuzzle_complete_legal_clean_witness :
    PuzzleSolver.validatePuzzle solvedGrid4 =
      { isValid := true, errors := [], isComplete := true,
        conflictingCells := [] } :=
  validatePuzzle_complete_legal_clean (n := 4) (by decide) (by decide)
    (by decide) (by decide) (by decide)

-- Claim C7 --------------------------------------------------------------------

/-- C7: every grid with more than 81 empty cells — in particular every
16×16 grid with fewer than 175 clues — is reported non-unique by
`hasUniqueSolution` regardless of the clock and of the grid's true
number of completions: the depth-capped enumeration can never record a
completion. -/
theorem hasUniqueSolution_large_grid_false (clock : Nat → Nat)
    (grid : Grid) (h : 81 < countZeros grid grid.length) :
    PuzzleSolver.hasUniqueSolution clock grid = false := by
  unfold PuzzleSolver.hasUniqueSolution
  dsimp only
  rw [findAllTimeout_no_completion clock (clock 0) 5000 84 grid
    grid.length [] 2 0 1 (by omega)]
  rfl

set_option maxRecDepth 100000 in
/-- Witness for C7: the all-empty 16×16 grid. -/
theorem hasUniqueSolution_large_grid_false_witness :
    PuzzleSolver.hasUniqueSolution (fun _ => 0)
      (List.replicate 16 (List.replicate 16 0)) = false :=
  hasUniqueSolution_large_grid_false (fun _ => 0)
    (List.replicate 16 (List.replicate 16 0)) (by decide)

-- Claim C8 --------------------------------------------------------------------

/-- C8: applying `applyPermutation` with permutations `p`, `q` of
`0..n-1` and then with their `invertPermutation`s yields the original
grid cell for cell; and the band-wise permutations the generator
produces are permutations of `0..n-1`. -/
theorem applyPermutation_inverse_roundtrip :
    (∀ (g : Grid) (n : Nat) (p q : List Nat), WFGrid g n →
      IsPermList p n → IsPermList q n →
      PuzzleGenerator.applyPermutation
        (PuzzleGenerator.applyPermutation g p q)
        (PuzzleGenerator.invertPermutation p)
        (PuzzleGenerator.invertPermutation q) = g) ∧
    (∀ (rng : Rng) (size k : Nat), isqrt size * isqrt size = size →
      IsPermList
        (PuzzleGenerator.generateBandWisePermutation rng size k).1 size) :=
  ⟨fun _ _ _ _ hwf hp hq => applyPermutation_roundtrip hwf hp hq,
    fun rng _ k hb => generateBandWisePermutation_perm rng hb k⟩

/-- Witness for C8: a 2×2 grid with the swap permutation, and a concrete
band-wise permutation at size 4. -/
theorem applyPermutation_inverse_roundtrip_witness :
    PuzzleGenerator.applyPermutation
      (PuzzleGenerator.applyPermutation [[1, 2], [3, 4]] [1, 0] [1, 0])
      (PuzzleGenerator.invertPermutation [1, 0])
      (PuzzleGenerator.invertPermutation [1, 0]) = [[1, 2], [3, 4]] ∧
    IsPermList
      (PuzzleGenerator.generateBandWisePermutation rng0 4 0).1 4 :=
  ⟨applyPermutation_inverse_roundtrip.1 [[1, 2], [3, 4]] 2 [1, 0] [1, 0]
      (by decide) (by decide) (by decide),
    applyPermutation_inverse_roundtrip.2 rng0 4 0 (by decide)⟩

-- Claim C9 --------------------------------------------------------------------

/-- C9: `solvePuzzle` never mutates the caller's puzzle record: after
the call, the puzzle's `initialState` and `solution` read back from the
heap cell for cell as before, whatever result the solver returns (the
remaining fields are immutable values). -/
theorem solvePuzzle_frame (clock : Nat → Nat) (h : Heap) (p : PuzzleRef)
    (hinit : ∀ ref ∈ p.initialState, ref < h.length)
    (hsol : ∀ ref ∈ p.solution, ref < h.length) :
    derefGrid (solvePuzzleHeap clock h p).2 p.initialState =
      derefGrid h p.initialState ∧
    derefGrid (solvePuzzleHeap clock h p).2 p.solution =
      derefGrid h p.solution :=
  ⟨derefGrid_frame clock h p p.initialState hinit,
    derefGrid_frame clock h p p.solution hsol⟩

/-- Witness for C9: a concrete two-row heap. -/
theorem solvePuzzle_frame_witness :
    derefGrid (solvePuzzleHeap (fun _ => 0) heap0 pref0).2
      pref0.initialState = derefGrid heap0 pref0.initialState ∧
    derefGrid (solvePuzzleHeap (fun _ => 0) heap0 pref0).2
      pref0.solution = derefGrid heap0 pref0.solution :=
  solvePuzzle_frame (fun _ => 0) heap0 pref0 (by decide) (by decide)

-- Claim C10 -------------------------------------------------------------------

/-- C10: the confidence field of the result of `calibrateDifficulty`
always lies in [0.1, 1]; for a 9×9 puzzle whose analysed technique
count is between 1 and 8 and whose difficulty score is between 0.1 and
9, the confidence is at least 0.85. -/
theorem calibrateDifficulty_confidence_bounds (logO : ℚ → ℚ)
    (puzzle : Puzzle) (forGeneration : Bool) :
    (1/10 ≤ (DifficultyCalibrator.calibrateDifficulty logO puzzle
        forGeneration).confidence ∧
      (DifficultyCalibrator.calibrateDifficulty logO puzzle
        forGeneration).confidence ≤ 1) ∧
    (puzzle.size = 9 →
      1 ≤ (DifficultyCalibrator.analyzeTechniques puzzle
        forGeneration).length →
      (DifficultyCalibrator.analyzeTechniques puzzle
        forGeneration).length ≤ 8 →
      1/10 ≤ (DifficultyCalibrator.calibrateDifficulty logO puzzle
        forGeneration).difficultyScore →
      (DifficultyCalibrator.calibrateDifficulty logO puzzle
        forGeneration).difficultyScore ≤ 9 →
      85/100 ≤ (DifficultyCalibrator.calibrateDifficulty logO puzzle
        forGeneration).confidence) := by
  constructor
  · exact calculateConfidence_bounds logO puzzle _
  · intro hsize hlo hhi hslo hshi
    exact calculateConfidence_floor logO puzzle _ hsize hlo hhi hslo hshi

/-- Witness for C10: a solved 9×9 puzzle record, whose analysis yields
one technique and score 0.1 under the constant-1 log oracle; its
confidence is exactly the floor 0.85. -/
theorem calibrateDifficulty_confidence_bounds_witness :
    (1/10 ≤ (DifficultyCalibrator.calibrateDifficulty (fun _ => 1) p9
        true).confidence ∧
      (DifficultyCalibrator.calibrateDifficulty (fun _ => 1) p9
        true).confidence ≤ 1) ∧
    85/100 ≤ (DifficultyCalibrator.calibrateDifficulty (fun _ => 1) p9
      true).confidence := by
  have hT : DifficultyCalibrator.analyzeTechniques p9 true =
      [{ technique := .nakedSingles, frequency := ((1 : Nat) : ℚ),
         complexity := 1/10, timeImpact := 1 }] := by
    have hL : DifficultyCalibrator.analyzeLoop Difficulty.easy 100
        solvedGrid9 [] = [] := rfl
    have hE : DifficultyCalibrator.countEmptyCells solvedGrid9 = 0 := rfl
    unfold DifficultyCalibrator.analyzeTechniques
    dsimp only [p9]
    rw [hL, hE]
    norm_num [DifficultyCalibrator.usageSet, DifficultyCalibrator.usageGet,
      DifficultyCalibrator.complexityOf, DifficultyCalibrator.timeImpactOf]
  have T := calibrateDifficulty_confidence_bounds (fun _ => 1) p9 true
  refine ⟨T.1, T.2 rfl ?_ ?_ ?_ ?_⟩
  · rw [hT]; norm_num
  · rw [hT]; norm_num
  · show 1/10 ≤ DifficultyCalibrator.calculateDifficultyScore (fun _ => 1)
      (DifficultyCalibrator.analyzeTechniques p9 true)
    rw [hT]
    norm_num [DifficultyCalibrator.calculateDifficultyScore, min_def]
  · show DifficultyCalibrator.calculateDifficultyScore (fun _ => 1)
      (DifficultyCalibrator.analyzeTechniques p9 true) ≤ 9
    rw [hT]
    norm_num [DifficultyCalibrator.calculateDifficultyScore, min_def]
